/-
Verification of the chess-practice core against its specification.

This file shallowly embeds the Python sources under src/chess/ into Lean:
  - constants.py   : Color, PieceType
  - piece.py, pieces/*.py : Piece and the static movement descriptors
  - board.py       : Board as a map from (file, rank) to an optional piece
  - game_state.py  : GameState
  - move.py        : Move (exactly the dataclass fields, which notably do
                     NOT include is_promotion / promoted_to)
  - move_generator.py : pseudo-legal generation, attack queries, check
                     detection, castling, king-safety filtering
  - move_executor.py  : execute_move / undo_move and castling-rights updates
  - fen.py, fen_loader.py : the FEN codec
  - pgn.py (PGNData), pgn_loader.py (load_from_data)
  - patterns/openings.py  : the opening trie

Conventions of the embedding:
  - Python ints are modelled as Lean Int (coordinates may go negative
    during ray walking, exactly as in the source).
  - Python raises are modelled with Except / Option, or with explicit
    result constructors when a raise escapes after partial mutation.
  - Mutable objects (Board, GameState) are passed and returned explicitly.
  - Python `piece.position` is kept in sync with the board square by
    set_piece; the embedding therefore passes the square explicitly and a
    Piece value carries only (color, piece_type).
  - While-loops over board rays are expressed with a fuel parameter; fuel 16
    strictly exceeds the 8 steps after which any walk in a nonzero direction
    has left the 8x8 board, so the fueled function agrees with the
    unbounded Python loop on every reachable call.
-/
import Mathlib

set_option maxHeartbeats 1000000

namespace ChessSpec

/-- constants.py: Color enum. -/
inductive Color where
  | WHITE
  | BLACK
deriving DecidableEq, Repr

/-- constants.py: PieceType enum. -/
inductive PieceType where
  | KING
  | QUEEN
  | BISHOP
  | KNIGHT
  | ROOK
  | PAWN
deriving DecidableEq, Repr

/-- The opponent of a color (used throughout move_generator.py as
`Color.BLACK if color == Color.WHITE else Color.WHITE`). -/
def Color.opponent : Color → Color
  | .WHITE => .BLACK
  | .BLACK => .WHITE

/-- piece.py / pieces/*.py: a piece is a color and a kind.  The Python
object also stores a mutable `position` that set_piece keeps equal to the
board square holding the piece; the embedding passes positions
explicitly. -/
structure Piece where
  color : Color
  piece_type : PieceType
deriving DecidableEq, Repr

/-- pieces/*.py class attribute `move_offsets` per piece kind. -/
def PieceType.move_offsets : PieceType → List (Int × Int)
  | .KING => [(1, 0), (-1, 0), (0, 1), (0, -1), (1, -1), (1, 1), (-1, -1), (-1, 1)]
  | .QUEEN => [(1, 0), (-1, 0), (0, 1), (0, -1), (1, -1), (1, 1), (-1, -1), (-1, 1)]
  | .BISHOP => [(1, -1), (1, 1), (-1, -1), (-1, 1)]
  | .KNIGHT => [(2, 1), (2, -1), (-2, 1), (-2, -1), (1, 2), (1, -2), (-1, 2), (-1, -2)]
  | .ROOK => [(1, 0), (-1, 0), (0, 1), (0, -1)]
  | .PAWN => []

/-- pieces/*.py class attribute `is_sliding` per piece kind. -/
def PieceType.is_sliding : PieceType → Bool
  | .QUEEN => true
  | .BISHOP => true
  | .ROOK => true
  | _ => false

/-- A board square, as the Python (file, rank) tuple of ints. -/
abbrev Sq := Int × Int

/-- board.py: the 8x8 grid `_grid[file][rank]`, as a map from squares to
optional pieces.  Squares outside the 8x8 range carry no piece. -/
def Board : Type := Sq → Option Piece

/-- move_generator.py `_is_on_board`. -/
def is_on_board (f r : Int) : Bool :=
  0 ≤ f && f < 8 && 0 ≤ r && r < 8

/-- board.py `get_piece`.  The Python method raises ValueError outside the
8x8 range; every call site relevant to the claims is bounds-guarded (or
reached only with in-range squares), and the embedding returns `none`
outside the range. -/
def Board.get (b : Board) (f r : Int) : Option Piece :=
  if is_on_board f r then b (f, r) else none

/-- `get_piece` on a square pair. -/
def Board.getSq (b : Board) (sq : Sq) : Option Piece :=
  b.get sq.1 sq.2

/-- board.py `set_piece` (also syncs the piece's stored position, which the
embedding carries implicitly).  Outside the 8x8 range Python raises and the
board is unchanged; the embedding leaves the board unchanged. -/
def Board.set (b : Board) (f r : Int) (p : Option Piece) : Board :=
  fun sq => if sq = (f, r) ∧ is_on_board f r then p else b sq

/-- `set_piece` on a square pair. -/
def Board.setSq (b : Board) (sq : Sq) (p : Option Piece) : Board :=
  b.set sq.1 sq.2 p

/-- fen.py `CastlingRights` dataclass. -/
structure CastlingRights where
  white_kingside : Bool := true
  white_queenside : Bool := true
  black_kingside : Bool := true
  black_queenside : Bool := true
deriving DecidableEq, Repr

/-- move.py `Move` dataclass: exactly the declared fields.  The source
declares no `is_promotion` and no `promoted_to` field (the executor and
tests nevertheless use them; see the C5 theorems). -/
structure Move where
  from_square : Sq
  to_square : Sq
  piece : Piece
  captured_piece : Option Piece := none
  current_en_passant_target : Option Sq := none
  is_en_passant : Bool := false
  is_castling : Bool := false
  castling_rook_from : Option Sq := none
  castling_rook_to : Option Sq := none
deriving DecidableEq, Repr

/-- game_state.py `GameState`.  `_castling_rights` defaults lazily to
`CastlingRights()`; the embedding stores the defaulted value directly. -/
structure GameState where
  move_history : List Move := []
  redo_history : List Move := []
  current_turn : Color := .WHITE
  castling_rights : CastlingRights := {}
  halfmove_clock : Int := 0
  fullmove_number : Int := 1
  initial_en_passant_target : Option Sq := none
deriving DecidableEq, Repr

/-- game_state.py property `current_en_passant_target`: derived from the
last history entry, else the FEN-loaded initial target. -/
def GameState.current_en_passant_target (gs : GameState) : Option Sq :=
  match gs.move_history.getLast? with
  | some m => m.current_en_passant_target
  | none => gs.initial_en_passant_target

/-- game_state.py property `current_en_passant_taking_square`. -/
def GameState.current_en_passant_taking_square (gs : GameState) : Option Sq :=
  let forward_offset : Int := if gs.current_turn = .WHITE then 1 else -1
  match gs.current_en_passant_target with
  | none => none
  | some (tf, tr) => some (tf, tr + forward_offset)

/-- game_state.py `record_move`: append to history and switch turns. -/
def GameState.record_move (gs : GameState) (m : Move) : GameState :=
  { gs with
    move_history := gs.move_history ++ [m]
    current_turn := if gs.current_turn = .WHITE then .BLACK else .WHITE }

/-! ## Move generator (move_generator.py) -/

/-- move_generator.py `_get_sliding_moves`: walk one direction from the
piece's square until blocked.  `fuel` bounds the while-loop; 16 exceeds the
at most 8 steps any nonzero direction can stay on the board. -/
def get_sliding_moves (b : Board) (pieceColor : Color) (f r d_file d_rank : Int) :
    Nat → List Sq
  | 0 => []
  | fuel + 1 =>
    let f1 := f + d_file
    let r1 := r + d_rank
    if is_on_board f1 r1 then
      match b.get f1 r1 with
      | none => (f1, r1) :: get_sliding_moves b pieceColor f1 r1 d_file d_rank fuel
      | some target => if target.color ≠ pieceColor then [(f1, r1)] else []
    else []

/-- move_generator.py `_get_single_move` (non-sliding pieces). -/
def get_single_move (b : Board) (pieceColor : Color) (pos : Sq) (offset : Int × Int) :
    Option Sq :=
  let f := pos.1 + offset.1
  let r := pos.2 + offset.2
  if is_on_board f r then
    match b.get f r with
    | none => some (f, r)
    | some target => if target.color ≠ pieceColor then some (f, r) else none
  else none

/-- The body of the diagonal-capture loop of move_generator.py
`_get_pawn_moves`: append the diagonal when it captures an enemy piece or
is the en-passant taking square. -/
def pawn_diag_step (b : Board) (p : Piece) (gs : GameState) (acc : List Sq)
    (d : Sq) : List Sq :=
  if is_on_board d.1 d.2 then
    match b.getSq d with
    | some target =>
      if target.color ≠ p.color then acc ++ [d]
      else if gs.current_en_passant_taking_square = some d then acc ++ [d]
      else acc
    | none =>
      if gs.current_en_passant_taking_square = some d then acc ++ [d]
      else acc
  else acc

/-- move_generator.py `_get_pawn_moves`. -/
def get_pawn_moves (b : Board) (p : Piece) (pos : Sq) (gs : GameState) : List Sq :=
  let (file, rank) := pos
  let forward_offset : Int := if p.color = .WHITE then 1 else -1
  let one_move_forward : Sq := (file, rank + forward_offset)
  let two_moves_forward : Sq := (file, rank + forward_offset * 2)
  let diagonal_moves : List Sq :=
    [(file - 1, rank + forward_offset), (file + 1, rank + forward_offset)]
  let standard : List Sq :=
    if is_on_board one_move_forward.1 one_move_forward.2 then
      if b.getSq one_move_forward = none then [one_move_forward] else []
    else []
  let double : List Sq :=
    if is_on_board two_moves_forward.1 two_moves_forward.2 then
      if (p.color = .WHITE ∧ rank = 1) ∨ (p.color = .BLACK ∧ rank = 6) then
        if b.getSq one_move_forward = none ∧ b.getSq two_moves_forward = none then
          [two_moves_forward]
        else []
      else []
    else []
  let diagonals : List Sq :=
    diagonal_moves.foldl (pawn_diag_step b p gs) []
  standard ++ double ++ diagonals

/-- Appending a successful single move to the accumulator (the body of the
offsets loop in `get_possible_moves` for non-sliding pieces). -/
def accumulate_single (b : Board) (c : Color) (pos : Sq) (moves : List Sq)
    (offset : Int × Int) : List Sq :=
  match get_single_move b c pos offset with
  | some m => moves ++ [m]
  | none => moves

/-- move_generator.py `get_possible_moves`: pseudo-legal moves following
the piece's movement descriptor (pawns special-cased). -/
def get_possible_moves (b : Board) (p : Piece) (pos : Sq) (gs : GameState) : List Sq :=
  if p.piece_type = .PAWN then get_pawn_moves b p pos gs
  else
    p.piece_type.move_offsets.foldl (fun moves offset =>
      if p.piece_type.is_sliding then
        moves ++ get_sliding_moves b p.color pos.1 pos.2 offset.1 offset.2 16
      else
        accumulate_single b p.color pos moves offset) []

/-- The 8 sliding directions probed by `is_square_attacked`. -/
def sliding_directions : List (Int × Int) :=
  [(1, 0), (-1, 0), (0, 1), (0, -1), (1, 1), (1, -1), (-1, 1), (-1, -1)]

/-- One direction of the reverse-ray walk inside
move_generator.py `is_square_attacked`.  `(tf, tr)` is the target square,
`(cf, cr)` the current probe square.  The Python loop breaks (returning no
attack from this ray) at the first piece unless that piece belongs to the
attacker and its reversed offset reaches back (sliding, or at distance 1,
computed from the probe square, which equals the piece's synced
position). -/
def attack_ray (b : Board) (attacking : Color) (tf tr d_file d_rank cf cr : Int) :
    Nat → Bool
  | 0 => false
  | fuel + 1 =>
    if is_on_board cf cr then
      match b.get cf cr with
      | some piece =>
        piece.color = attacking &&
          (-d_file, -d_rank) ∈ piece.piece_type.move_offsets &&
          (piece.piece_type.is_sliding ||
            max (cf - tf).natAbs (cr - tr).natAbs = 1)
      | none => attack_ray b attacking tf tr d_file d_rank (cf + d_file) (cr + d_rank) fuel
    else false

/-- The probe at one square of the knight-attack loop of
`is_square_attacked`. -/
def knight_probe (b : Board) (attacking : Color) (cf cr : Int) : Bool :=
  is_on_board cf cr &&
    match b.get cf cr with
    | some piece => piece.color = attacking && piece.piece_type = PieceType.KNIGHT
    | none => false

/-- The probe at one square of the pawn-attack loop of
`is_square_attacked`. -/
def pawn_probe (b : Board) (attacking : Color) (cf cr : Int) : Bool :=
  is_on_board cf cr &&
    match b.get cf cr with
    | some piece => piece.color = attacking && piece.piece_type = PieceType.PAWN
    | none => false

/-- move_generator.py `is_square_attacked`. -/
def is_square_attacked (b : Board) (sq : Sq) (attacking : Color) : Bool :=
  (sliding_directions.any fun d =>
    attack_ray b attacking sq.1 sq.2 d.1 d.2 (sq.1 + d.1) (sq.2 + d.2) 16) ||
  (PieceType.KNIGHT.move_offsets.any fun o =>
    knight_probe b attacking (sq.1 + o.1) (sq.2 + o.2)) ||
  (let pawn_attack_rank_offset : Int := if attacking = .WHITE then -1 else 1
   [((-1 : Int), pawn_attack_rank_offset), ((1 : Int), pawn_attack_rank_offset)].any fun o =>
    pawn_probe b attacking (sq.1 + o.1) (sq.2 + o.2))

/-- The file-major iteration order of board.py `__iter__`. -/
def all_squares : List Sq :=
  (List.range 8).flatMap fun f => (List.range 8).map fun r => (Int.ofNat f, Int.ofNat r)

/-- Whether a king of the color stands on the square. -/
def is_king_at (b : Board) (c : Color) (sq : Sq) : Bool :=
  match b.getSq sq with
  | some p => p.color = c && p.piece_type = .KING
  | none => false

/-- The king-locating scan at the start of move_generator.py `is_in_check`:
first square in iteration order holding a king of the color. -/
def find_king (b : Board) (c : Color) : Option Sq :=
  all_squares.find? (is_king_at b c)

/-- The squares holding a king of the color, in board-iteration order. -/
def kings_of (b : Board) (c : Color) : List Sq :=
  all_squares.filter (is_king_at b c)

/-- The board holds at most one king of the color (true of every chess
position; the FEN codec does not enforce it, which matters for C2). -/
def at_most_one_king (b : Board) (c : Color) : Prop :=
  (kings_of b c).length ≤ 1

/-- move_generator.py `is_in_check`: king absent means not in check. -/
def is_in_check (b : Board) (c : Color) : Bool :=
  match find_king b c with
  | none => false
  | some kingPos => is_square_attacked b kingPos c.opponent

/-- move_generator.py `_get_capture_square`: where the captured piece sits
(the en-passant pawn square when the destination is the taking square). -/
def get_capture_square (p : Piece) (to_square : Sq) (gs : GameState) : Sq :=
  if p.piece_type = .PAWN ∧ gs.current_en_passant_taking_square = some to_square then
    -- the taking square exists only when the target does, so getD is never
    -- reached with its default
    gs.current_en_passant_target.getD to_square
  else to_square

/-- The board produced by the temporary simulation inside
move_generator.py `_would_leave_king_in_check` (the Python code mutates the
grid, tests, and restores it). -/
def sim_board (b : Board) (p : Piece) (pos to_square : Sq) (gs : GameState) : Board :=
  let capture_square := get_capture_square p to_square gs
  let b1 := (b.setSq pos none).setSq to_square (some p)
  if capture_square ≠ to_square then b1.setSq capture_square none else b1

/-- move_generator.py `_would_leave_king_in_check`: simulate the move,
test for check, restore. -/
def would_leave_king_in_check (b : Board) (p : Piece) (pos to_square : Sq)
    (gs : GameState) : Bool :=
  is_in_check (sim_board b p pos to_square gs) p.color

/-- The two ValueError raises inside move_generator.py
`_get_castling_moves` (castling rights assert a rook that is absent or
wrong). -/
inductive GenError where
  | missing_rook_kingside
  | bad_rook_kingside
  | missing_rook_queenside
  | bad_rook_queenside
deriving DecidableEq, Repr

/-- The kingside block of move_generator.py `_get_castling_moves`. -/
def castling_kingside (b : Board) (king : Piece) (rank : Int) (gs : GameState) :
    Except GenError (List Sq) :=
  let can_kingside :=
    if king.color = .WHITE then gs.castling_rights.white_kingside
    else gs.castling_rights.black_kingside
  if can_kingside ∧ b.get 5 rank = none ∧ b.get 6 rank = none then
    match b.get 7 rank with
    | none => .error .missing_rook_kingside
    | some rook =>
      if rook.piece_type ≠ .ROOK ∨ rook.color ≠ king.color then
        .error .bad_rook_kingside
      else
        let opponent_color := king.color.opponent
        if ¬is_square_attacked b (5, rank) opponent_color ∧
            ¬is_square_attacked b (6, rank) opponent_color then
          .ok [((6 : Int), rank)]
        else .ok []
  else .ok []

/-- The queenside block of move_generator.py `_get_castling_moves`. -/
def castling_queenside (b : Board) (king : Piece) (rank : Int) (gs : GameState) :
    Except GenError (List Sq) :=
  let can_queenside :=
    if king.color = .WHITE then gs.castling_rights.white_queenside
    else gs.castling_rights.black_queenside
  if can_queenside ∧ b.get 3 rank = none ∧ b.get 2 rank = none ∧
      b.get 1 rank = none then
    match b.get 0 rank with
    | none => .error .missing_rook_queenside
    | some rook =>
      if rook.piece_type ≠ .ROOK ∨ rook.color ≠ king.color then
        .error .bad_rook_queenside
      else
        let opponent_color := king.color.opponent
        if ¬is_square_attacked b (3, rank) opponent_color ∧
            ¬is_square_attacked b (2, rank) opponent_color then
          .ok [((2 : Int), rank)]
        else .ok []
  else .ok []

/-- move_generator.py `_get_castling_moves`. -/
def get_castling_moves (b : Board) (king : Piece) (pos : Sq) (gs : GameState) :
    Except GenError (List Sq) :=
  if is_in_check b king.color then .ok []
  else
    let file := pos.1
    let rank := pos.2
    let king_start_rank : Int := if king.color = .WHITE then 0 else 7
    if ¬(file = 4 ∧ rank = king_start_rank) then .ok []
    else
      match castling_kingside b king rank gs with
      | .error e => .error e
      | .ok kingside =>
        match castling_queenside b king rank gs with
        | .error e => .error e
        | .ok queenside => .ok (kingside ++ queenside)

/-- move_generator.py `get_legal_moves`: pseudo-legal moves filtered by the
king-safety simulation, then castling destinations appended for kings. -/
def get_legal_moves (b : Board) (p : Piece) (pos : Sq) (gs : GameState) :
    Except GenError (List Sq) :=
  let pseudo := get_possible_moves b p pos gs
  let legal := pseudo.filter fun to_square =>
    ¬would_leave_king_in_check b p pos to_square gs
  if p.piece_type = .KING then
    match get_castling_moves b p pos gs with
    | .error e => .error e
    | .ok castling => .ok (legal ++ castling)
  else
    .ok legal

/-! ## Move executor (move_executor.py) -/

/-- The `move_data` dict built by the `_prepare_*` helpers of
move_executor.py.  `promoted_to` models the pair of dict keys
`is_promotion` / `promoted_to` added only when a promotion piece type was
supplied (both set together at lines 63-64). -/
structure MoveData where
  core : Move
  promoted_to : Option Piece := none

/-- Raises of execute_move that occur before any mutation of the board or
game state. -/
inductive ExecError where
  /-- `piece = None` at from_square, then `piece.piece_type` raises
  AttributeError inside `_is_castling_move`. -/
  | attribute_error_no_piece
  /-- `_create_promoted_piece` looks the type up in a dict holding only
  QUEEN/ROOK/BISHOP/KNIGHT; KING or PAWN raises KeyError. -/
  | key_error_promotion
deriving DecidableEq, Repr

/-- Result of execute_move. -/
inductive ExecResult where
  /-- The move completed: new board, new game state, returned Move. -/
  | ok (b : Board) (gs : GameState) (m : Move)
  /-- `Move(**move_data)` raised TypeError because `move_data` holds the
  keys `is_promotion` / `promoted_to`, which the Move dataclass does not
  declare.  At that point the board has been mutated, castling rights
  updated and the redo stack cleared, so the escaped exception leaves the
  partially updated state carried here. -/
  | move_type_error (b : Board) (gs : GameState)
  /-- A raise before any mutation. -/
  | err (e : ExecError)

/-- The board left behind by execute_move, if its board-mutation phase ran
(also in the TypeError case, whose exception escapes after mutation). -/
def ExecResult.boardAfter : ExecResult → Option Board
  | .ok b _ _ => some b
  | .move_type_error b _ => some b
  | .err _ => none

/-- The game state left behind by execute_move, if reached. -/
def ExecResult.stateAfter : ExecResult → Option GameState
  | .ok _ gs _ => some gs
  | .move_type_error _ gs => some gs
  | .err _ => none

/-- The Move returned by execute_move, when it completed. -/
def ExecResult.moveOf : ExecResult → Option Move
  | .ok _ _ m => some m
  | _ => none

/-- Whether execute_move ended in the Move-construction TypeError. -/
def ExecResult.isMoveTypeError : ExecResult → Bool
  | .move_type_error _ _ => true
  | _ => false

/-- move_executor.py `_is_castling_move`. -/
def is_castling_move (p : Piece) (from_square to_square : Sq) : Bool :=
  p.piece_type = .KING && (to_square.1 - from_square.1).natAbs = 2

/-- move_executor.py `_is_en_passant_move`. -/
def is_en_passant_move (p : Piece) (to_square : Sq) (gs : GameState) : Bool :=
  p.piece_type = .PAWN && gs.current_en_passant_taking_square = some to_square

/-- move_executor.py `is_promotion_move`. -/
def is_promotion_move (b : Board) (from_square to_square : Sq) : Bool :=
  match b.getSq from_square with
  | none => false
  | some p =>
    if p.piece_type ≠ .PAWN then false
    else to_square.2 = (if p.color = .WHITE then (7 : Int) else 0)

/-- move_executor.py `_calculate_en_passant_target`. -/
def calculate_en_passant_target (p : Piece) (from_square to_square : Sq) :
    Option Sq :=
  if p.piece_type ≠ .PAWN then none
  else if (to_square.2 - from_square.2).natAbs ≠ 2 then none
  else some to_square

/-- move_executor.py `_prepare_castling_move`. -/
def prepare_castling_move (p : Piece) (from_square to_square : Sq) : Move :=
  let file_diff := to_square.1 - from_square.1
  let rank := from_square.2
  let rook_from : Sq := if file_diff = 2 then (7, rank) else (0, rank)
  let rook_to : Sq := if file_diff = 2 then (5, rank) else (3, rank)
  { from_square := from_square
    to_square := to_square
    piece := p
    captured_piece := none
    current_en_passant_target := none
    is_en_passant := false
    is_castling := true
    castling_rook_from := some rook_from
    castling_rook_to := some rook_to }

/-- move_executor.py `_prepare_en_passant_move`.  The target is `some`
whenever the taking square matched, so the getD default is never used. -/
def prepare_en_passant_move (b : Board) (p : Piece) (from_square to_square : Sq)
    (gs : GameState) : Move :=
  let en_passant_target := gs.current_en_passant_target.getD to_square
  { from_square := from_square
    to_square := to_square
    piece := p
    captured_piece := b.getSq en_passant_target
    current_en_passant_target := none
    is_en_passant := true
    is_castling := false
    castling_rook_from := none
    castling_rook_to := none }

/-- move_executor.py `_prepare_normal_move`. -/
def prepare_normal_move (b : Board) (p : Piece) (from_square to_square : Sq) : Move :=
  { from_square := from_square
    to_square := to_square
    piece := p
    captured_piece := b.getSq to_square
    current_en_passant_target := calculate_en_passant_target p from_square to_square
    is_en_passant := false
    is_castling := false
    castling_rook_from := none
    castling_rook_to := none }

/-- move_executor.py `_apply_move_to_board`.  The en-passant branch
re-reads `game_state.current_en_passant_target`, still the pre-move value
because the game state has not been touched yet. -/
def apply_move_to_board (b : Board) (md : MoveData) (gs : GameState) : Board :=
  let b1 := b.setSq md.core.from_square none
  let b2 :=
    if md.promoted_to.isSome then b1.setSq md.core.to_square md.promoted_to
    else b1.setSq md.core.to_square (some md.core.piece)
  if md.core.is_castling then
    let rook_from := md.core.castling_rook_from.getD (0, 0)
    let rook_to := md.core.castling_rook_to.getD (0, 0)
    let rook := b2.getSq rook_from
    (b2.setSq rook_from none).setSq rook_to rook
  else if md.core.is_en_passant then
    match gs.current_en_passant_target with
    | some target => b2.setSq target none
    | none => b2
  else b2

/-- move_executor.py `_update_castling_rights`.  The executor calls this
AFTER `_apply_move_to_board`, so the board it inspects at `to_square` holds
the piece that just moved there, never the captured piece. -/
def update_castling_rights (b_after : Board) (p : Piece) (from_square to_square : Sq)
    (cr : CastlingRights) : CastlingRights :=
  let cr1 :=
    if p.piece_type = .KING then
      if p.color = .WHITE then
        { cr with white_kingside := false, white_queenside := false }
      else
        { cr with black_kingside := false, black_queenside := false }
    else cr
  let cr2 :=
    if p.piece_type = .ROOK then
      let file := from_square.1
      let rank := from_square.2
      if p.color = .WHITE ∧ rank = 0 then
        if file = 7 then { cr1 with white_kingside := false }
        else if file = 0 then { cr1 with white_queenside := false }
        else cr1
      else if p.color = .BLACK ∧ rank = 7 then
        if file = 7 then { cr1 with black_kingside := false }
        else if file = 0 then { cr1 with black_queenside := false }
        else cr1
      else cr1
    else cr1
  match b_after.getSq to_square with
  | some captured =>
    if captured.piece_type = .ROOK then
      let file := to_square.1
      let rank := to_square.2
      if captured.color = .WHITE ∧ rank = 0 then
        if file = 7 then { cr2 with white_kingside := false }
        else if file = 0 then { cr2 with white_queenside := false }
        else cr2
      else if captured.color = .BLACK ∧ rank = 7 then
        if file = 7 then { cr2 with black_kingside := false }
        else if file = 0 then { cr2 with black_queenside := false }
        else cr2
      else cr2
    else cr2
  | none => cr2

/-- The move-type detection at the top of move_executor.py `execute_move`
(castling, then en passant, then normal). -/
def classify_move (b : Board) (piece : Piece) (from_square to_square : Sq)
    (gs : GameState) : Move :=
  if is_castling_move piece from_square to_square then
    prepare_castling_move piece from_square to_square
  else if is_en_passant_move piece to_square gs then
    prepare_en_passant_move b piece from_square to_square gs
  else
    prepare_normal_move b piece from_square to_square

/-- move_executor.py `execute_move`. -/
def execute_move (b : Board) (gs : GameState) (from_square to_square : Sq)
    (promotion_piece_type : Option PieceType) : ExecResult :=
  match b.getSq from_square with
  | none => .err .attribute_error_no_piece
  | some piece =>
    let core := classify_move b piece from_square to_square gs
    match promotion_piece_type with
    | some pt =>
      if pt = .KING ∨ pt = .PAWN then .err .key_error_promotion
      else
        let md : MoveData := { core := core, promoted_to := some ⟨piece.color, pt⟩ }
        let b1 := apply_move_to_board b md gs
        let cr1 := update_castling_rights b1 piece from_square to_square
          gs.castling_rights
        let gs1 := { gs with castling_rights := cr1, redo_history := [] }
        -- Move(**move_data) raises TypeError: unexpected keyword arguments
        -- is_promotion / promoted_to (move.py declares neither field)
        .move_type_error b1 gs1
    | none =>
      let md : MoveData := { core := core }
      let b1 := apply_move_to_board b md gs
      let cr1 := update_castling_rights b1 piece from_square to_square
        gs.castling_rights
      let gs1 := { gs with castling_rights := cr1, redo_history := [] }
      .ok b1 (gs1.record_move core) core

/-- move_executor.py `undo_move`: pop the last move, push it on the redo
stack, restore the pieces and revert the turn. -/
def undo_move (b : Board) (gs : GameState) : Option (Board × GameState × Move) :=
  match gs.move_history.getLast? with
  | none => none
  | some m =>
    let gs1 := { gs with
      move_history := gs.move_history.dropLast
      redo_history := gs.redo_history ++ [m] }
    let b1 := b.setSq m.to_square none
    let b2 := b1.setSq m.from_square (some m.piece)
    let b3 :=
      if m.is_castling then
        let rook_from := m.castling_rook_from.getD (0, 0)
        let rook_to := m.castling_rook_to.getD (0, 0)
        let rook := b2.getSq rook_to
        (b2.setSq rook_to none).setSq rook_from rook
      else b2
    let b4 :=
      match m.captured_piece with
      | none => b3
      | some cp =>
        if m.is_en_passant then
          b3.setSq (m.to_square.1, m.from_square.2) (some cp)
        else
          b3.setSq m.to_square (some cp)
    some (b4, { gs1 with current_turn := m.piece.color }, m)

/-! ## Opening trie (patterns/openings.py) -/

/-- patterns/openings.py `Opening` (frozen dataclass). -/
structure Opening where
  opening_name : String
  variation_name : Option String := none
deriving DecidableEq, Repr

/-- patterns/openings.py `TrieNode`: children dict keyed by SAN token plus
the set of openings passing through the node.  The Python dict and set are
modelled as insertion-ordered lists; set membership is what the claims
use. -/
inductive TrieNode where
  | mk (children : List (String × TrieNode)) (openings : List Opening)

/-- The children association list of a node. -/
def TrieNode.children : TrieNode → List (String × TrieNode)
  | .mk cs _ => cs

/-- The opening set of a node. -/
def TrieNode.openings : TrieNode → List Opening
  | .mk _ os => os

/-- Dict lookup in the children map. -/
def TrieNode.child (n : TrieNode) (s : String) : Option TrieNode :=
  (n.children.find? fun e => e.1 = s).map (·.2)

/-- Dict store `node.children[san] = child` (replace in place, else
append). -/
def child_store (cs : List (String × TrieNode)) (s : String) (c : TrieNode) :
    List (String × TrieNode) :=
  match cs with
  | [] => [(s, c)]
  | (k, v) :: rest => if k = s then (k, c) :: rest else (k, v) :: child_store rest s c

/-- Python `set.add`: insert if absent. -/
def add_opening (o : Opening) (l : List Opening) : List Opening :=
  if o ∈ l then l else l ++ [o]

/-- patterns/openings.py `OpeningTrie.insert`, walking the SAN list from
the given node: each step fetches (or creates) the child, adds the Opening
entry to that CHILD, and continues from it.  Nothing is ever added to the
node the walk starts from (the root). -/
def TrieNode.insertAux : TrieNode → List String → Opening → TrieNode
  | n, [], _ => n
  | n, s :: rest, o =>
    let child := (n.child s).getD (.mk [] [])
    let child1 : TrieNode := .mk child.children (add_opening o child.openings)
    let child2 := child1.insertAux rest o
    .mk (child_store n.children s child2) n.openings

/-- `OpeningTrie.insert(san_moves, opening_name, variation_name)` applied
to the trie root. -/
def OpeningTrie.insert (root : TrieNode) (san_moves : List String)
    (opening_name : String) (variation_name : Option String) : TrieNode :=
  root.insertAux san_moves ⟨opening_name, variation_name⟩

/-- The node reached by walking a SAN path from `n` (mirrors the walk at
the top of `lookup`). -/
def TrieNode.nodeAt : TrieNode → List String → Option TrieNode
  | n, [] => some n
  | n, s :: rest =>
    match n.child s with
    | some c => c.nodeAt rest
    | none => none

/-- An empty trie root, as built by `OpeningTrie.__init__`. -/
def OpeningTrie.empty : TrieNode := .mk [] []

/-- Building a trie by a sequence of inserts (as `from_csv` does). -/
def OpeningTrie.build (entries : List (List String × Opening)) : TrieNode :=
  entries.foldl (fun t e => t.insertAux e.1 e.2) OpeningTrie.empty

/-- The roll-up property of a subtree: every child's opening set is
contained in its parent's, for every parent inside the subtree (including
its root). -/
def RollUp (t : TrieNode) : Prop :=
  ∀ q n s c, t.nodeAt q = some n → n.child s = some c →
    ∀ e, e ∈ c.openings → e ∈ n.openings

/-- A one-line trie used by the C9 counterexample: the result of inserting
the single line ["e4"] for opening "X" into an empty trie. -/
def trie_single : TrieNode :=
  OpeningTrie.insert OpeningTrie.empty ["e4"] "X" none

/-! ## Concrete positions used by witnesses and counterexamples -/

/-- The empty board. -/
def empty_board : Board := fun _ => none

/-- Build a board by placing the listed pieces on the empty board. -/
def Board.ofList (l : List (Sq × Piece)) : Board :=
  l.foldl (fun b e => b.setSq e.1 e.2) empty_board

/-- Position `4k3/4P3/8/8/8/8/8/4K3 w - - 0 1`: white pawn on e7 ready to
promote. -/
def board_promo : Board :=
  Board.ofList [((4, 6), ⟨.WHITE, .PAWN⟩), ((4, 0), ⟨.WHITE, .KING⟩),
    ((4, 7), ⟨.BLACK, .KING⟩)]

/-- Game state for `4k3/4P3/8/8/8/8/8/4K3 w - - 0 1`. -/
def gs_promo : GameState :=
  { castling_rights := ⟨false, false, false, false⟩ }

/-- Position `4k2r/6B1/8/8/8/8/8/4K3 w k - 0 1`: white bishop g7 can
capture the black rook on its home corner h8. -/
def board_rook_capture : Board :=
  Board.ofList [((6, 6), ⟨.WHITE, .BISHOP⟩), ((7, 7), ⟨.BLACK, .ROOK⟩),
    ((4, 0), ⟨.WHITE, .KING⟩), ((4, 7), ⟨.BLACK, .KING⟩)]

/-- Game state for the rook-capture position: only black kingside castling
remains available. -/
def gs_rook_capture : GameState :=
  { castling_rights := ⟨false, false, true, false⟩ }

/-- Position with white king e1, knight g1, black king e8: a quiet knight
move is neither a pawn move nor a capture. -/
def board_knight : Board :=
  Board.ofList [((4, 0), ⟨.WHITE, .KING⟩), ((6, 0), ⟨.WHITE, .KNIGHT⟩),
    ((4, 7), ⟨.BLACK, .KING⟩)]

/-- Game state for the knight position (no castling rights). -/
def gs_knight : GameState :=
  { castling_rights := ⟨false, false, false, false⟩ }

/-- Castling position: white king e1 and rooks a1/h1 (black king e8), all
rights at their defaults (true). -/
def board_castle : Board :=
  Board.ofList [((4, 0), ⟨.WHITE, .KING⟩), ((0, 0), ⟨.WHITE, .ROOK⟩),
    ((7, 0), ⟨.WHITE, .ROOK⟩), ((4, 7), ⟨.BLACK, .KING⟩)]

/-- Game state for the castling position: every right still available. -/
def gs_castle : GameState := {}

/-- A board with TWO white kings (e1 and f3), white rook h1, black rook a3
and black king e8.  The FEN codec loads such boards without complaint. -/
def board_two_kings : Board :=
  Board.ofList [((4, 0), ⟨.WHITE, .KING⟩), ((5, 2), ⟨.WHITE, .KING⟩),
    ((7, 0), ⟨.WHITE, .ROOK⟩), ((0, 2), ⟨.BLACK, .ROOK⟩),
    ((4, 7), ⟨.BLACK, .KING⟩)]

/-- Game state for the two-king board: white may castle kingside. -/
def gs_two_kings : GameState :=
  { castling_rights := ⟨true, false, false, false⟩ }

/-- Position `rnbqkbnr/ppp1pppp/8/3pP3/8/8/PPPP1PPP/RNBQKBNR w KQkq d6`,
reduced to the pieces that matter: white pawn e5, black pawn d5, kings,
en-passant target d5. -/
def board_ep : Board :=
  Board.ofList [((4, 4), ⟨.WHITE, .PAWN⟩), ((3, 4), ⟨.BLACK, .PAWN⟩),
    ((4, 0), ⟨.WHITE, .KING⟩), ((4, 7), ⟨.BLACK, .KING⟩)]

/-- Game state with the d5 pawn capturable en passant. -/
def gs_ep : GameState :=
  { castling_rights := ⟨false, false, false, false⟩
    initial_en_passant_target := some (3, 4) }

/-- The game state produced by the quiet knight move Ng1-f3 from
`gs_knight` (used to instantiate witnesses). -/
def gs_knight_after : GameState :=
  ((execute_move board_knight gs_knight (6, 0) (5, 2) none).stateAfter).getD {}

/-- A placeholder move for `Option.getD` defaults. -/
def dummy_move : Move :=
  { from_square := (0, 0), to_square := (0, 0), piece := ⟨.WHITE, .PAWN⟩ }

/-- The result of the en-passant capture e5xd6 from `board_ep`. -/
def exec_ep : ExecResult := execute_move board_ep gs_ep (4, 4) (3, 5) none

/-- Board after the en-passant capture. -/
def board_ep_after : Board := exec_ep.boardAfter.getD empty_board

/-- Game state after the en-passant capture. -/
def gs_ep_after : GameState := exec_ep.stateAfter.getD {}

/-- Move record of the en-passant capture. -/
def move_ep : Move := exec_ep.moveOf.getD dummy_move

/-- The result of undoing the en-passant capture. -/
def undo_ep : Option (Board × GameState × Move) :=
  undo_move board_ep_after gs_ep_after

/-- Board after the undo. -/
def board_ep_undo : Board := (undo_ep.map (·.1)).getD empty_board

/-- Game state after the undo. -/
def gs_ep_undo : GameState := (undo_ep.map (·.2.1)).getD {}

/-- Move returned by the undo. -/
def move_ep_undo : Move := (undo_ep.map (·.2.2)).getD dummy_move

/-! ## Basic board lemmas -/

/-- Every direct child of a trie built by inserts satisfies roll-up. -/
def TrieInv (t : TrieNode) : Prop :=
  ∀ s c, t.child s = some c → RollUp c

/-- Whether a swap of same-colored, non-king pieces at one square is
invisible to the attack machinery: boards agreeing everywhere except at
`t`, where both hold pieces of the same color `c`. -/
def SwapAt (b1 b2 : Board) (t : Sq) (c : Color) : Prop :=
  (∀ sq : Sq, sq ≠ t → b1.getSq sq = b2.getSq sq) ∧
  (∃ q1 q2, b1.getSq t = some q1 ∧ b2.getSq t = some q2 ∧
    q1.color = c ∧ q2.color = c ∧
    q1.piece_type ≠ .KING ∧ q2.piece_type ≠ .KING)

/-- The legal-move list of the g1 knight in the C2 witness position. -/
def c2w_ms : List Sq :=
  match get_legal_moves board_knight ⟨.WHITE, .KNIGHT⟩ (6, 0) gs_knight with
  | .ok l => l
  | .error _ => []

/-- The board after executing the C2 witness move Ng1-f3. -/
def c2w_board : Board :=
  (execute_move board_knight gs_knight (6, 0) (5, 2) none).boardAfter.getD
    empty_board

/-- C1 counterexample pipeline: execute Ke1-e2 from the castling position,
then undo. -/
def c1x_exec : ExecResult := execute_move board_castle gs_castle (4, 0) (4, 1) none

/-- Board after the C1 counterexample execute. -/
def c1x_bA : Board := c1x_exec.boardAfter.getD empty_board

/-- Game state after the C1 counterexample execute. -/
def c1x_gsA : GameState := c1x_exec.stateAfter.getD {}

/-- The C1 counterexample undo result. -/
def c1x_undo : Option (Board × GameState × Move) := undo_move c1x_bA c1x_gsA

/-- Game state after the C1 counterexample undo. -/
def c1x_gsU : GameState := (c1x_undo.map (fun r => r.2.1)).getD {}

/-- C1 witness pipeline: execute Ng1-f3 in the knight position. -/
def c1w_exec : ExecResult := execute_move board_knight gs_knight (6, 0) (5, 2) none

/-- Board after the C1 witness execute. -/
def c1w_bA : Board := c1w_exec.boardAfter.getD empty_board

/-- Game state after the C1 witness execute. -/
def c1w_gsA : GameState := c1w_exec.stateAfter.getD {}

/-- Move returned by the C1 witness execute. -/
def c1w_m : Move := c1w_exec.moveOf.getD dummy_move

/-! ## FEN codec (fen.py) -/

/-- fen.py `FENError`: one variant per raise site. -/
inductive FENError where
  | wrong_field_count
  | bad_rank_count
  | bad_empty_count
  | bad_placement_char
  | bad_rank_width
  | bad_active_color
  | bad_castling_char
  | bad_en_passant
  | bad_halfmove
  | bad_fullmove
deriving DecidableEq, Repr

/-- fen.py `FENData`.  Python stores `pieces` as a dict keyed by square;
the embedding keeps the insertion-ordered association list (placement scan
order), with dict-override semantics on lookup. -/
structure FENData where
  pieces : List (Sq × Piece) := []
  active_color : Color := .WHITE
  castling_rights : CastlingRights := {}
  en_passant_target : Option Sq := none
  halfmove_clock : Int := 0
  fullmove_number : Int := 1
deriving DecidableEq, Repr

/-- fen.py `FENParser.PIECE_MAP`. -/
def piece_of_char : Char → Option Piece
  | 'K' => some ⟨.WHITE, .KING⟩
  | 'Q' => some ⟨.WHITE, .QUEEN⟩
  | 'R' => some ⟨.WHITE, .ROOK⟩
  | 'B' => some ⟨.WHITE, .BISHOP⟩
  | 'N' => some ⟨.WHITE, .KNIGHT⟩
  | 'P' => some ⟨.WHITE, .PAWN⟩
  | 'k' => some ⟨.BLACK, .KING⟩
  | 'q' => some ⟨.BLACK, .QUEEN⟩
  | 'r' => some ⟨.BLACK, .ROOK⟩
  | 'b' => some ⟨.BLACK, .BISHOP⟩
  | 'n' => some ⟨.BLACK, .KNIGHT⟩
  | 'p' => some ⟨.BLACK, .PAWN⟩
  | _ => none

/-- fen.py `FENGenerator.PIECE_CHARS`. -/
def char_of_piece (pc : Piece) : Char :=
  match pc.color, pc.piece_type with
  | .WHITE, .KING => 'K'
  | .WHITE, .QUEEN => 'Q'
  | .WHITE, .ROOK => 'R'
  | .WHITE, .BISHOP => 'B'
  | .WHITE, .KNIGHT => 'N'
  | .WHITE, .PAWN => 'P'
  | .BLACK, .KING => 'k'
  | .BLACK, .QUEEN => 'q'
  | .BLACK, .ROOK => 'r'
  | .BLACK, .BISHOP => 'b'
  | .BLACK, .KNIGHT => 'n'
  | .BLACK, .PAWN => 'p'

/-- Python `str.split(sep)` on a single character, keeping empty pieces. -/
def splitOnChar (sep : Char) : List Char → List (List Char)
  | [] => [[]]
  | c :: rest =>
    let r := splitOnChar sep rest
    if c = sep then [] :: r
    else
      match r with
      | [] => [[c]]
      | h :: t => (c :: h) :: t

/-- Python `sep.join(...)` on character lists. -/
def joinChar (sep : Char) : List (List Char) → List Char
  | [] => []
  | [l] => l
  | l :: rest => l ++ sep :: joinChar sep rest

/-- The loop of Python `str.split()`, structurally recursive on a fuel
bound that always exceeds the list length. -/
def splitWsAux : Nat → List Char → List (List Char)
  | 0, _ => []
  | _ + 1, [] => []
  | fuel + 1, c :: rest =>
    if c.isWhitespace then splitWsAux fuel rest
    else (c :: rest.takeWhile (fun x => ¬x.isWhitespace)) ::
      splitWsAux fuel (rest.dropWhile (fun x => ¬x.isWhitespace))

/-- Python `str.split()` (no argument): split on whitespace runs, dropping
empty tokens. -/
def splitWs (cs : List Char) : List (List Char) :=
  splitWsAux (cs.length + 1) cs

/-- Python `str(d)` for one decimal digit. -/
def digitOfNat : Nat → Char
  | 0 => '0'
  | 1 => '1'
  | 2 => '2'
  | 3 => '3'
  | 4 => '4'
  | 5 => '5'
  | 6 => '6'
  | 7 => '7'
  | 8 => '8'
  | 9 => '9'
  | _ => '0'

/-- The digit loop of Python `str(n)`, structurally recursive on a fuel
bound that always exceeds the number. -/
def natToCharsAux : Nat → Nat → List Char
  | 0, _ => []
  | fuel + 1, n =>
    if n < 10 then [digitOfNat n]
    else natToCharsAux fuel (n / 10) ++ [digitOfNat (n % 10)]

/-- Python `str(n)` for a natural number: canonical decimal digits. -/
def natToChars (n : Nat) : List Char :=
  natToCharsAux (n + 1) n

/-- Python `str(n)` for an integer. -/
def intToChars (n : Int) : List Char :=
  if n < 0 then '-' :: natToChars n.natAbs else natToChars n.toNat

/-- The digit-string core of Python `int(str)`: one or more ASCII
digits. -/
def parse_nat_chars (cs : List Char) : Option Nat :=
  if cs.isEmpty then none
  else
    cs.foldl (fun acc c =>
      match acc with
      | none => none
      | some v => if c.isDigit then some (v * 10 + (c.toNat - 48)) else none)
      (some 0)

/-- Python `int(str)` on a stripped token: optional sign, then ASCII
digits (the embedding omits unicode digits and underscore separators,
which no FEN in this codebase uses). -/
def parse_int_chars (cs : List Char) : Option Int :=
  match cs with
  | [] => none
  | c :: rest =>
    if c = '-' then (parse_nat_chars rest).map (fun n => -(n : Int))
    else if c = '+' then (parse_nat_chars rest).map (fun n => (n : Int))
    else (parse_nat_chars cs).map (fun n => (n : Int))

/-- The per-character loop of fen.py `_parse_piece_placement` for one
rank: digits advance the file, piece letters append to the square map. -/
def parse_rank_aux (rank : Int) :
    List Char → Int → List (Sq × Piece) →
      Except FENError (List (Sq × Piece) × Int)
  | [], file, acc => .ok (acc, file)
  | c :: rest, file, acc =>
    if c.isDigit then
      let n : Int := ((c.toNat - 48 : Nat) : Int)
      if n < 1 ∨ n > 8 then .error .bad_empty_count
      else parse_rank_aux rank rest (file + n) acc
    else
      match piece_of_char c with
      | some pc => parse_rank_aux rank rest (file + 1)
          (acc ++ [((file, rank), pc)])
      | none => .error .bad_placement_char

/-- One rank of fen.py `_parse_piece_placement`, with the final
8-files-per-rank check. -/
def parse_rank (rank : Int) (cs : List Char) :
    Except FENError (List (Sq × Piece)) :=
  match parse_rank_aux rank cs 0 [] with
  | .error e => .error e
  | .ok (ps, file) => if file = 8 then .ok ps else .error .bad_rank_width

/-- The rank loop of fen.py `_parse_piece_placement`, ranks 7 down to
0 (FEN rank 8 first). -/
def parse_ranks : List (List Char) → Int →
    Except FENError (List (Sq × Piece))
  | [], _ => .ok []
  | r :: rest, rank =>
    match parse_rank rank r with
    | .error e => .error e
    | .ok ps =>
      match parse_ranks rest (rank - 1) with
      | .error e => .error e
      | .ok rest_ps => .ok (ps ++ rest_ps)

/-- fen.py `FENParser._parse_piece_placement`. -/
def parse_piece_placement (cs : List Char) :
    Except FENError (List (Sq × Piece)) :=
  let ranks := splitOnChar '/' cs
  if ranks.length ≠ 8 then .error .bad_rank_count
  else parse_ranks ranks 7

/-- fen.py `FENParser._parse_active_color`. -/
def parse_active_color (cs : List Char) : Except FENError Color :=
  if cs = ['w'] then .ok .WHITE
  else if cs = ['b'] then .ok .BLACK
  else .error .bad_active_color

/-- fen.py `FENParser._parse_castling`. -/
def parse_castling (cs : List Char) : Except FENError CastlingRights :=
  if cs = ['-'] then
    .ok ⟨false, false, false, false⟩
  else
    cs.foldl (fun acc c =>
      match acc with
      | .error e => .error e
      | .ok r =>
        if c = 'K' then .ok { r with white_kingside := true }
        else if c = 'Q' then .ok { r with white_queenside := true }
        else if c = 'k' then .ok { r with black_kingside := true }
        else if c = 'q' then .ok { r with black_queenside := true }
        else .error .bad_castling_char)
      (.ok ⟨false, false, false, false⟩)

/-- fen.py `FENParser._parse_en_passant`: the landing square converted to
the internal pawn square. -/
def parse_en_passant (cs : List Char) : Except FENError (Option Sq) :=
  if cs = ['-'] then .ok none
  else
    match cs with
    | [file_char, rank_char] =>
      if ¬(file_char ∈ ['a', 'b', 'c', 'd', 'e', 'f', 'g', 'h']) then
        .error .bad_en_passant
      else if ¬(rank_char ∈ ['3', '6']) then .error .bad_en_passant
      else
        let file : Int := ((file_char.toNat - 97 : Nat) : Int)
        let pawn_rank : Int := if rank_char = '3' then 3 else 4
        .ok (some (file, pawn_rank))
    | _ => .error .bad_en_passant

/-- fen.py `FENParser._parse_halfmove`. -/
def parse_halfmove (cs : List Char) : Except FENError Int :=
  match parse_int_chars cs with
  | none => .error .bad_halfmove
  | some v => if v < 0 then .error .bad_halfmove else .ok v

/-- fen.py `FENParser._parse_fullmove`. -/
def parse_fullmove (cs : List Char) : Except FENError Int :=
  match parse_int_chars cs with
  | none => .error .bad_fullmove
  | some v => if v < 1 then .error .bad_fullmove else .ok v

/-- fen.py `FENParser.parse`. -/
def FENParser.parse (fen_string : String) : Except FENError FENData :=
  match splitWs fen_string.toList with
  | [p0, p1, p2, p3, p4, p5] =>
    match parse_piece_placement p0 with
    | .error e => .error e
    | .ok pieces =>
      match parse_active_color p1 with
      | .error e => .error e
      | .ok active_color =>
        match parse_castling p2 with
        | .error e => .error e
        | .ok castling_rights =>
          match parse_en_passant p3 with
          | .error e => .error e
          | .ok en_passant_target =>
            match parse_halfmove p4 with
            | .error e => .error e
            | .ok halfmove_clock =>
              match parse_fullmove p5 with
              | .error e => .error e
              | .ok fullmove_number =>
                .ok { pieces := pieces, active_color := active_color,
                      castling_rights := castling_rights,
                      en_passant_target := en_passant_target,
                      halfmove_clock := halfmove_clock,
                      fullmove_number := fullmove_number }
  | _ => .error .wrong_field_count

/-- fen.py `FENParser.STARTING_FEN`. -/
def STARTING_FEN : String :=
  "rnbqkbnr/pppppppp/8/8/8/8/PPPPPPPP/RNBQKBNR w KQkq - 0 1"

/-- The file-and-empty-count loop body of fen.py
`FENGenerator._generate_piece_placement`, one rank. -/
def gen_rank_aux (b : Board) (rank : Int) : List Nat → Nat → List Char
  | [], cnt => if cnt > 0 then [digitOfNat cnt] else []
  | f :: rest, cnt =>
    match b.get (Int.ofNat f) rank with
    | none => gen_rank_aux b rank rest (cnt + 1)
    | some pc =>
      (if cnt > 0 then [digitOfNat cnt] else []) ++ char_of_piece pc ::
        gen_rank_aux b rank rest 0

/-- One rank of fen.py `FENGenerator._generate_piece_placement`. -/
def gen_rank (b : Board) (rank : Int) : List Char :=
  gen_rank_aux b rank (List.range 8) 0

/-- fen.py `FENGenerator._generate_piece_placement`: ranks 7 down to 0,
joined by slashes. -/
def gen_piece_placement (b : Board) : List Char :=
  joinChar '/' ((List.range 8).map (fun i => gen_rank b (7 - Int.ofNat i)))

/-- fen.py `FENGenerator._generate_active_color`. -/
def gen_active_color_of (c : Color) : List Char :=
  if c = Color.WHITE then ['w'] else ['b']

/-- fen.py `FENGenerator._generate_active_color` on the game state. -/
def gen_active_color (gs : GameState) : List Char :=
  gen_active_color_of gs.current_turn

/-- fen.py `FENGenerator._generate_castling`. -/
def gen_castling_of (r : CastlingRights) : List Char :=
  let cs := (if r.white_kingside then ['K'] else []) ++
    (if r.white_queenside then ['Q'] else []) ++
    (if r.black_kingside then ['k'] else []) ++
    (if r.black_queenside then ['q'] else [])
  if cs = [] then ['-'] else cs

/-- fen.py `FENGenerator._generate_castling` on the game state. -/
def gen_castling (gs : GameState) : List Char :=
  gen_castling_of gs.castling_rights

/-- fen.py file index to letter (chr(97 + file)). -/
def fileChar : Int → Char
  | 0 => 'a'
  | 1 => 'b'
  | 2 => 'c'
  | 3 => 'd'
  | 4 => 'e'
  | 5 => 'f'
  | 6 => 'g'
  | 7 => 'h'
  | _ => 'a'

/-- fen.py `FENGenerator._generate_en_passant`: internal pawn square back
to the landing square. -/
def gen_en_passant_of : Option Sq → List Char
  | none => ['-']
  | some (file, pawn_rank) =>
    [fileChar file, if pawn_rank = 3 then '3' else '6']

/-- fen.py `FENGenerator._generate_en_passant` on the game state. -/
def gen_en_passant (gs : GameState) : List Char :=
  gen_en_passant_of gs.current_en_passant_target

/-- fen.py `FENGenerator.generate`. -/
def FENGenerator.generate (b : Board) (gs : GameState) : String :=
  String.mk (joinChar ' '
    [gen_piece_placement b, gen_active_color gs, gen_castling gs,
      gen_en_passant gs, intToChars gs.halfmove_clock,
      intToChars gs.fullmove_number])

/-- Modelled from the spec: board.py `Board.load_from_fen_data` is called
by fen_loader.py and scripts but is absent from board.py; per the spec's
FEN-loading contract it clears the board and places every parsed piece on
its square. -/
def Board.load_from_fen_data (_b : Board) (fd : FENData) : Board :=
  fd.pieces.foldl (fun bb e => bb.setSq e.1 (some e.2)) (fun _ => none)

/-- game_state.py `GameState.load_from_fen_data`: reset, then install the
parsed fields. -/
def GameState.load_from_fen_data (_gs : GameState) (fd : FENData) :
    GameState :=
  { move_history := []
    redo_history := []
    current_turn := fd.active_color
    castling_rights := fd.castling_rights
    halfmove_clock := fd.halfmove_clock
    fullmove_number := fd.fullmove_number
    initial_en_passant_target := fd.en_passant_target }

/-- Ordered rank segment: the square/piece pairs one placement rank
contributes, on the given rank, with files nondecreasing from the bound
(strictly increasing between entries). -/
def OrderedSeg (rank : Int) : Int → List (Sq × Piece) → Prop
  | _, [] => True
  | f0, e :: rest => e.1.2 = rank ∧ f0 ≤ e.1.1 ∧ OrderedSeg rank (e.1.1 + 1) rest

/-- Lookup inside one rank segment by file (first match; segments have
unique files). -/
def segLookup : List (Sq × Piece) → Int → Option Piece
  | [], _ => none
  | e :: rest, f => if e.1.1 = f then some e.2 else segLookup rest f

/-- Dict-override lookup of an association list (the LAST binding of the
key wins, like Python dict insertion). -/
def sqLookup : List (Sq × Piece) → Sq → Option Piece
  | [], _ => none
  | e :: rest, sq =>
    match sqLookup rest sq with
    | some pc => some pc
    | none => if e.1 = sq then some e.2 else none

/-- fen_loader.py `FENLoader.load`: parse, then load board and state. -/
def FENLoader.load (b : Board) (gs : GameState) (fen_string : String) :
    Except FENError (Board × GameState) :=
  match FENParser.parse fen_string with
  | .error e => .error e
  | .ok fd =>
    .ok (Board.load_from_fen_data b fd, GameState.load_from_fen_data gs fd)

/-- The parse of `STARTING_FEN`, for concrete witnesses. -/
def fd_start : FENData :=
  (FENParser.parse STARTING_FEN).toOption.getD
    ⟨[], Color.WHITE, ⟨false, false, false, false⟩, none, 0, 1⟩

/-- pgn.py `PGNData`, the fields pgn_loader.py touches (the tag roster
fields are omitted): the move list is stored in the field `moves`; the
dataclass declares no `san_moves` attribute. -/
structure PGNData where
  moves : List String := []
  fen : Option String := none

/-- The failure modes of pgn_loader.py `PGNLoader.load_from_data`: the
PGNError wrapping a FEN ValueError from the FEN-tag branch, an unwrapped
FEN error from `load_starting_position` (unreachable), and the
AttributeError raised by reading the undeclared `pgn_data.san_moves`. -/
inductive PGNLoadFailure
  | pgn_error_invalid_fen (e : FENError)
  | fen_error (e : FENError)
  | attribute_error_san_moves
deriving Repr, DecidableEq

/-- pgn_loader.py `PGNLoader.load_from_data`: load the starting position
(the truthy FEN tag via FENLoader.load with the ValueError wrapped as a
PGNError, else `load_starting_position`), then iterate
`pgn_data.san_moves` — an attribute `PGNData` does not declare, so the
read raises AttributeError before any move is applied. -/
def PGNLoader.load_from_data (b : Board) (gs : GameState)
    (pgn_data : PGNData) :
    Except PGNLoadFailure (Board × GameState × List String) :=
  match pgn_data.fen with
  | some f =>
    if f = "" then
      match FENLoader.load b gs STARTING_FEN with
      | .error e => .error (.fen_error e)
      | .ok _ => .error .attribute_error_san_moves
    else
      match FENLoader.load b gs f with
      | .error e => .error (.pgn_error_invalid_fen e)
      | .ok _ => .error .attribute_error_san_moves
  | none =>
    match FENLoader.load b gs STARTING_FEN with
    | .error e => .error (.fen_error e)
    | .ok _ => .error .attribute_error_san_moves

theorem getSq_setSq_self (b : Board) (sq : Sq) (v : Option Piece)
    (h : is_on_board sq.1 sq.2 = true) : (b.setSq sq v).getSq sq = v := by
  simp [Board.setSq, Board.getSq, Board.set, Board.get, h]

theorem getSq_setSq_ne (b : Board) (sq sq' : Sq) (v : Option Piece)
    (h : sq' ≠ sq) : (b.setSq sq v).getSq sq' = b.getSq sq' := by
  simp only [Board.setSq, Board.getSq, Board.set, Board.get]
  rcases sq with ⟨f, r⟩
  rcases sq' with ⟨f', r'⟩
  by_cases hb : is_on_board f' r' = true <;> simp [hb, h]

theorem setSq_apply (b : Board) (sq sq' : Sq) (v : Option Piece) :
    (b.setSq sq v) sq' =
      if sq' = sq ∧ is_on_board sq.1 sq.2 then v else b sq' := by
  rfl

/-! ## C5: promotion execution crashes constructing the Move record -/

/-- C5.  The claim states that from `4k3/4P3/8/8/8/8/8/4K3 w - - 0 1`,
`is_promotion_move(e7,e8)` is true and that executing e7→e8 with promotion
kind Queen succeeds, returning a Move whose `is_promotion` flag is true and
whose promoted-to piece is a white queen.  The first half holds, but the
execution does not return a Move at all: move.py's `Move` dataclass
declares neither `is_promotion` nor `promoted_to`, so `Move(**move_data)`
at move_executor.py:76 raises TypeError (after the board was already
mutated, leaving the white queen on e8 and e7 empty).  This theorem
evaluates the code at the failing input. -/
theorem C5_promotion_move_record :
    is_promotion_move board_promo (4, 6) (4, 7) = true ∧
    (execute_move board_promo gs_promo (4, 6) (4, 7)
      (some .QUEEN)).isMoveTypeError = true ∧
    (execute_move board_promo gs_promo (4, 6) (4, 7) (some .QUEEN)).moveOf = none ∧
    ((execute_move board_promo gs_promo (4, 6) (4, 7) (some .QUEEN)).boardAfter.map
      fun b => (b.get 4 7, b.get 4 6)) =
        some (some ⟨.WHITE, .QUEEN⟩, none) := by
  decide

/-! ## C6: capturing a rook on its home corner never clears the right -/

/-- C6.  The claim states that capturing a rook standing on its home
corner clears the captured side's corresponding castling right.  The
executor calls `_update_castling_rights` AFTER `_apply_move_to_board`, so
`board.get_piece(*to_square)` sees the piece that just moved there, never
the captured rook.  Concretely, from `4k2r/6B1/8/8/8/8/8/4K3 w k - 0 1`,
white's bishop captures the black rook on h8; black's kingside right
survives with value true. -/
theorem C6_captured_rook_right_kept :
    gs_rook_capture.castling_rights.black_kingside = true ∧
    ((execute_move board_rook_capture gs_rook_capture (6, 6) (7, 7) none).moveOf.map
      Move.captured_piece) = some (some ⟨.BLACK, .ROOK⟩) ∧
    ((execute_move board_rook_capture gs_rook_capture (6, 6) (7, 7) none).stateAfter.map
      fun gs => gs.castling_rights.black_kingside) = some true := by
  decide

/-! ## C3: the halfmove clock and fullmove number are never updated -/

/-- C3 counterexample.  The claim requires the halfmove clock to be
incremented by one on a quiet non-pawn move (and, through its closing
`iff`, to be nonzero after such a move).  Executing the quiet knight move
Ng1-f3 (no capture, not a pawn) from a state with clock 0 leaves the clock
at 0, not 1: neither `execute_move` nor `GameState.record_move` ever
touches `halfmove_clock` or `fullmove_number`. -/
theorem C3_clock_not_incremented :
    gs_knight.halfmove_clock = 0 ∧
    ((execute_move board_knight gs_knight (6, 0) (5, 2) none).moveOf.map
      fun m => (m.piece.piece_type, m.captured_piece)) = some (.KNIGHT, none) ∧
    ((execute_move board_knight gs_knight (6, 0) (5, 2) none).stateAfter.map
      GameState.halfmove_clock) = some 0 ∧
    ((execute_move board_knight gs_knight (6, 0) (5, 2) none).stateAfter.map
      GameState.halfmove_clock) ≠ some (gs_knight.halfmove_clock + 1) := by
  decide

/-- C3 amended: `execute_move` leaves the halfmove clock and the fullmove
number exactly as they were; they change only when a FEN is loaded or the
state is reset. -/
theorem C3_clocks_unchanged (b : Board) (gs : GameState) (from_square to_square : Sq)
    (promo : Option PieceType) (gs' : GameState)
    (h : (execute_move b gs from_square to_square promo).stateAfter = some gs') :
    gs'.halfmove_clock = gs.halfmove_clock ∧
    gs'.fullmove_number = gs.fullmove_number := by
  unfold execute_move at h
  cases hb : b.getSq from_square with
  | none => rw [hb] at h; simp [ExecResult.stateAfter] at h
  | some piece =>
    rw [hb] at h
    cases promo with
    | none =>
      simp only [ExecResult.stateAfter, Option.some.injEq] at h
      subst h
      constructor <;> rfl
    | some pt =>
      by_cases hpt : pt = .KING ∨ pt = .PAWN
      · simp [hpt, ExecResult.stateAfter] at h
      · simp only [hpt, if_false, ExecResult.stateAfter, Option.some.injEq] at h
        subst h
        constructor <;> rfl

/-- Witness for C3 amended, at the quiet knight move Ng1-f3. -/
theorem C3_clocks_unchanged_witness :
    gs_knight_after.halfmove_clock = gs_knight.halfmove_clock ∧
    gs_knight_after.fullmove_number = gs_knight.fullmove_number :=
  C3_clocks_unchanged board_knight gs_knight (6, 0) (5, 2) none gs_knight_after
    (by decide)

/-! ## C7: there is no PromotionRequired failure -/

/-- C7 counterexample.  The claim requires `execute_move` on a promoting
pawn move without a promotion kind to fail with a PromotionRequired error,
leaving board and state unchanged.  No such error exists anywhere in the
source: the call succeeds and simply moves the pawn.  From
`4k3/4P3/8/8/8/8/8/4K3 w - - 0 1`, executing e7→e8 with no promotion kind
returns a Move and leaves a white PAWN standing on e8 (and e7 empty), so
the board did change and nothing failed. -/
theorem C7_no_promotion_required :
    is_promotion_move board_promo (4, 6) (4, 7) = true ∧
    ((execute_move board_promo gs_promo (4, 6) (4, 7) none).moveOf).isSome = true ∧
    ((execute_move board_promo gs_promo (4, 6) (4, 7) none).boardAfter.map
      fun b => (b.get 4 7, b.get 4 6)) = some (some ⟨.WHITE, .PAWN⟩, none) := by
  decide

/-- C7 amended: executing a promotion-rank pawn move without a promotion
kind does not fail; the pawn is moved to the promotion rank and remains a
pawn there, the board and state being updated as for any other move. -/
theorem C7_promotionless_execute (b : Board) (gs : GameState)
    (from_square to_square : Sq) (p : Piece)
    (hp : b.getSq from_square = some p) (hpawn : p.piece_type = .PAWN)
    (hrank : to_square.2 = (if p.color = .WHITE then (7 : Int) else 0))
    (hon : is_on_board to_square.1 to_square.2 = true) :
    is_promotion_move b from_square to_square = true ∧
    (execute_move b gs from_square to_square none).moveOf.isSome = true ∧
    ((execute_move b gs from_square to_square none).boardAfter.map
      fun b' => b'.getSq to_square) = some (some p) := by
  refine ⟨?_, ?_, ?_⟩
  · simp [is_promotion_move, hp, hpawn, hrank]
  · unfold execute_move
    rw [hp]
    rfl
  · have hcastle : is_castling_move p from_square to_square = false := by
      simp [is_castling_move, hpawn]
    unfold execute_move classify_move
    rw [hp]
    simp only [hcastle, Bool.false_eq_true, if_false]
    cases hep : is_en_passant_move p to_square gs with
    | false =>
      simp only [Bool.false_eq_true, if_false]
      unfold apply_move_to_board
      simp only [ExecResult.boardAfter, prepare_normal_move, Option.isSome_none,
        Bool.false_eq_true, if_false, Option.map_some', Option.some.injEq]
      rw [getSq_setSq_self _ _ _ hon]
    | true =>
      simp only [if_true]
      have htk : gs.current_en_passant_taking_square = some to_square := by
        have h2 := hep
        simp only [is_en_passant_move, Bool.and_eq_true, decide_eq_true_eq] at h2
        exact h2.2
      unfold GameState.current_en_passant_taking_square at htk
      cases htgt : gs.current_en_passant_target with
      | none => rw [htgt] at htk; simp at htk
      | some t =>
        rw [htgt] at htk
        rcases t with ⟨tf, tr⟩
        simp only [Option.some.injEq] at htk
        unfold apply_move_to_board
        simp only [ExecResult.boardAfter, prepare_en_passant_move, Option.isSome_none,
          Bool.false_eq_true, if_false, if_true, htgt, Option.map_some',
          Option.some.injEq]
        have hne : to_square ≠ (tf, tr) := by
          intro hEq
          rw [← htk] at hEq
          rcases to_square with ⟨f2, r2⟩
          simp only [Prod.mk.injEq] at hEq
          rcases hEq with ⟨-, h2⟩
          by_cases hw : gs.current_turn = .WHITE <;> simp [hw] at h2
        rw [getSq_setSq_ne _ _ _ _ hne, getSq_setSq_self _ _ _ hon]

/-- Witness for C7 amended, at e7→e8 in `4k3/4P3/8/8/8/8/8/4K3 w - - 0 1`. -/
theorem C7_promotionless_execute_witness :
    is_promotion_move board_promo (4, 6) (4, 7) = true ∧
    (execute_move board_promo gs_promo (4, 6) (4, 7) none).moveOf.isSome = true ∧
    ((execute_move board_promo gs_promo (4, 6) (4, 7) none).boardAfter.map
      fun b' => b'.getSq (4, 7)) = some (some ⟨.WHITE, .PAWN⟩) :=
  C7_promotionless_execute board_promo gs_promo (4, 6) (4, 7) ⟨.WHITE, .PAWN⟩
    (by decide) rfl (by decide) (by decide)

/-! ## C9: trie roll-up and the root -/

/-- `insertAux` never alters the opening set of the node it starts at. -/
theorem openings_insertAux (n : TrieNode) (l : List String) (o : Opening) :
    (n.insertAux l o).openings = n.openings := by
  cases l with
  | nil => rfl
  | cons s rest => rfl

/-- Lookup after a `child_store`. -/
theorem find_child_store (cs : List (String × TrieNode)) (s s' : String)
    (c : TrieNode) :
    ((child_store cs s c).find? fun e => e.1 = s').map (·.2) =
      if s' = s then some c else (cs.find? fun e => e.1 = s').map (·.2) := by
  induction cs with
  | nil =>
    by_cases h : s' = s
    · subst h
      simp [child_store, List.find?]
    · have h2 : ¬(s = s') := fun hss => h hss.symm
      simp [child_store, List.find?, h, h2]
  | cons kv rest ih =>
    rcases kv with ⟨k, v⟩
    by_cases hk : k = s
    · subst hk
      by_cases h : s' = k
      · subst h
        simp [child_store, List.find?]
      · have h2 : ¬(k = s') := fun hss => h hss.symm
        simp [child_store, List.find?, h, h2]
    · by_cases h : k = s'
      · subst h
        simp [child_store, if_neg hk, List.find?, hk]
      · simp only [child_store, if_neg hk, List.find?, decide_eq_true_eq]
        have hd : (decide (k = s')) = false := by simp [h]
        rw [hd]
        exact ih

/-- The child map of a node after `insertAux` with a nonempty path. -/
theorem child_insertAux (n : TrieNode) (s : String) (rest : List String)
    (o : Opening) (s' : String) :
    (n.insertAux (s :: rest) o).child s' =
      if s' = s then
        some ((TrieNode.mk ((n.child s).getD (.mk [] [])).children
          (add_opening o ((n.child s).getD (.mk [] [])).openings)).insertAux rest o)
      else n.child s' := by
  show ((child_store n.children s _).find? fun e => e.1 = s').map (·.2) = _
  rw [find_child_store]
  rfl

/-- Membership in `add_opening`. -/
theorem mem_add_opening (e o : Opening) (l : List Opening) :
    e ∈ add_opening o l ↔ e = o ∨ e ∈ l := by
  unfold add_opening
  by_cases h : o ∈ l
  · simp only [if_pos h]
    constructor
    · exact Or.inr
    · rintro (rfl | he)
      · exact h
      · exact he
  · simp only [if_neg h, List.mem_append, List.mem_singleton]
    tauto

/-- The inserted opening is in the set afterwards. -/
theorem mem_add_opening_self (o : Opening) (l : List Opening) :
    o ∈ add_opening o l := by
  rw [mem_add_opening]
  exact Or.inl rfl

/-- A node with no children satisfies the roll-up property. -/
theorem rollUp_empty : RollUp (.mk [] []) := by
  intro q n s c hn hc e he
  cases q with
  | nil =>
    simp only [TrieNode.nodeAt, Option.some.injEq] at hn
    subst hn
    simp [TrieNode.child, TrieNode.children, List.find?] at hc
  | cons s0 q' =>
    simp [TrieNode.nodeAt, TrieNode.child, TrieNode.children, List.find?] at hn

/-- Roll-up restricts to any child subtree. -/
theorem RollUp.child_sub {c : TrieNode} (h : RollUp c) {s : String} {d : TrieNode}
    (hd : c.child s = some d) : RollUp d := by
  intro q n s' c' hn hc e he
  refine h (s :: q) n s' c' ?_ hc e he
  simp only [TrieNode.nodeAt, hd]
  exact hn

/-- Enlarging a node's own opening set preserves roll-up. -/
theorem RollUp.add_top {cs : List (String × TrieNode)} {os : List Opening}
    (h : RollUp (.mk cs os)) (o : Opening) :
    RollUp (.mk cs (add_opening o os)) := by
  intro q n s c hn hc e he
  cases q with
  | nil =>
    simp only [TrieNode.nodeAt, Option.some.injEq] at hn
    subst hn
    have hc' : (TrieNode.mk cs os).child s = some c := hc
    have := h [] (.mk cs os) s c rfl hc' e he
    simp only [TrieNode.openings] at this ⊢
    exact (mem_add_opening e o os).mpr (Or.inr this)
  | cons s0 q' =>
    refine h (s0 :: q') n s c ?_ hc e he
    simpa only [TrieNode.nodeAt, TrieNode.child, TrieNode.children] using hn

/-- Inserting a path into a subtree that already contains the opening at
its root preserves roll-up. -/
theorem RollUp.insertAux {c : TrieNode} (hr : RollUp c) (rest : List String)
    (o : Opening) (ho : o ∈ c.openings) : RollUp (c.insertAux rest o) := by
  induction rest generalizing c with
  | nil => exact hr
  | cons s2 rest' ih =>
    rcases c with ⟨cs, os⟩
    intro q n s' c' hn hc e he
    have hd : RollUp (((TrieNode.mk cs os).child s2).getD (.mk [] [])) := by
      cases hch : (TrieNode.mk cs os).child s2 with
      | none => simpa [hch] using rollUp_empty
      | some d => simpa [hch] using hr.child_sub hch
    set d := ((TrieNode.mk cs os).child s2).getD (.mk [] []) with hdef
    have hd1 : RollUp (.mk d.children (add_opening o d.openings)) := by
      rcases hdd : d with ⟨dcs, dos⟩
      rw [hdd] at hd
      simpa [TrieNode.children, TrieNode.openings] using hd.add_top o
    have hod1 : o ∈ (TrieNode.mk d.children (add_opening o d.openings)).openings :=
      mem_add_opening_self o d.openings
    have hd2 : RollUp ((TrieNode.mk d.children
        (add_opening o d.openings)).insertAux rest' o) := ih hd1 hod1
    cases q with
    | nil =>
      simp only [TrieNode.nodeAt, Option.some.injEq] at hn
      subst hn
      rw [child_insertAux] at hc
      rw [openings_insertAux]
      by_cases hss : s' = s2
      · rw [if_pos hss] at hc
        have hc2 : c' = (TrieNode.mk d.children
            (add_opening o d.openings)).insertAux rest' o := by
          simpa [← hdef] using hc.symm
        have hop : c'.openings = add_opening o d.openings := by
          rw [hc2, openings_insertAux]
          rfl
        rw [hop] at he
        rcases (mem_add_opening e o d.openings).mp he with rfl | hmem
        · exact ho
        · cases hch : (TrieNode.mk cs os).child s2 with
          | none =>
            rw [hdef, hch] at hmem
            simp [TrieNode.openings] at hmem
          | some dd =>
            have hmem' : e ∈ dd.openings := by
              rw [hdef, hch] at hmem
              simpa using hmem
            exact hr [] (.mk cs os) s2 dd rfl hch e hmem'
      · rw [if_neg hss] at hc
        exact hr [] (.mk cs os) s' c' rfl hc e he
    | cons s0 q' =>
      have hn' : (((TrieNode.mk cs os).insertAux (s2 :: rest') o).child s0).bind
          (fun t => t.nodeAt q') = some n := by
        cases hch : ((TrieNode.mk cs os).insertAux (s2 :: rest') o).child s0 with
        | none => simp [TrieNode.nodeAt, hch] at hn
        | some t => simpa [TrieNode.nodeAt, hch] using hn
      rw [child_insertAux] at hn'
      by_cases hss : s0 = s2
      · rw [if_pos hss] at hn'
        simp only [Option.some_bind] at hn'
        have hn2 : ((TrieNode.mk d.children
            (add_opening o d.openings)).insertAux rest' o).nodeAt q' = some n := by
          simpa [← hdef] using hn'
        exact hd2 q' n s' c' hn2 hc e he
      · rw [if_neg hss] at hn'
        have hn2 : (TrieNode.mk cs os).nodeAt (s0 :: q') = some n := by
          cases hch : (TrieNode.mk cs os).child s0 with
          | none => rw [hch] at hn'; simp at hn'
          | some t =>
            rw [hch] at hn'
            simp only [Option.some_bind] at hn'
            simpa [TrieNode.nodeAt, hch] using hn'
        exact hr (s0 :: q') n s' c' hn2 hc e he

/-- `insertAux` preserves the trie invariant. -/
theorem TrieInv.insertAux_inv {t : TrieNode} (h : TrieInv t)
    (sans : List String) (o : Opening) : TrieInv (t.insertAux sans o) := by
  cases sans with
  | nil => exact h
  | cons s rest =>
    intro s' c hc
    rw [child_insertAux] at hc
    by_cases hss : s' = s
    · rw [if_pos hss] at hc
      have hd : RollUp ((t.child s).getD (.mk [] [])) := by
        cases hch : t.child s with
        | none => simpa [hch] using rollUp_empty
        | some d => simpa [hch] using (h s d hch)
      set d := (t.child s).getD (.mk [] []) with hdef
      have hd1 : RollUp (.mk d.children (add_opening o d.openings)) := by
        rcases hdd : d with ⟨dcs, dos⟩
        rw [hdd] at hd
        simpa [TrieNode.children, TrieNode.openings] using hd.add_top o
      have hc2 : c = (TrieNode.mk d.children
          (add_opening o d.openings)).insertAux rest o := by
        simpa [← hdef] using hc.symm
      rw [hc2]
      exact hd1.insertAux rest o (mem_add_opening_self o d.openings)
    · rw [if_neg hss] at hc
      exact h s' c hc

/-- The built trie satisfies the invariant. -/
theorem trieInv_build (entries : List (List String × Opening)) :
    TrieInv (OpeningTrie.build entries) := by
  have hgen : ∀ (l : List (List String × Opening)) (t : TrieNode), TrieInv t →
      TrieInv (l.foldl (fun t e => TrieNode.insertAux t e.1 e.2) t) := by
    intro l
    induction l with
    | nil => exact fun t h => h
    | cons e rest ih =>
      intro t h
      exact ih _ (h.insertAux_inv e.1 e.2)
  refine hgen entries OpeningTrie.empty ?_
  intro s c hc
  simp [OpeningTrie.empty, TrieNode.child, TrieNode.children, List.find?] at hc

/-- Walking one more step from a path. -/
theorem nodeAt_append (t : TrieNode) (xs : List String) (s : String) :
    t.nodeAt (xs ++ [s]) = (t.nodeAt xs).bind fun n => n.child s := by
  induction xs generalizing t with
  | nil =>
    simp only [List.nil_append, TrieNode.nodeAt]
    cases hc : t.child s with
    | none => simp [TrieNode.nodeAt, hc]
    | some c => simp [TrieNode.nodeAt, hc]
  | cons x xs ih =>
    simp only [List.cons_append, TrieNode.nodeAt]
    cases hc : t.child x with
    | none => simp
    | some c => exact ih c

/-- C9 counterexample.  The claim demands that every opening entry of a
non-root node also belong to its parent's opening set.  Inserting the
single line ["e4"] for opening "X" into an empty trie puts the entry on the
depth-1 node, whose parent is the root — and the root's opening set stays
empty, because `insert` only adds the entry to the child reached by each
step, never to the node it starts from. -/
theorem C9_root_not_superset :
    ((trie_single.nodeAt ["e4"]).map
      fun n => n.openings.contains ⟨"X", none⟩) = some true ∧
    ((trie_single.nodeAt []).map
      fun n => n.openings.contains ⟨"X", none⟩) = some false := by
  constructor <;> rfl

/-- C9 amended: in any trie built by inserts, for every node `n` whose
parent is NOT the root (path of length ≥ 2), every opening entry of `n`
also belongs to its parent's opening set — equivalently, inserting a line
adds its Opening entry to every node on the walked path except the root
itself. -/
theorem C9_rollup_below_root (entries : List (List String × Opening))
    (p : List String) (s1 s2 : String) (n m : TrieNode) (e : Opening)
    (hn : (OpeningTrie.build entries).nodeAt (p ++ [s1] ++ [s2]) = some n)
    (hm : (OpeningTrie.build entries).nodeAt (p ++ [s1]) = some m)
    (he : e ∈ n.openings) : e ∈ m.openings := by
  rw [nodeAt_append, hm] at hn
  simp only [Option.some_bind] at hn
  rcases hp : p ++ [s1] with _ | ⟨s0, q0⟩
  · exact absurd hp (by simp)
  · rw [hp] at hm
    have hm' : ∃ c0, (OpeningTrie.build entries).child s0 = some c0 ∧
        c0.nodeAt q0 = some m := by
      cases hch : (OpeningTrie.build entries).child s0 with
      | none => simp [TrieNode.nodeAt, hch] at hm
      | some c0 => exact ⟨c0, rfl, by simpa [TrieNode.nodeAt, hch] using hm⟩
    rcases hm' with ⟨c0, hc0, hm0⟩
    exact (trieInv_build entries s0 c0 hc0) q0 m s2 n hm0 hn e he

/-- Witness for C9 amended: inserting ["e4","e5"] for "Italian", the entry
on the depth-2 node is also on the depth-1 node. -/
theorem C9_rollup_below_root_witness :
    (⟨"Italian", none⟩ : Opening) ∈
      (((OpeningTrie.build [(["e4", "e5"], ⟨"Italian", none⟩)]).nodeAt
        ["e4"]).getD (.mk [] [])).openings :=
  C9_rollup_below_root [(["e4", "e5"], ⟨"Italian", none⟩)] [] "e4" "e5"
    (((OpeningTrie.build [(["e4", "e5"], ⟨"Italian", none⟩)]).nodeAt
      ["e4", "e5"]).getD (.mk [] []))
    (((OpeningTrie.build [(["e4", "e5"], ⟨"Italian", none⟩)]).nodeAt
      ["e4"]).getD (.mk [] []))
    ⟨"Italian", none⟩ rfl rfl (by decide)

/-! ## C10: the en-passant target is derived, and undo restores it -/

/-- Unfolding of `undo_move` when the history is nonempty. -/
theorem undo_move_eq (b : Board) (gs : GameState) (m : Move)
    (h : gs.move_history.getLast? = some m) :
    undo_move b gs =
      (let b2 := (b.setSq m.to_square none).setSq m.from_square (some m.piece)
      let b3 :=
        if m.is_castling then
          (b2.setSq (m.castling_rook_to.getD (0, 0)) none).setSq
            (m.castling_rook_from.getD (0, 0))
            (b2.getSq (m.castling_rook_to.getD (0, 0)))
        else b2
      let b4 := match m.captured_piece with
        | none => b3
        | some cp =>
          if m.is_en_passant then b3.setSq (m.to_square.1, m.from_square.2) (some cp)
          else b3.setSq m.to_square (some cp)
      some (b4,
        { gs with move_history := gs.move_history.dropLast
                  redo_history := gs.redo_history ++ [m]
                  current_turn := m.piece.color }, m)) := by
  unfold undo_move
  rw [h]

/-- C10.  `GameState` holds no standalone mutable en-passant field: the
property `current_en_passant_target` reads the last history entry (or the
FEN-loaded initial target when the history is empty).  Consequently, for
every execute/undo pair: the target in force after the execute is exactly
the one recorded on the move; undo pops the history back to its pre-move
value, leaves the initial target untouched, and the derived target in
force before the undone move is restored with no snapshot held by the
executor. -/
theorem C10_ep_target_restored (b : Board) (gs : GameState) (f t : Sq)
    (pr : Option PieceType) (b' : Board) (gs' : GameState) (m : Move)
    (b'' : Board) (gs'' : GameState) (m' : Move)
    (hex : execute_move b gs f t pr = .ok b' gs' m)
    (hundo : undo_move b' gs' = some (b'', gs'', m')) :
    gs'.move_history = gs.move_history ++ [m] ∧
    gs'.current_en_passant_target = m.current_en_passant_target ∧
    gs''.move_history = gs.move_history ∧
    gs''.initial_en_passant_target = gs.initial_en_passant_target ∧
    gs''.current_en_passant_target = gs.current_en_passant_target := by
  unfold execute_move at hex
  cases hb : b.getSq f with
  | none => rw [hb] at hex; exact absurd hex (by simp)
  | some piece =>
    rw [hb] at hex
    cases pr with
    | some pt =>
      by_cases hpt : pt = .KING ∨ pt = .PAWN
      · simp [hpt] at hex
      · simp [hpt] at hex
    | none =>
      simp only [ExecResult.ok.injEq] at hex
      obtain ⟨hb1, hgs1, hm⟩ := hex
      have hist' : gs'.move_history = gs.move_history ++ [m] := by
        rw [← hgs1, ← hm]
        rfl
      have hinit' : gs'.initial_en_passant_target = gs.initial_en_passant_target := by
        rw [← hgs1]
        rfl
      rw [undo_move_eq b' gs' m (by rw [hist']; exact List.getLast?_concat _)]
        at hundo
      simp only [Option.some.injEq, Prod.mk.injEq] at hundo
      obtain ⟨-, hgu, -⟩ := hundo
      have hmh : gs''.move_history = gs.move_history := by
        rw [← hgu]
        show gs'.move_history.dropLast = gs.move_history
        rw [hist', List.dropLast_concat]
      have hin : gs''.initial_en_passant_target = gs.initial_en_passant_target := by
        rw [← hgu]
        show gs'.initial_en_passant_target = _
        exact hinit'
      refine ⟨hist', ?_, hmh, hin, ?_⟩
      · unfold GameState.current_en_passant_target
        rw [hist', List.getLast?_concat]
      · unfold GameState.current_en_passant_target
        rw [hmh, hin]

/-! ## C2 counterexample: a legal castle can leave the mover in check -/

/-- C2 counterexample.  The claim quantifies over every board and game
state.  On a board where white has TWO kings (e1 and f3, a position the FEN
codec accepts), the legal-move generator offers kingside castling for the
e1 king: the in-check and through-check tests all consult `is_in_check`,
which inspects only the FIRST king in scan order (here e1), and the f3
king — attacked along rank 3 by the black rook on a3 — is never examined.
After executing the generated castle, `is_in_check` (the code's and the
spec's §4.4.5 formalization of "the moving side's king is attacked") is
true: the moving side has a king attacked by the opponent, refuting the
claim as stated. -/
theorem C2_two_kings_castle_unsafe :
    ((get_legal_moves board_two_kings ⟨.WHITE, .KING⟩ (4, 0) gs_two_kings).toOption.map
      fun ms => ms.contains ((6, 0) : Sq)) = some true ∧
    ((execute_move board_two_kings gs_two_kings (4, 0) (6, 0) none).boardAfter.map
      fun b' => is_in_check b' .WHITE) = some true := by
  constructor <;> rfl

/-- Witness for C10, at the en-passant capture e5xd6 and its undo. -/
theorem C10_ep_target_restored_witness :
    gs_ep_after.move_history = gs_ep.move_history ++ [move_ep] ∧
    gs_ep_after.current_en_passant_target = move_ep.current_en_passant_target ∧
    gs_ep_undo.move_history = gs_ep.move_history ∧
    gs_ep_undo.initial_en_passant_target = gs_ep.initial_en_passant_target ∧
    gs_ep_undo.current_en_passant_target = gs_ep.current_en_passant_target :=
  C10_ep_target_restored board_ep gs_ep (4, 4) (3, 5) none board_ep_after
    gs_ep_after move_ep board_ep_undo gs_ep_undo move_ep_undo rfl rfl

/-! ## Structural lemmas about the executor and the simulation -/

/-- Structure of the taking square: it exists exactly one rank beyond the
stored en-passant pawn square, so the two squares differ. -/
theorem taking_square_eq (gs : GameState) (to_square : Sq)
    (h : gs.current_en_passant_taking_square = some to_square) :
    ∃ t : Sq, gs.current_en_passant_target = some t ∧ t.1 = to_square.1 ∧
      to_square.2 = t.2 + (if gs.current_turn = .WHITE then (1 : Int) else -1) ∧
      to_square ≠ t := by
  unfold GameState.current_en_passant_taking_square at h
  cases htgt : gs.current_en_passant_target with
  | none => rw [htgt] at h; simp at h
  | some t =>
    rcases t with ⟨tf, tr⟩
    rw [htgt] at h
    simp only [Option.some.injEq] at h
    refine ⟨(tf, tr), rfl, ?_, ?_, ?_⟩
    · rw [← h]
    · rw [← h]
    · rw [← h]
      intro hEq
      simp only [Prod.mk.injEq] at hEq
      rcases hEq with ⟨-, h2⟩
      by_cases hw : gs.current_turn = .WHITE <;> simp [hw] at h2

/-- `execute_move` without a promotion argument, unfolded. -/
theorem execute_move_none_eq (b : Board) (gs : GameState) (pos to_square : Sq)
    (p : Piece) (hp : b.getSq pos = some p) :
    execute_move b gs pos to_square none =
      (let core := classify_move b p pos to_square gs
      let b1 := apply_move_to_board b ⟨core, none⟩ gs
      let gs1 := { gs with
        castling_rights := update_castling_rights b1 p pos to_square gs.castling_rights
        redo_history := [] }
      .ok b1 (gs1.record_move core) core) := by
  unfold execute_move
  rw [hp]

/-- `execute_move` with a valid promotion argument, unfolded: it always
ends in the Move-construction TypeError, after mutating the board. -/
theorem execute_move_promo_eq (b : Board) (gs : GameState) (pos to_square : Sq)
    (p : Piece) (pt : PieceType) (hp : b.getSq pos = some p)
    (hpt : ¬(pt = .KING ∨ pt = .PAWN)) :
    execute_move b gs pos to_square (some pt) =
      (let core := classify_move b p pos to_square gs
      let b1 := apply_move_to_board b ⟨core, some ⟨p.color, pt⟩⟩ gs
      let gs1 := { gs with
        castling_rights := update_castling_rights b1 p pos to_square gs.castling_rights
        redo_history := [] }
      .move_type_error b1 gs1) := by
  unfold execute_move
  rw [hp]
  simp [hpt]

/-- `execute_move` with KING or PAWN as the promotion argument fails
before touching the board (dict KeyError in `_create_promoted_piece`). -/
theorem execute_move_promo_invalid (b : Board) (gs : GameState) (pos to_square : Sq)
    (p : Piece) (pt : PieceType) (hp : b.getSq pos = some p)
    (hpt : pt = .KING ∨ pt = .PAWN) :
    execute_move b gs pos to_square (some pt) = .err .key_error_promotion := by
  unfold execute_move
  rw [hp]
  simp [hpt]

/-- For a move the executor does not classify as castling, the board it
produces (without promotion) is exactly the king-safety simulation
board. -/
theorem apply_eq_sim (b : Board) (gs : GameState) (p : Piece) (pos to_square : Sq)
    (hnc : is_castling_move p pos to_square = false) :
    apply_move_to_board b ⟨classify_move b p pos to_square gs, none⟩ gs =
      sim_board b p pos to_square gs := by
  unfold classify_move
  rw [hnc]
  simp only [Bool.false_eq_true, if_false]
  cases hep : is_en_passant_move p to_square gs with
  | true =>
    have hepand := hep
    simp only [is_en_passant_move, Bool.and_eq_true, decide_eq_true_eq] at hepand
    obtain ⟨t, htgt, -, -, hne⟩ := taking_square_eq gs to_square hepand.2
    unfold apply_move_to_board sim_board get_capture_square
    simp only [if_true, prepare_en_passant_move, Option.isSome_none,
      Bool.false_eq_true, if_false, htgt]
    rw [if_pos hepand]
    simp only [htgt, Option.getD_some]
    rw [if_pos (Ne.symm hne)]
  | false =>
    have hepand := hep
    simp only [is_en_passant_move, Bool.and_eq_true, decide_eq_true_eq,
      not_and] at hepand
    unfold apply_move_to_board sim_board get_capture_square
    simp only [Bool.false_eq_true, if_false, prepare_normal_move,
      Option.isSome_none]
    have hcond : ¬(p.piece_type = .PAWN ∧
        gs.current_en_passant_taking_square = some to_square) := by
      intro hand
      exact absurd hand (by
        intro ⟨h1, h2⟩
        rw [Bool.and_eq_false_iff] at hepand
        rcases hepand with h | h <;> simp [h1, h2] at h)
    rw [if_neg hcond]
    simp

/-! ## Congruence lemmas for attack queries -/

/-- `find?` only depends on the predicate's values on the list. -/
theorem find?_ext {α : Type} (l : List α) (p q : α → Bool)
    (h : ∀ x ∈ l, p x = q x) : l.find? p = l.find? q := by
  induction l with
  | nil => rfl
  | cons a l ih =>
    have ha := h a (List.mem_cons_self a l)
    simp only [List.find?]
    rw [← ha]
    cases hpa : p a with
    | true => rfl
    | false => exact ih fun x hx => h x (List.mem_cons_of_mem a hx)

/-- `find?` returns the unique element satisfying the predicate. -/
theorem find?_eq_some_of_unique {α : Type} (l : List α) (p : α → Bool) (x : α)
    (hx : x ∈ l) (hpx : p x = true) (huniq : ∀ y ∈ l, p y = true → y = x) :
    l.find? p = some x := by
  induction l with
  | nil => cases hx
  | cons a l ih =>
    simp only [List.find?]
    cases hpa : p a with
    | true =>
      have := huniq a (List.mem_cons_self a l) hpa
      rw [this]
    | false =>
      have hx' : x ∈ l := by
        cases hx with
        | head => rw [hpa] at hpx; cases hpx
        | tail _ h => exact h
      exact ih hx' fun y hy hpy => huniq y (List.mem_cons_of_mem a hy) hpy

/-- An attack ray only consults the squares it walks over. -/
theorem attack_ray_congr (b1 b2 : Board) (atk : Color) (tf tr d_file d_rank : Int) :
    ∀ (fuel : Nat) (cf cr : Int),
      (∀ n : Nat, n < fuel →
        b1.get (cf + n * d_file) (cr + n * d_rank) =
          b2.get (cf + n * d_file) (cr + n * d_rank)) →
      attack_ray b1 atk tf tr d_file d_rank cf cr fuel =
        attack_ray b2 atk tf tr d_file d_rank cf cr fuel := by
  intro fuel
  induction fuel with
  | zero => intro cf cr _; rfl
  | succ fuel ih =>
    intro cf cr h
    unfold attack_ray
    by_cases hon : is_on_board cf cr = true
    · rw [hon]
      have h0 := h 0 (Nat.succ_pos fuel)
      simp only [Nat.cast_zero, zero_mul, add_zero] at h0
      rw [h0]
      cases b2.get cf cr with
      | some piece => simp
      | none =>
        simp only [if_true]
        refine ih (cf + d_file) (cr + d_rank) ?_
        intro n hn
        have := h (n + 1) (Nat.succ_lt_succ hn)
        have e1 : cf + d_file + n * d_file = cf + (n + 1 : Nat) * d_file := by
          push_cast
          ring
        have e2 : cr + d_rank + n * d_rank = cr + (n + 1 : Nat) * d_rank := by
          push_cast
          ring
        rw [e1, e2]
        exact this
    · simp only [Bool.not_eq_true] at hon
      rw [hon]
      simp

/-- Rays cannot distinguish the swapped boards for an attacker of the
other color: at the swapped square both boards break the ray without
finding an attacker. -/
theorem attack_ray_swap (b1 b2 : Board) (t : Sq) (c atk : Color)
    (hs : SwapAt b1 b2 t c) (hca : c ≠ atk) (tf tr d_file d_rank : Int) :
    ∀ (fuel : Nat) (cf cr : Int),
      attack_ray b1 atk tf tr d_file d_rank cf cr fuel =
        attack_ray b2 atk tf tr d_file d_rank cf cr fuel := by
  obtain ⟨hag, q1, q2, hq1, hq2, hc1, hc2, -, -⟩ := hs
  intro fuel
  induction fuel with
  | zero => intro cf cr; rfl
  | succ fuel ih =>
    intro cf cr
    unfold attack_ray
    by_cases hon : is_on_board cf cr = true
    · rw [hon]
      by_cases ht : ((cf, cr) : Sq) = t
      · have hget1 : b1.get cf cr = some q1 := by
          rw [show b1.get cf cr = b1.getSq (cf, cr) from rfl, ht, hq1]
        have hget2 : b2.get cf cr = some q2 := by
          rw [show b2.get cf cr = b2.getSq (cf, cr) from rfl, ht, hq2]
        rw [hget1, hget2]
        have d1 : (decide (q1.color = atk)) = false := by
          simp [hc1, fun h => hca h]
        have d2 : (decide (q2.color = atk)) = false := by
          simp [hc2, fun h => hca h]
        simp [d1, d2]
      · have := hag (cf, cr) ht
        rw [show b1.get cf cr = b1.getSq (cf, cr) from rfl,
          show b2.get cf cr = b2.getSq (cf, cr) from rfl, this]
        cases b2.getSq (cf, cr) with
        | some piece => simp
        | none => simp only [if_true]; exact ih (cf + d_file) (cr + d_rank)
    · simp only [Bool.not_eq_true] at hon
      rw [hon]
      simp

/-- `any` only depends on the predicate's values on the list. -/
theorem any_ext {α : Type} (l : List α) (p q : α → Bool)
    (h : ∀ x ∈ l, p x = q x) : l.any p = l.any q := by
  induction l with
  | nil => rfl
  | cons a l ih =>
    simp only [List.any_cons]
    rw [h a (List.mem_cons_self a l),
      ih fun x hx => h x (List.mem_cons_of_mem a hx)]

/-- The attack query cannot distinguish the swapped boards, for an
attacker of the other color. -/
theorem is_square_attacked_swap (b1 b2 : Board) (t : Sq) (c atk : Color)
    (hs : SwapAt b1 b2 t c) (hca : c ≠ atk) (sq : Sq) :
    is_square_attacked b1 sq atk = is_square_attacked b2 sq atk := by
  obtain ⟨hag, q1, q2, hq1, hq2, hc1, hc2, hk1, hk2⟩ := hs
  have hcell : ∀ cf cr : Int, knight_probe b1 atk cf cr = knight_probe b2 atk cf cr := by
    intro cf cr
    unfold knight_probe
    by_cases ht : ((cf, cr) : Sq) = t
    · have hget1 : b1.get cf cr = some q1 := by
        rw [show b1.get cf cr = b1.getSq (cf, cr) from rfl, ht, hq1]
      have hget2 : b2.get cf cr = some q2 := by
        rw [show b2.get cf cr = b2.getSq (cf, cr) from rfl, ht, hq2]
      rw [hget1, hget2]
      have d1 : (decide (q1.color = atk)) = false := by
        simp [hc1, fun h => hca h]
      have d2 : (decide (q2.color = atk)) = false := by
        simp [hc2, fun h => hca h]
      simp [d1, d2]
    · rw [show b1.get cf cr = b1.getSq (cf, cr) from rfl,
        show b2.get cf cr = b2.getSq (cf, cr) from rfl, hag (cf, cr) ht]
  have hcellP : ∀ cf cr : Int, pawn_probe b1 atk cf cr = pawn_probe b2 atk cf cr := by
    intro cf cr
    unfold pawn_probe
    by_cases ht : ((cf, cr) : Sq) = t
    · have hget1 : b1.get cf cr = some q1 := by
        rw [show b1.get cf cr = b1.getSq (cf, cr) from rfl, ht, hq1]
      have hget2 : b2.get cf cr = some q2 := by
        rw [show b2.get cf cr = b2.getSq (cf, cr) from rfl, ht, hq2]
      rw [hget1, hget2]
      have d1 : (decide (q1.color = atk)) = false := by
        simp [hc1, fun h => hca h]
      have d2 : (decide (q2.color = atk)) = false := by
        simp [hc2, fun h => hca h]
      simp [d1, d2]
    · rw [show b1.get cf cr = b1.getSq (cf, cr) from rfl,
        show b2.get cf cr = b2.getSq (cf, cr) from rfl, hag (cf, cr) ht]
  unfold is_square_attacked
  have hray : (sliding_directions.any fun d =>
        attack_ray b1 atk sq.1 sq.2 d.1 d.2 (sq.1 + d.1) (sq.2 + d.2) 16) =
      (sliding_directions.any fun d =>
        attack_ray b2 atk sq.1 sq.2 d.1 d.2 (sq.1 + d.1) (sq.2 + d.2) 16) :=
    any_ext _ _ _ fun d _ =>
      attack_ray_swap b1 b2 t c atk
        ⟨hag, q1, q2, hq1, hq2, hc1, hc2, hk1, hk2⟩
        hca sq.1 sq.2 d.1 d.2 16 (sq.1 + d.1) (sq.2 + d.2)
  rw [hray]
  congr 1
  congr 1
  · exact any_ext _ _ _ fun o _ => hcell (sq.1 + o.1) (sq.2 + o.2)
  · exact any_ext _ _ _ fun o _ => hcellP (sq.1 + o.1) (sq.2 + o.2)

/-! ## King-location lemmas -/

/-- A color is never its own opponent. -/
theorem opponent_ne (c : Color) : c ≠ c.opponent := by
  cases c <;> simp [Color.opponent]

/-- Membership in the iteration order is exactly being on the board. -/
theorem mem_all_squares (sq : Sq) : sq ∈ all_squares ↔ is_on_board sq.1 sq.2 = true := by
  rcases sq with ⟨f, r⟩
  constructor
  · intro h
    unfold all_squares at h
    rw [List.mem_flatMap] at h
    obtain ⟨a, ha, h⟩ := h
    rw [List.mem_map] at h
    obtain ⟨c, hc, hEq⟩ := h
    rw [List.mem_range] at ha hc
    rw [Prod.ext_iff] at hEq
    obtain ⟨hf, hr⟩ := hEq
    simp only [Int.ofNat_eq_coe] at hf hr
    simp only [is_on_board, Bool.and_eq_true, decide_eq_true_eq]
    omega
  · intro h
    simp only [is_on_board, Bool.and_eq_true, decide_eq_true_eq] at h
    unfold all_squares
    rw [List.mem_flatMap]
    refine ⟨f.toNat, by rw [List.mem_range]; omega, ?_⟩
    rw [List.mem_map]
    refine ⟨r.toNat, by rw [List.mem_range]; omega, ?_⟩
    rw [Prod.ext_iff]
    refine ⟨?_, ?_⟩ <;> simp only [Int.ofNat_eq_coe] <;> omega

/-- A king square is on the board (off-board squares read as empty). -/
theorem is_king_at_on_board (b : Board) (c : Color) (sq : Sq)
    (h : is_king_at b c sq = true) : is_on_board sq.1 sq.2 = true := by
  unfold is_king_at Board.getSq Board.get at h
  by_cases hb : is_on_board sq.1 sq.2 = true
  · exact hb
  · simp only [Bool.not_eq_true] at hb
    rw [hb] at h
    simp at h

/-- Two occupied elements of a length-≤-1 list coincide. -/
theorem mem_length_le_one {α : Type} {l : List α} (h : l.length ≤ 1) {x y : α}
    (hx : x ∈ l) (hy : y ∈ l) : x = y := by
  cases l with
  | nil => cases hx
  | cons a l' =>
    cases l' with
    | nil =>
      rw [List.mem_singleton] at hx hy
      rw [hx, hy]
    | cons b l'' => simp at h

/-- With at most one king, any two king squares coincide. -/
theorem king_unique (b : Board) (c : Color) (h : at_most_one_king b c)
    {sq1 sq2 : Sq} (h1 : is_king_at b c sq1 = true)
    (h2 : is_king_at b c sq2 = true) : sq1 = sq2 := by
  have m1 : sq1 ∈ kings_of b c :=
    List.mem_filter.mpr ⟨(mem_all_squares sq1).mpr (is_king_at_on_board b c sq1 h1), h1⟩
  have m2 : sq2 ∈ kings_of b c :=
    List.mem_filter.mpr ⟨(mem_all_squares sq2).mpr (is_king_at_on_board b c sq2 h2), h2⟩
  exact mem_length_le_one h m1 m2

/-- The scan finds the king when it is unique. -/
theorem find_king_eq_some (b : Board) (c : Color) (ksq : Sq)
    (h : at_most_one_king b c) (hk : is_king_at b c ksq = true) :
    find_king b c = some ksq :=
  find?_eq_some_of_unique _ _ ksq
    ((mem_all_squares ksq).mpr (is_king_at_on_board b c ksq hk)) hk
    fun _ _ hy => king_unique b c h hy hk

/-- Without a king anywhere, the scan fails. -/
theorem find_king_eq_none (b : Board) (c : Color)
    (h : ∀ sq : Sq, is_king_at b c sq = false) : find_king b c = none := by
  unfold find_king
  rw [List.find?_eq_none]
  intro x _
  rw [h x]
  simp

/-- Without a king, `is_in_check` is false (the code's defensive
default). -/
theorem is_in_check_no_king (b : Board) (c : Color)
    (h : ∀ sq : Sq, is_king_at b c sq = false) : is_in_check b c = false := by
  unfold is_in_check
  rw [find_king_eq_none b c h]

/-- `is_in_check` cannot distinguish boards related by a same-color
non-king swap. -/
theorem is_in_check_swap (b1 b2 : Board) (t : Sq) (c : Color)
    (hs : SwapAt b1 b2 t c) : is_in_check b1 c = is_in_check b2 c := by
  have hfk : find_king b1 c = find_king b2 c := by
    unfold find_king
    apply find?_ext
    intro sq _
    by_cases ht : sq = t
    · subst ht
      obtain ⟨-, q1, q2, hq1, hq2, -, -, hk1, hk2⟩ := hs
      unfold is_king_at
      rw [hq1, hq2]
      simp [hk1, hk2]
    · unfold is_king_at
      rw [hs.1 sq ht]
  unfold is_in_check
  rw [hfk]
  cases find_king b2 c with
  | none => rfl
  | some ksq =>
    exact is_square_attacked_swap b1 b2 t c c.opponent hs (opponent_ne c) ksq

/-! ## Inversion lemmas for the move generator -/

/-- Membership in the accumulate-single-moves fold. -/
theorem mem_foldl_single (b : Board) (c : Color) (pos : Sq)
    (l : List (Int × Int)) (init : List Sq) (x : Sq) :
    (x ∈ l.foldl (accumulate_single b c pos) init) ↔
    x ∈ init ∨ ∃ o ∈ l, get_single_move b c pos o = some x := by
  induction l generalizing init with
  | nil => simp
  | cons a l ih =>
    simp only [List.foldl_cons]
    cases hg : get_single_move b c pos a with
    | none =>
      rw [show accumulate_single b c pos init a = init by
        simp [accumulate_single, hg]]
      rw [ih]
      simp only [List.mem_cons]
      constructor
      · rintro (hx | ⟨o, ho, hgo⟩)
        · exact Or.inl hx
        · exact Or.inr ⟨o, Or.inr ho, hgo⟩
      · rintro (hx | ⟨o, rfl | ho, hgo⟩)
        · exact Or.inl hx
        · rw [hg] at hgo; cases hgo
        · exact Or.inr ⟨o, ho, hgo⟩
    | some m =>
      rw [show accumulate_single b c pos init a = init ++ [m] by
        simp [accumulate_single, hg]]
      rw [ih]
      simp only [List.mem_append, List.mem_singleton, List.mem_cons]
      constructor
      · rintro ((hx | (rfl | hnil)) | ⟨o, ho, hgo⟩)
        · exact Or.inl hx
        · exact Or.inr ⟨a, Or.inl rfl, hg⟩
        · cases hnil
        · exact Or.inr ⟨o, Or.inr ho, hgo⟩
      · rintro (hx | ⟨o, rfl | ho, hgo⟩)
        · exact Or.inl (Or.inl hx)
        · rw [hg] at hgo
          cases hgo
          exact Or.inl (Or.inr (Or.inl rfl))
        · exact Or.inr ⟨o, ho, hgo⟩

/-- Membership in the accumulate-sliding-moves fold. -/
theorem mem_foldl_slide {α β : Type} (l : List β) (g : β → List α)
    (init : List α) (x : α) :
    (x ∈ l.foldl (fun acc o => acc ++ g o) init) ↔
    x ∈ init ∨ ∃ o ∈ l, x ∈ g o := by
  induction l generalizing init with
  | nil => simp
  | cons a l ih =>
    simp only [List.foldl_cons]
    rw [ih]
    simp only [List.mem_append, List.mem_cons]
    constructor
    · rintro ((hx | hx) | ⟨o, ho, hgo⟩)
      · exact Or.inl hx
      · exact Or.inr ⟨a, Or.inl rfl, hx⟩
      · exact Or.inr ⟨o, Or.inr ho, hgo⟩
    · rintro (hx | ⟨o, rfl | ho, hgo⟩)
      · exact Or.inl (Or.inl hx)
      · exact Or.inl (Or.inr hgo)
      · exact Or.inr ⟨o, ho, hgo⟩

/-- What a successful single move looks like. -/
theorem get_single_move_eq {b : Board} {c : Color} {pos : Sq} {o : Int × Int}
    {m : Sq} (h : get_single_move b c pos o = some m) :
    m = (pos.1 + o.1, pos.2 + o.2) ∧ is_on_board m.1 m.2 = true := by
  simp only [get_single_move] at h
  split at h
  case isTrue hon =>
    split at h
    next =>
      simp only [Option.some.injEq] at h
      subst h
      exact ⟨rfl, hon⟩
    next target heq =>
      split at h
      next hc =>
        simp only [Option.some.injEq] at h
        subst h
        exact ⟨rfl, hon⟩
      next hc => cases h
  case isFalse hon => cases h

/-- Every square of a sliding walk lies a positive multiple of the
direction away from the start. -/
theorem mem_get_sliding_moves {b : Board} {c : Color} {d_file d_rank : Int}
    {m : Sq} :
    ∀ (fuel : Nat) (f r : Int), m ∈ get_sliding_moves b c f r d_file d_rank fuel →
      ∃ k : Nat, 1 ≤ k ∧ m = (f + k * d_file, r + k * d_rank) ∧
        is_on_board m.1 m.2 = true := by
  intro fuel
  induction fuel with
  | zero => intro f r h; cases h
  | succ fuel ih =>
    intro f r h
    simp only [get_sliding_moves] at h
    split at h
    case isTrue hon =>
      split at h
      next =>
        rcases List.mem_cons.mp h with rfl | h'
        · exact ⟨1, le_refl 1, by simp, hon⟩
        · obtain ⟨k, hk, hm, hon'⟩ := ih (f + d_file) (r + d_rank) h'
          refine ⟨k + 1, by omega, ?_, hon'⟩
          rw [hm, Prod.mk.injEq]
          constructor <;> (push_cast; ring)
      next target heq =>
        split at h
        next hc =>
          rw [List.mem_singleton] at h
          subst h
          exact ⟨1, le_refl 1, by simp, hon⟩
        next hc => cases h
    case isFalse hon => cases h

/-- For a non-pawn piece, every pseudo-legal move arises from a movement
offset: a single application for leapers, a positive multiple for
sliders. -/
theorem mem_possible_nonpawn {b : Board} {p : Piece} {pos : Sq} {gs : GameState}
    {m : Sq} (hnp : p.piece_type ≠ .PAWN)
    (h : m ∈ get_possible_moves b p pos gs) :
    ∃ o ∈ p.piece_type.move_offsets, ∃ k : Nat, 1 ≤ k ∧
      m = (pos.1 + k * o.1, pos.2 + k * o.2) ∧ is_on_board m.1 m.2 = true ∧
      (p.piece_type.is_sliding = false → k = 1) := by
  unfold get_possible_moves at h
  rw [if_neg hnp] at h
  cases hsl : p.piece_type.is_sliding with
  | true =>
    simp only [hsl, if_true] at h
    rw [mem_foldl_slide] at h
    rcases h with h | ⟨o, ho, hm⟩
    · cases h
    · obtain ⟨k, hk, hm, hon⟩ := mem_get_sliding_moves 16 pos.1 pos.2 hm
      exact ⟨o, ho, k, hk, hm, hon, by intro hc; simp at hc⟩
  | false =>
    simp only [hsl, Bool.false_eq_true, if_false] at h
    rw [mem_foldl_single] at h
    rcases h with h | ⟨o, ho, hm⟩
    · cases h
    · obtain ⟨hm, hon⟩ := get_single_move_eq hm
      exact ⟨o, ho, 1, le_refl 1, by simpa using hm, hon, fun _ => rfl⟩

/-- A pseudo-legal king move steps at most one file. -/
theorem king_pseudo_step {b : Board} {p : Piece} {pos : Sq} {gs : GameState}
    {m : Sq} (hk : p.piece_type = .KING)
    (h : m ∈ get_possible_moves b p pos gs) : (m.1 - pos.1).natAbs ≤ 1 := by
  have hnp : p.piece_type ≠ .PAWN := by rw [hk]; simp
  obtain ⟨o, ho, k, hk1, hm, hon, hns⟩ := mem_possible_nonpawn hnp h
  have hsl : p.piece_type.is_sliding = false := by rw [hk]; rfl
  have hone := hns hsl
  subst hone
  rw [hk] at ho
  simp only [PieceType.move_offsets, List.mem_cons, List.not_mem_nil,
    or_false] at ho
  rw [hm]
  rcases ho with rfl | rfl | rfl | rfl | rfl | rfl | rfl | rfl <;> simp

/-- No pseudo-legal move stays on its own square. -/
theorem pseudo_ne_pos {b : Board} {p : Piece} {pos : Sq} {gs : GameState}
    {m : Sq} (hnp : p.piece_type ≠ .PAWN)
    (h : m ∈ get_possible_moves b p pos gs) : m ≠ pos := by
  obtain ⟨o, ho, k, hk1, hm, hon, -⟩ := mem_possible_nonpawn hnp h
  have hoz : o ≠ (0, 0) := by
    cases hpt : p.piece_type <;> rw [hpt] at ho <;>
      simp only [PieceType.move_offsets, List.mem_cons, List.not_mem_nil,
        or_false] at ho <;>
      rcases ho with rfl | rfl | rfl | rfl | rfl | rfl | rfl | rfl <;> simp
  rw [hm]
  intro hEq
  rcases o with ⟨o1, o2⟩
  rcases pos with ⟨f, r⟩
  simp only [Prod.mk.injEq] at hEq
  have hk0 : (k : Int) ≠ 0 := by
    simp only [ne_eq, Int.natCast_eq_zero]
    omega
  rcases hEq with ⟨h1, h2⟩
  have ho1 : (k : Int) * o1 = 0 := by omega
  have ho2 : (k : Int) * o2 = 0 := by omega
  have e1 : o1 = 0 := by
    rcases mul_eq_zero.mp ho1 with hc | hc
    · exact absurd hc hk0
    · exact hc
  have e2 : o2 = 0 := by
    rcases mul_eq_zero.mp ho2 with hc | hc
    · exact absurd hc hk0
    · exact hc
  exact hoz (by rw [e1, e2])

/-- Membership in the legal-move list comes either from the filtered
pseudo-legal moves or from the castling block. -/
theorem legal_moves_cases {b : Board} {p : Piece} {pos : Sq} {gs : GameState}
    {ms : List Sq} {to_square : Sq}
    (h : get_legal_moves b p pos gs = .ok ms) (hto : to_square ∈ ms) :
    (to_square ∈ get_possible_moves b p pos gs ∧
      would_leave_king_in_check b p pos to_square gs = false) ∨
    (p.piece_type = .KING ∧ ∃ cm, get_castling_moves b p pos gs = .ok cm ∧
      to_square ∈ cm) := by
  unfold get_legal_moves at h
  by_cases hk : p.piece_type = .KING
  · rw [if_pos hk] at h
    cases hcm : get_castling_moves b p pos gs with
    | error e => rw [hcm] at h; cases h
    | ok cm =>
      rw [hcm] at h
      simp only [Except.ok.injEq] at h
      subst h
      rcases List.mem_append.mp hto with hleft | hright
      · left
        have := List.mem_filter.mp hleft
        refine ⟨this.1, ?_⟩
        have h2 := this.2
        simp only [Bool.not_eq_true, decide_eq_true_eq] at h2
        exact h2
      · exact Or.inr ⟨hk, cm, rfl, hright⟩
  · rw [if_neg hk] at h
    simp only [Except.ok.injEq] at h
    subst h
    left
    have := List.mem_filter.mp hto
    refine ⟨this.1, ?_⟩
    have h2 := this.2
    simp only [Bool.not_eq_true, decide_eq_true_eq] at h2
    exact h2

/-- Inversion of the kingside castling block. -/
theorem castling_kingside_inv {b : Board} {king : Piece} {rank : Int}
    {gs : GameState} {cm : List Sq} {to_square : Sq}
    (h : castling_kingside b king rank gs = .ok cm) (hto : to_square ∈ cm) :
    to_square = ((6 : Int), rank) ∧ b.get 5 rank = none ∧ b.get 6 rank = none ∧
    (∃ rook, b.get 7 rank = some rook ∧ rook.piece_type = .ROOK ∧
      rook.color = king.color) ∧
    is_square_attacked b (5, rank) king.color.opponent = false ∧
    is_square_attacked b (6, rank) king.color.opponent = false := by
  simp only [castling_kingside] at h
  revert h
  generalize (if king.color = Color.WHITE then gs.castling_rights.white_kingside
    else gs.castling_rights.black_kingside) = can
  intro h
  split at h
  case isTrue hcan =>
    split at h
    next hrook => cases h
    next rook hrook =>
      split at h
      next hbad => cases h
      next hbad =>
        push_neg at hbad
        split at h
        case isTrue hatt =>
          simp only [Except.ok.injEq] at h
          subst h
          rw [List.mem_singleton] at hto
          subst hto
          simp only [Bool.not_eq_true] at hatt
          exact ⟨rfl, hcan.2.1, hcan.2.2, ⟨rook, hrook, hbad.1, hbad.2⟩,
            hatt.1, hatt.2⟩
        case isFalse hatt =>
          simp only [Except.ok.injEq] at h
          subst h
          cases hto
  case isFalse hcan =>
    simp only [Except.ok.injEq] at h
    subst h
    cases hto

/-- Inversion of the queenside castling block. -/
theorem castling_queenside_inv {b : Board} {king : Piece} {rank : Int}
    {gs : GameState} {cm : List Sq} {to_square : Sq}
    (h : castling_queenside b king rank gs = .ok cm) (hto : to_square ∈ cm) :
    to_square = ((2 : Int), rank) ∧ b.get 3 rank = none ∧ b.get 2 rank = none ∧
    b.get 1 rank = none ∧
    (∃ rook, b.get 0 rank = some rook ∧ rook.piece_type = .ROOK ∧
      rook.color = king.color) ∧
    is_square_attacked b (3, rank) king.color.opponent = false ∧
    is_square_attacked b (2, rank) king.color.opponent = false := by
  simp only [castling_queenside] at h
  revert h
  generalize (if king.color = Color.WHITE then gs.castling_rights.white_queenside
    else gs.castling_rights.black_queenside) = can
  intro h
  split at h
  case isTrue hcan =>
    split at h
    next hrook => cases h
    next rook hrook =>
      split at h
      next hbad => cases h
      next hbad =>
        push_neg at hbad
        split at h
        case isTrue hatt =>
          simp only [Except.ok.injEq] at h
          subst h
          rw [List.mem_singleton] at hto
          subst hto
          simp only [Bool.not_eq_true] at hatt
          exact ⟨rfl, hcan.2.1, hcan.2.2.1, hcan.2.2.2,
            ⟨rook, hrook, hbad.1, hbad.2⟩, hatt.1, hatt.2⟩
        case isFalse hatt =>
          simp only [Except.ok.injEq] at h
          subst h
          cases hto
  case isFalse hcan =>
    simp only [Except.ok.injEq] at h
    subst h
    cases hto

/-- Inversion of `_get_castling_moves`. -/
theorem get_castling_moves_inv {b : Board} {king : Piece} {pos : Sq}
    {gs : GameState} {cm : List Sq} {to_square : Sq}
    (h : get_castling_moves b king pos gs = .ok cm) (hto : to_square ∈ cm) :
    is_in_check b king.color = false ∧ pos.1 = 4 ∧
    pos.2 = (if king.color = .WHITE then (0 : Int) else 7) ∧
    ((∃ ks, castling_kingside b king pos.2 gs = .ok ks ∧ to_square ∈ ks) ∨
     (∃ qs, castling_queenside b king pos.2 gs = .ok qs ∧ to_square ∈ qs)) := by
  unfold get_castling_moves at h
  split at h
  case isTrue hchk =>
    simp only [Except.ok.injEq] at h
    subst h
    cases hto
  case isFalse hchk =>
    simp only [Bool.not_eq_true] at hchk
    refine ⟨hchk, ?_⟩
    by_cases hcw : king.color = Color.WHITE
    case pos =>
      rw [if_pos hcw] at h ⊢
      simp only [] at h
      split at h
      case isTrue hpos =>
        simp only [Except.ok.injEq] at h
        subst h
        cases hto
      case isFalse hpos =>
        push_neg at hpos
        refine ⟨hpos.1, hpos.2, ?_⟩
        split at h
        next e he => cases h
        next ks hks =>
          split at h
          next e he => cases h
          next qs hqs =>
            simp only [Except.ok.injEq] at h
            subst h
            rcases List.mem_append.mp hto with hl | hr
            · exact Or.inl ⟨ks, hks, hl⟩
            · exact Or.inr ⟨qs, hqs, hr⟩
    case neg =>
      rw [if_neg hcw] at h ⊢
      simp only [] at h
      split at h
      case isTrue hpos =>
        simp only [Except.ok.injEq] at h
        subst h
        cases hto
      case isFalse hpos =>
        push_neg at hpos
        refine ⟨hpos.1, hpos.2, ?_⟩
        split at h
        next e he => cases h
        next ks hks =>
          split at h
          next e he => cases h
          next qs hqs =>
            simp only [Except.ok.injEq] at h
            subst h
            rcases List.mem_append.mp hto with hl | hr
            · exact Or.inl ⟨ks, hks, hl⟩
            · exact Or.inr ⟨qs, hqs, hr⟩

/-- Off-board squares always read `none` (the embedding's guard for
board.py's ValueError). -/
theorem getSq_off_board (b : Board) (sq : Sq)
    (h : is_on_board sq.1 sq.2 = false) : b.getSq sq = none := by
  simp [Board.getSq, Board.get, h]

/-- A successful read is inside the 8x8 range. -/
theorem getSq_isSome_on_board (b : Board) (sq : Sq) (p : Piece)
    (h : b.getSq sq = some p) : is_on_board sq.1 sq.2 = true := by
  cases hon : is_on_board sq.1 sq.2 with
  | true => rfl
  | false => rw [getSq_off_board b sq hon] at h; cases h

/-- Clearing a square leaves it empty, on or off the board. -/
theorem getSq_setSq_none (b : Board) (sq : Sq) :
    (b.setSq sq none).getSq sq = none := by
  cases hon : is_on_board sq.1 sq.2 with
  | true => exact getSq_setSq_self b sq none hon
  | false => exact getSq_off_board _ sq hon

/-- Membership in a guarded singleton-or-empty branch. -/
theorem mem_ite_nil {α : Type} {c : Prop} [Decidable c] {m : α} {l : List α}
    (h : m ∈ (if c then l else [])) : c ∧ m ∈ l := by
  split at h
  case isTrue hc => exact ⟨hc, h⟩
  case isFalse hc => cases h

/-- One diagonal-capture step only appends the on-board diagonal square. -/
theorem mem_pawn_diag_step {b : Board} {p : Piece} {gs : GameState}
    {acc : List Sq} {d m : Sq} (h : m ∈ pawn_diag_step b p gs acc d) :
    m ∈ acc ∨ (m = d ∧ is_on_board d.1 d.2 = true) := by
  unfold pawn_diag_step at h
  split at h
  case isTrue hond =>
    have happ : m ∈ acc ++ [d] → m ∈ acc ∨ (m = d ∧ is_on_board d.1 d.2 = true) := by
      intro hm
      rcases List.mem_append.mp hm with h1 | h1
      · exact Or.inl h1
      · rw [List.mem_singleton] at h1
        exact Or.inr ⟨h1, hond⟩
    split at h
    next target htgt =>
      split at h
      case isTrue => exact happ h
      case isFalse =>
        split at h
        case isTrue => exact happ h
        case isFalse => exact Or.inl h
    next htgt =>
      split at h
      case isTrue => exact happ h
      case isFalse => exact Or.inl h
  case isFalse hond => exact Or.inl h

/-- The diagonal-capture fold only accumulates on-board squares. -/
theorem mem_pawn_diag_fold (b : Board) (p : Piece) (gs : GameState) :
    ∀ (l : List Sq) (acc : List Sq) (m : Sq),
      m ∈ l.foldl (pawn_diag_step b p gs) acc →
      m ∈ acc ∨ is_on_board m.1 m.2 = true := by
  intro l
  induction l with
  | nil => exact fun acc m h => Or.inl h
  | cons d rest ih =>
    intro acc m h
    rw [List.foldl_cons] at h
    rcases ih _ m h with hacc | hon
    · rcases mem_pawn_diag_step hacc with h1 | ⟨rfl, hond⟩
      · exact Or.inl h1
      · exact Or.inr hond
    · exact Or.inr hon

/-- Pawn pseudo-moves land on the board. -/
theorem mem_pawn_on_board {b : Board} {p : Piece} {pos : Sq} {gs : GameState}
    {m : Sq} (h : m ∈ get_pawn_moves b p pos gs) :
    is_on_board m.1 m.2 = true := by
  obtain ⟨file, rank⟩ := pos
  simp only [get_pawn_moves] at h
  rw [List.mem_append, List.mem_append] at h
  rcases h with (h | h) | h
  · obtain ⟨hob, h⟩ := mem_ite_nil h
    obtain ⟨-, h⟩ := mem_ite_nil h
    rw [List.mem_singleton] at h
    subst h
    exact hob
  · obtain ⟨hob, h⟩ := mem_ite_nil h
    obtain ⟨-, h⟩ := mem_ite_nil h
    obtain ⟨-, h⟩ := mem_ite_nil h
    rw [List.mem_singleton] at h
    subst h
    exact hob
  · rcases mem_pawn_diag_fold b p gs _ [] m h with hacc | hon
    · cases hacc
    · exact hon

/-- Every pseudo-legal move lands on the board. -/
theorem mem_possible_on_board {b : Board} {p : Piece} {pos : Sq}
    {gs : GameState} {m : Sq} (h : m ∈ get_possible_moves b p pos gs) :
    is_on_board m.1 m.2 = true := by
  by_cases hp : p.piece_type = .PAWN
  · unfold get_possible_moves at h
    rw [if_pos hp] at h
    exact mem_pawn_on_board h
  · obtain ⟨o, ho, k, hk1, hm, hon, hns⟩ := mem_possible_nonpawn hp h
    exact hon

/-- The executor never classifies a generator's pseudo-legal move as
castling: kings step one file at most. -/
theorem pseudo_not_castling {b : Board} {p : Piece} {pos : Sq}
    {gs : GameState} {m : Sq} (h : m ∈ get_possible_moves b p pos gs) :
    is_castling_move p pos m = false := by
  unfold is_castling_move
  by_cases hk : p.piece_type = .KING
  · have hstep := king_pseudo_step hk h
    rw [Bool.and_eq_false_iff]
    right
    simp only [decide_eq_false_iff_not]
    omega
  · rw [Bool.and_eq_false_iff]
    left
    simp [hk]

/-- `_apply_move_to_board` with a promoted piece, for a move not classified
as castling: the promoted piece lands on the destination instead of the
mover, with the same en-passant removal as the generator's simulation. -/
theorem apply_promo_eq (b : Board) (gs : GameState) (p q : Piece)
    (pos to_square : Sq) (hnc : is_castling_move p pos to_square = false) :
    apply_move_to_board b ⟨classify_move b p pos to_square gs, some q⟩ gs =
      (let capture_square := get_capture_square p to_square gs
       let b1 := (b.setSq pos none).setSq to_square (some q)
       if capture_square ≠ to_square then b1.setSq capture_square none else b1) := by
  unfold classify_move
  rw [hnc]
  simp only [Bool.false_eq_true, if_false]
  cases hep : is_en_passant_move p to_square gs with
  | true =>
    have hepand := hep
    simp only [is_en_passant_move, Bool.and_eq_true, decide_eq_true_eq] at hepand
    obtain ⟨t, htgt, -, -, hne⟩ := taking_square_eq gs to_square hepand.2
    unfold apply_move_to_board get_capture_square
    simp only [if_true, prepare_en_passant_move, Option.isSome_some, htgt]
    rw [if_pos hepand]
    simp only [htgt, Option.getD_some]
    rw [if_pos (Ne.symm hne)]
    simp
  | false =>
    have hepand := hep
    simp only [is_en_passant_move, Bool.and_eq_true, decide_eq_true_eq,
      not_and] at hepand
    unfold apply_move_to_board get_capture_square
    simp only [Bool.false_eq_true, if_false, prepare_normal_move,
      Option.isSome_some, if_true]
    have hcond : ¬(p.piece_type = .PAWN ∧
        gs.current_en_passant_taking_square = some to_square) := by
      intro hand
      exact absurd hand (by
        intro ⟨h1, h2⟩
        rw [Bool.and_eq_false_iff] at hepand
        rcases hepand with h | h <;> simp [h1, h2] at h)
    rw [if_neg hcond]
    simp

/-- Executing with a same-color, non-king promoted piece relates to the
generator's simulation board by a swap at the destination square. -/
theorem swapat_promo (b : Board) (gs : GameState) (p q : Piece)
    (pos to_square : Sq) (hnc : is_castling_move p pos to_square = false)
    (hob : is_on_board to_square.1 to_square.2 = true)
    (hcol : q.color = p.color) (hkq : q.piece_type ≠ .KING)
    (hkp : p.piece_type ≠ .KING) :
    SwapAt (apply_move_to_board b ⟨classify_move b p pos to_square gs, some q⟩ gs)
      (sim_board b p pos to_square gs) to_square p.color := by
  rw [apply_promo_eq b gs p q pos to_square hnc]
  unfold sim_board
  simp only []
  constructor
  · intro sq hsq
    by_cases hcap : get_capture_square p to_square gs ≠ to_square
    · rw [if_pos hcap, if_pos hcap]
      by_cases hsc : sq = get_capture_square p to_square gs
      · subst hsc
        rw [getSq_setSq_none, getSq_setSq_none]
      · rw [getSq_setSq_ne _ _ _ _ hsc, getSq_setSq_ne _ _ _ _ hsc,
          getSq_setSq_ne _ _ _ _ hsq, getSq_setSq_ne _ _ _ _ hsq]
    · rw [if_neg hcap, if_neg hcap]
      rw [getSq_setSq_ne _ _ _ _ hsq, getSq_setSq_ne _ _ _ _ hsq]
  · refine ⟨q, p, ?_, ?_, hcol, rfl, hkq, hkp⟩
    · by_cases hcap : get_capture_square p to_square gs ≠ to_square
      · rw [if_pos hcap]
        rw [getSq_setSq_ne _ _ _ _ (Ne.symm hcap)]
        exact getSq_setSq_self _ _ _ hob
      · rw [if_neg hcap]
        exact getSq_setSq_self _ _ _ hob
    · by_cases hcap : get_capture_square p to_square gs ≠ to_square
      · rw [if_pos hcap]
        rw [getSq_setSq_ne _ _ _ _ (Ne.symm hcap)]
        exact getSq_setSq_self _ _ _ hob
      · rw [if_neg hcap]
        exact getSq_setSq_self _ _ _ hob

/-- The 64 iteration squares are pairwise distinct. -/
theorem nodup_all_squares : all_squares.Nodup := by decide

/-- A duplicate-free list whose members all equal one value has length at
most one. -/
theorem nodup_all_eq_le_one {α : Type} {l : List α} {t : α} (hnd : l.Nodup)
    (h : ∀ x ∈ l, x = t) : l.length ≤ 1 := by
  rcases l with _ | ⟨a, _ | ⟨b, rest⟩⟩
  · simp
  · simp
  · exfalso
    have ha := h a (by simp)
    have hb := h b (by simp)
    rw [List.nodup_cons] at hnd
    exact hnd.1 (by rw [ha, hb]; exact List.mem_cons_self _ _)

/-- A board whose only candidate king square is `t` has at most one
king. -/
theorem at_most_one_king_of_unique (b : Board) (c : Color) (t : Sq)
    (h : ∀ sq : Sq, is_king_at b c sq = true → sq = t) :
    at_most_one_king b c := by
  unfold at_most_one_king kings_of
  exact nodup_all_eq_le_one (nodup_all_squares.filter _)
    (fun x hx => h x (List.mem_filter.mp hx).2)

/-- After the unique king of `c` left `pos` and no square gained a king of
`c`, the king scan finds nothing, so `is_in_check` is false. -/
theorem is_in_check_king_gone (b b' : Board) (c : Color) (pos : Sq)
    (hkings : at_most_one_king b c) (hkpos : is_king_at b c pos = true)
    (h : ∀ sq : Sq, sq ≠ pos → is_king_at b' c sq = true →
      is_king_at b c sq = true)
    (hpos : is_king_at b' c pos = false) :
    is_in_check b' c = false := by
  apply is_in_check_no_king
  intro sq
  by_cases hsq : sq = pos
  · subst hsq
    exact hpos
  · cases hk : is_king_at b' c sq with
    | false => rfl
    | true => exact absurd (king_unique b c hkings (h sq hsq hk) hkpos) hsq

/-- Splitting a false `is_square_attacked` into its ray, knight and pawn
components. -/
theorem is_square_attacked_false_parts {b : Board} {sq : Sq} {atk : Color}
    (h : is_square_attacked b sq atk = false) :
    (∀ d ∈ sliding_directions,
      attack_ray b atk sq.1 sq.2 d.1 d.2 (sq.1 + d.1) (sq.2 + d.2) 16 = false) ∧
    (∀ o ∈ PieceType.KNIGHT.move_offsets,
      knight_probe b atk (sq.1 + o.1) (sq.2 + o.2) = false) ∧
    (∀ o ∈ [((-1 : Int), (if atk = Color.WHITE then (-1 : Int) else 1)),
        ((1 : Int), (if atk = Color.WHITE then (-1 : Int) else 1))],
      pawn_probe b atk (sq.1 + o.1) (sq.2 + o.2) = false) := by
  unfold is_square_attacked at h
  simp only [Bool.or_eq_false_iff, List.any_eq_false, Bool.not_eq_true] at h
  exact ⟨h.1.1, h.1.2, h.2⟩

/-- Assembling a false `is_square_attacked` from its components. -/
theorem is_square_attacked_false_of {b : Board} {sq : Sq} {atk : Color}
    (hray : ∀ d ∈ sliding_directions,
      attack_ray b atk sq.1 sq.2 d.1 d.2 (sq.1 + d.1) (sq.2 + d.2) 16 = false)
    (hkn : ∀ o ∈ PieceType.KNIGHT.move_offsets,
      knight_probe b atk (sq.1 + o.1) (sq.2 + o.2) = false)
    (hpw : ∀ o ∈ [((-1 : Int), (if atk = Color.WHITE then (-1 : Int) else 1)),
        ((1 : Int), (if atk = Color.WHITE then (-1 : Int) else 1))],
      pawn_probe b atk (sq.1 + o.1) (sq.2 + o.2) = false) :
    is_square_attacked b sq atk = false := by
  unfold is_square_attacked
  simp only [Bool.or_eq_false_iff, List.any_eq_false, Bool.not_eq_true]
  exact ⟨⟨hray, hkn⟩, hpw⟩

/-- The knight probe only reads its own square. -/
theorem knight_probe_congr {b1 b2 : Board} {atk : Color} {cf cr : Int}
    (h : b1.get cf cr = b2.get cf cr) :
    knight_probe b1 atk cf cr = knight_probe b2 atk cf cr := by
  unfold knight_probe
  rw [h]

/-- The pawn probe only reads its own square. -/
theorem pawn_probe_congr {b1 b2 : Board} {atk : Color} {cf cr : Int}
    (h : b1.get cf cr = b2.get cf cr) :
    pawn_probe b1 atk cf cr = pawn_probe b2 atk cf cr := by
  unfold pawn_probe
  rw [h]

/-- One ray step over an empty on-board square. -/
theorem attack_ray_step_none {b : Board} {atk : Color}
    {tf tr d_file d_rank cf cr : Int} (fuel : Nat)
    (hon : is_on_board cf cr = true) (hget : b.get cf cr = none) :
    attack_ray b atk tf tr d_file d_rank cf cr (fuel + 1) =
      attack_ray b atk tf tr d_file d_rank (cf + d_file) (cr + d_rank) fuel := by
  simp only [attack_ray]
  rw [hget]
  simp [hon]

/-- The ray dies off the board. -/
theorem attack_ray_off {b : Board} {atk : Color}
    {tf tr d_file d_rank cf cr : Int} (fuel : Nat)
    (hon : is_on_board cf cr = false) :
    attack_ray b atk tf tr d_file d_rank cf cr fuel = false := by
  cases fuel with
  | zero => rfl
  | succ fuel =>
    unfold attack_ray
    rw [hon]
    simp

/-- The ray dies at a piece that is not the attacker's. -/
theorem attack_ray_blocked {b : Board} {atk : Color}
    {tf tr d_file d_rank cf cr : Int} (fuel : Nat) (piece : Piece)
    (hget : b.get cf cr = some piece) (hc : piece.color ≠ atk) :
    attack_ray b atk tf tr d_file d_rank cf cr fuel = false := by
  cases fuel with
  | zero => rfl
  | succ fuel =>
    unfold attack_ray
    cases hon : is_on_board cf cr with
    | false => simp [hon]
    | true =>
      rw [hget]
      simp [hc]

/-- A ray leaving the rank immediately never consults the rank, so boards
agreeing off the rank give the same answer. -/
theorem attack_ray_offrank (b1 b2 : Board) (atk : Color) (tf ksr : Int)
    (hag : ∀ f r : Int, r ≠ ksr → b1.get f r = b2.get f r)
    (d_file d_rank : Int) (hd : d_rank ≠ 0) :
    attack_ray b1 atk tf ksr d_file d_rank (tf + d_file) (ksr + d_rank) 16 =
      attack_ray b2 atk tf ksr d_file d_rank (tf + d_file) (ksr + d_rank) 16 := by
  apply attack_ray_congr
  intro n hn
  apply hag
  intro he
  apply hd
  have hz : d_rank + (n : Int) * d_rank = 0 := by linarith
  have hz2 : ((n : Int) + 1) * d_rank = 0 := by linarith [hz]
  rcases mul_eq_zero.mp hz2 with h0 | h0
  · exfalso
    have hnn : (0 : Int) ≤ (n : Int) := Int.natCast_nonneg n
    omega
  · exact h0

/-- Four writes on one rank leave every other rank untouched. -/
theorem setSq4_rank_agree (b : Board) (ksr f1 f2 f3 f4 : Int)
    (v1 v2 v3 v4 : Option Piece) (f r : Int) (hr : r ≠ ksr) :
    ((((b.setSq (f1, ksr) v1).setSq (f2, ksr) v2).setSq (f3, ksr) v3).setSq
        (f4, ksr) v4).get f r = b.get f r := by
  have hne : ∀ g : Int, ((f, r) : Sq) ≠ (g, ksr) := by
    intro g he
    exact hr (congrArg Prod.snd he)
  show ((((b.setSq (f1, ksr) v1).setSq (f2, ksr) v2).setSq (f3, ksr) v3).setSq
      (f4, ksr) v4).getSq (f, r) = b.getSq (f, r)
  rw [getSq_setSq_ne _ _ _ _ (hne f4), getSq_setSq_ne _ _ _ _ (hne f3),
    getSq_setSq_ne _ _ _ _ (hne f2), getSq_setSq_ne _ _ _ _ (hne f1)]

/-- `_apply_move_to_board` on a castling-classified move: mover (or the
promoted piece) to the destination, rook jumped over it. -/
theorem apply_castle_eq (b : Board) (gs : GameState) (p : Piece)
    (pos to_square : Sq) (mq : Option Piece)
    (hc : is_castling_move p pos to_square = true) :
    apply_move_to_board b ⟨classify_move b p pos to_square gs, mq⟩ gs =
      (let rook_from : Sq :=
        if to_square.1 - pos.1 = 2 then (7, pos.2) else (0, pos.2)
       let rook_to : Sq :=
        if to_square.1 - pos.1 = 2 then (5, pos.2) else (3, pos.2)
       let b2 := (b.setSq pos none).setSq to_square
         (if mq.isSome then mq else some p)
       (b2.setSq rook_from none).setSq rook_to (b2.getSq rook_from)) := by
  unfold classify_move
  rw [hc]
  rw [if_pos rfl]
  cases mq with
  | none =>
    unfold apply_move_to_board prepare_castling_move
    simp only [Option.isSome_none, Bool.false_eq_true, if_false, if_true,
      Option.getD_some]
  | some q =>
    unfold apply_move_to_board prepare_castling_move
    simp only [Option.isSome_some, if_true, Option.getD_some]

/-- After kingside castling the king's landing square g-file stays
unattacked: the f/g squares were checked on the pre-move board, the
horizontal rays die on the moved rook and the emptied corner, and every
other probe leaves the castling rank. -/
theorem castled_kingside_attack (b b3 : Board) (c : Color) (ksr : Int)
    (p rook : Piece)
    (hb3 : b3 = (((b.setSq ((4 : Int), ksr) none).setSq ((6 : Int), ksr)
        (some p)).setSq ((7 : Int), ksr) none).setSq ((5 : Int), ksr)
      (some rook))
    (hlo : 0 ≤ ksr) (hhi : ksr < 8) (hrc : rook.color = c)
    (hatt : is_square_attacked b ((6 : Int), ksr) c.opponent = false) :
    is_square_attacked b3 ((6 : Int), ksr) c.opponent = false := by
  have hag : ∀ f r : Int, r ≠ ksr → b3.get f r = b.get f r := by
    intro f r hr
    rw [hb3]
    exact setSq4_rank_agree b ksr 4 6 7 5 none (some p) none (some rook) f r hr
  have hget7 : b3.get (7 : Int) ksr = none := by
    rw [hb3]
    show (_ : Board).getSq ((7 : Int), ksr) = none
    rw [getSq_setSq_ne _ _ _ _
      (by intro he; exact absurd (congrArg Prod.fst he) (by norm_num))]
    exact getSq_setSq_none _ _
  have hget5 : b3.get (5 : Int) ksr = some rook := by
    rw [hb3]
    exact getSq_setSq_self _ _ _ (by simp [is_on_board]; omega)
  obtain ⟨hrays, hkn, hpw⟩ := is_square_attacked_false_parts hatt
  apply is_square_attacked_false_of
  · intro d hd
    have hd' := hd
    simp only [sliding_directions, List.mem_cons, List.not_mem_nil,
      or_false] at hd'
    rcases hd' with rfl | rfl | rfl | rfl | rfl | rfl | rfl | rfl
    · show attack_ray b3 c.opponent 6 ksr 1 0 (6 + 1) (ksr + 0) 16 = false
      norm_num
      rw [show (16 : Nat) = 15 + 1 from rfl]
      rw [attack_ray_step_none 15 (by simp [is_on_board]; omega) hget7]
      norm_num
      exact attack_ray_off 15 (by simp [is_on_board])
    · show attack_ray b3 c.opponent 6 ksr (-1) 0 (6 + -1) (ksr + 0) 16 = false
      norm_num
      exact attack_ray_blocked 16 rook hget5
        (by rw [hrc]; exact opponent_ne c)
    · show attack_ray b3 c.opponent 6 ksr 0 1 (6 + 0) (ksr + 1) 16 = false
      rw [attack_ray_offrank b3 b c.opponent 6 ksr hag 0 1 (by norm_num)]
      exact hrays ((0 : Int), (1 : Int)) (by simp [sliding_directions])
    · show attack_ray b3 c.opponent 6 ksr 0 (-1) (6 + 0) (ksr + -1) 16 = false
      rw [attack_ray_offrank b3 b c.opponent 6 ksr hag 0 (-1) (by norm_num)]
      exact hrays ((0 : Int), (-1 : Int)) (by simp [sliding_directions])
    · show attack_ray b3 c.opponent 6 ksr 1 1 (6 + 1) (ksr + 1) 16 = false
      rw [attack_ray_offrank b3 b c.opponent 6 ksr hag 1 1 (by norm_num)]
      exact hrays ((1 : Int), (1 : Int)) (by simp [sliding_directions])
    · show attack_ray b3 c.opponent 6 ksr 1 (-1) (6 + 1) (ksr + -1) 16 = false
      rw [attack_ray_offrank b3 b c.opponent 6 ksr hag 1 (-1) (by norm_num)]
      exact hrays ((1 : Int), (-1 : Int)) (by simp [sliding_directions])
    · show attack_ray b3 c.opponent 6 ksr (-1) 1 (6 + -1) (ksr + 1) 16 = false
      rw [attack_ray_offrank b3 b c.opponent 6 ksr hag (-1) 1 (by norm_num)]
      exact hrays ((-1 : Int), (1 : Int)) (by simp [sliding_directions])
    · show attack_ray b3 c.opponent 6 ksr (-1) (-1) (6 + -1) (ksr + -1) 16 =
        false
      rw [attack_ray_offrank b3 b c.opponent 6 ksr hag (-1) (-1) (by norm_num)]
      exact hrays ((-1 : Int), (-1 : Int)) (by simp [sliding_directions])
  · intro o ho
    have ho2 : o.2 ≠ 0 := by
      have ho' := ho
      simp only [PieceType.move_offsets, List.mem_cons, List.not_mem_nil,
        or_false] at ho'
      rcases ho' with rfl | rfl | rfl | rfl | rfl | rfl | rfl | rfl <;> decide
    rw [knight_probe_congr (hag (((6 : Int), ksr).1 + o.1)
      (((6 : Int), ksr).2 + o.2) (by show ksr + o.2 ≠ ksr; omega))]
    exact hkn o ho
  · intro o ho
    have ho2 : o.2 ≠ 0 := by
      have ho' := ho
      simp only [List.mem_cons, List.not_mem_nil, or_false] at ho'
      rcases ho' with rfl | rfl <;>
        · show (if c.opponent = Color.WHITE then (-1 : Int) else 1) ≠ 0
          split <;> omega
    rw [pawn_probe_congr (hag (((6 : Int), ksr).1 + o.1)
      (((6 : Int), ksr).2 + o.2) (by show ksr + o.2 ≠ ksr; omega))]
    exact hpw o ho

/-- After queenside castling the king's landing square c-file stays
unattacked: the c/d squares were checked on the pre-move board, the b-file
was required empty, and the horizontal rays die on the moved rook and off
the a-file. -/
theorem castled_queenside_attack (b b3 : Board) (c : Color) (ksr : Int)
    (p rook : Piece)
    (hb3 : b3 = (((b.setSq ((4 : Int), ksr) none).setSq ((2 : Int), ksr)
        (some p)).setSq ((0 : Int), ksr) none).setSq ((3 : Int), ksr)
      (some rook))
    (hlo : 0 ≤ ksr) (hhi : ksr < 8) (hrc : rook.color = c)
    (hb1 : b.get (1 : Int) ksr = none)
    (hatt : is_square_attacked b ((2 : Int), ksr) c.opponent = false) :
    is_square_attacked b3 ((2 : Int), ksr) c.opponent = false := by
  have hag : ∀ f r : Int, r ≠ ksr → b3.get f r = b.get f r := by
    intro f r hr
    rw [hb3]
    exact setSq4_rank_agree b ksr 4 2 0 3 none (some p) none (some rook) f r hr
  have hget3 : b3.get (3 : Int) ksr = some rook := by
    rw [hb3]
    exact getSq_setSq_self _ _ _ (by simp [is_on_board]; omega)
  have hget1 : b3.get (1 : Int) ksr = none := by
    rw [hb3]
    show (_ : Board).getSq ((1 : Int), ksr) = none
    rw [getSq_setSq_ne _ _ _ _
      (by intro he; exact absurd (congrArg Prod.fst he) (by norm_num)),
      getSq_setSq_ne _ _ _ _
      (by intro he; exact absurd (congrArg Prod.fst he) (by norm_num)),
      getSq_setSq_ne _ _ _ _
      (by intro he; exact absurd (congrArg Prod.fst he) (by norm_num)),
      getSq_setSq_ne _ _ _ _
      (by intro he; exact absurd (congrArg Prod.fst he) (by norm_num))]
    exact hb1
  have hget0 : b3.get (0 : Int) ksr = none := by
    rw [hb3]
    show (_ : Board).getSq ((0 : Int), ksr) = none
    rw [getSq_setSq_ne _ _ _ _
      (by intro he; exact absurd (congrArg Prod.fst he) (by norm_num))]
    exact getSq_setSq_none _ _
  obtain ⟨hrays, hkn, hpw⟩ := is_square_attacked_false_parts hatt
  apply is_square_attacked_false_of
  · intro d hd
    have hd' := hd
    simp only [sliding_directions, List.mem_cons, List.not_mem_nil,
      or_false] at hd'
    rcases hd' with rfl | rfl | rfl | rfl | rfl | rfl | rfl | rfl
    · show attack_ray b3 c.opponent 2 ksr 1 0 (2 + 1) (ksr + 0) 16 = false
      norm_num
      exact attack_ray_blocked 16 rook hget3
        (by rw [hrc]; exact opponent_ne c)
    · show attack_ray b3 c.opponent 2 ksr (-1) 0 (2 + -1) (ksr + 0) 16 = false
      norm_num
      rw [show (16 : Nat) = 15 + 1 from rfl]
      rw [attack_ray_step_none 15 (by simp [is_on_board]; omega) hget1]
      norm_num
      rw [show (15 : Nat) = 14 + 1 from rfl]
      rw [attack_ray_step_none 14 (by simp [is_on_board]; omega) hget0]
      norm_num
      exact attack_ray_off 14 (by simp [is_on_board])
    · show attack_ray b3 c.opponent 2 ksr 0 1 (2 + 0) (ksr + 1) 16 = false
      rw [attack_ray_offrank b3 b c.opponent 2 ksr hag 0 1 (by norm_num)]
      exact hrays ((0 : Int), (1 : Int)) (by simp [sliding_directions])
    · show attack_ray b3 c.opponent 2 ksr 0 (-1) (2 + 0) (ksr + -1) 16 = false
      rw [attack_ray_offrank b3 b c.opponent 2 ksr hag 0 (-1) (by norm_num)]
      exact hrays ((0 : Int), (-1 : Int)) (by simp [sliding_directions])
    · show attack_ray b3 c.opponent 2 ksr 1 1 (2 + 1) (ksr + 1) 16 = false
      rw [attack_ray_offrank b3 b c.opponent 2 ksr hag 1 1 (by norm_num)]
      exact hrays ((1 : Int), (1 : Int)) (by simp [sliding_directions])
    · show attack_ray b3 c.opponent 2 ksr 1 (-1) (2 + 1) (ksr + -1) 16 = false
      rw [attack_ray_offrank b3 b c.opponent 2 ksr hag 1 (-1) (by norm_num)]
      exact hrays ((1 : Int), (-1 : Int)) (by simp [sliding_directions])
    · show attack_ray b3 c.opponent 2 ksr (-1) 1 (2 + -1) (ksr + 1) 16 = false
      rw [attack_ray_offrank b3 b c.opponent 2 ksr hag (-1) 1 (by norm_num)]
      exact hrays ((-1 : Int), (1 : Int)) (by simp [sliding_directions])
    · show attack_ray b3 c.opponent 2 ksr (-1) (-1) (2 + -1) (ksr + -1) 16 =
        false
      rw [attack_ray_offrank b3 b c.opponent 2 ksr hag (-1) (-1) (by norm_num)]
      exact hrays ((-1 : Int), (-1 : Int)) (by simp [sliding_directions])
  · intro o ho
    have ho2 : o.2 ≠ 0 := by
      have ho' := ho
      simp only [PieceType.move_offsets, List.mem_cons, List.not_mem_nil,
        or_false] at ho'
      rcases ho' with rfl | rfl | rfl | rfl | rfl | rfl | rfl | rfl <;> decide
    rw [knight_probe_congr (hag (((2 : Int), ksr).1 + o.1)
      (((2 : Int), ksr).2 + o.2) (by show ksr + o.2 ≠ ksr; omega))]
    exact hkn o ho
  · intro o ho
    have ho2 : o.2 ≠ 0 := by
      have ho' := ho
      simp only [List.mem_cons, List.not_mem_nil, or_false] at ho'
      rcases ho' with rfl | rfl <;>
        · show (if c.opponent = Color.WHITE then (-1 : Int) else 1) ≠ 0
          split <;> omega
    rw [pawn_probe_congr (hag (((2 : Int), ksr).1 + o.1)
      (((2 : Int), ksr).2 + o.2) (by show ksr + o.2 ≠ ksr; omega))]
    exact hpw o ho

/-- After kingside castling the mover's king is not in check: the scan
finds the king on the g-file and no attack reaches it. -/
theorem castle_kingside_safe (b b3 : Board) (c : Color) (pr : Int)
    (p rook : Piece)
    (hb3 : b3 = (((b.setSq ((4 : Int), pr) none).setSq ((6 : Int), pr)
        (some p)).setSq ((7 : Int), pr) none).setSq ((5 : Int), pr)
      (some rook))
    (hlo : 0 ≤ pr) (hhi : pr < 8)
    (hkings : at_most_one_king b c)
    (hpcol : p.color = c) (hpty : p.piece_type = .KING)
    (hkpos : is_king_at b c ((4 : Int), pr) = true)
    (hrookc : rook.color = c) (hrookty : rook.piece_type = .ROOK)
    (hatt6 : is_square_attacked b ((6 : Int), pr) c.opponent = false) :
    is_in_check b3 c = false := by
  have hne75 : (((7 : Int), pr) : Sq) ≠ ((5 : Int), pr) := by
    intro he
    exact absurd (congrArg Prod.fst he) (by norm_num)
  have hne65 : (((6 : Int), pr) : Sq) ≠ ((5 : Int), pr) := by
    intro he
    exact absurd (congrArg Prod.fst he) (by norm_num)
  have hne67 : (((6 : Int), pr) : Sq) ≠ ((7 : Int), pr) := by
    intro he
    exact absurd (congrArg Prod.fst he) (by norm_num)
  have hne45 : (((4 : Int), pr) : Sq) ≠ ((5 : Int), pr) := by
    intro he
    exact absurd (congrArg Prod.fst he) (by norm_num)
  have hne47 : (((4 : Int), pr) : Sq) ≠ ((7 : Int), pr) := by
    intro he
    exact absurd (congrArg Prod.fst he) (by norm_num)
  have hne46 : (((4 : Int), pr) : Sq) ≠ ((6 : Int), pr) := by
    intro he
    exact absurd (congrArg Prod.fst he) (by norm_num)
  have hget6 : b3.getSq ((6 : Int), pr) = some p := by
    rw [hb3, getSq_setSq_ne _ _ _ _ hne65, getSq_setSq_ne _ _ _ _ hne67]
    exact getSq_setSq_self _ _ _ (by simp [is_on_board]; omega)
  have huniq : ∀ sq : Sq, is_king_at b3 c sq = true → sq = ((6 : Int), pr) := by
    intro sq hk
    by_cases h6 : sq = ((6 : Int), pr)
    · exact h6
    exfalso
    by_cases h5 : sq = ((5 : Int), pr)
    · subst h5
      unfold is_king_at at hk
      rw [hb3, getSq_setSq_self _ _ _ (by simp [is_on_board]; omega)] at hk
      simp only [Bool.and_eq_true, decide_eq_true_eq] at hk
      rw [hrookty] at hk
      cases hk.2
    by_cases h7 : sq = ((7 : Int), pr)
    · subst h7
      unfold is_king_at at hk
      rw [hb3, getSq_setSq_ne _ _ _ _ hne75, getSq_setSq_none] at hk
      cases hk
    by_cases h4 : sq = ((4 : Int), pr)
    · subst h4
      unfold is_king_at at hk
      rw [hb3, getSq_setSq_ne _ _ _ _ hne45, getSq_setSq_ne _ _ _ _ hne47,
        getSq_setSq_ne _ _ _ _ hne46, getSq_setSq_none] at hk
      cases hk
    · unfold is_king_at at hk
      rw [hb3, getSq_setSq_ne _ _ _ _ h5, getSq_setSq_ne _ _ _ _ h7,
        getSq_setSq_ne _ _ _ _ h6, getSq_setSq_ne _ _ _ _ h4] at hk
      exact h4 (king_unique b c hkings hk hkpos)
  have hone : at_most_one_king b3 c := at_most_one_king_of_unique _ _ _ huniq
  have hk6 : is_king_at b3 c ((6 : Int), pr) = true := by
    unfold is_king_at
    rw [hget6]
    simp [hpcol, hpty]
  unfold is_in_check
  rw [find_king_eq_some b3 c ((6 : Int), pr) hone hk6]
  exact castled_kingside_attack b b3 c pr p rook hb3 hlo hhi hrookc hatt6

/-- After queenside castling the mover's king is not in check: the scan
finds the king on the c-file and no attack reaches it. -/
theorem castle_queenside_safe (b b3 : Board) (c : Color) (pr : Int)
    (p rook : Piece)
    (hb3 : b3 = (((b.setSq ((4 : Int), pr) none).setSq ((2 : Int), pr)
        (some p)).setSq ((0 : Int), pr) none).setSq ((3 : Int), pr)
      (some rook))
    (hlo : 0 ≤ pr) (hhi : pr < 8)
    (hkings : at_most_one_king b c)
    (hpcol : p.color = c) (hpty : p.piece_type = .KING)
    (hkpos : is_king_at b c ((4 : Int), pr) = true)
    (hrookc : rook.color = c) (hrookty : rook.piece_type = .ROOK)
    (hb1 : b.get (1 : Int) pr = none)
    (hatt2 : is_square_attacked b ((2 : Int), pr) c.opponent = false) :
    is_in_check b3 c = false := by
  have hne03 : (((0 : Int), pr) : Sq) ≠ ((3 : Int), pr) := by
    intro he
    exact absurd (congrArg Prod.fst he) (by norm_num)
  have hne23 : (((2 : Int), pr) : Sq) ≠ ((3 : Int), pr) := by
    intro he
    exact absurd (congrArg Prod.fst he) (by norm_num)
  have hne20 : (((2 : Int), pr) : Sq) ≠ ((0 : Int), pr) := by
    intro he
    exact absurd (congrArg Prod.fst he) (by norm_num)
  have hne43 : (((4 : Int), pr) : Sq) ≠ ((3 : Int), pr) := by
    intro he
    exact absurd (congrArg Prod.fst he) (by norm_num)
  have hne40 : (((4 : Int), pr) : Sq) ≠ ((0 : Int), pr) := by
    intro he
    exact absurd (congrArg Prod.fst he) (by norm_num)
  have hne42 : (((4 : Int), pr) : Sq) ≠ ((2 : Int), pr) := by
    intro he
    exact absurd (congrArg Prod.fst he) (by norm_num)
  have hget2 : b3.getSq ((2 : Int), pr) = some p := by
    rw [hb3, getSq_setSq_ne _ _ _ _ hne23, getSq_setSq_ne _ _ _ _ hne20]
    exact getSq_setSq_self _ _ _ (by simp [is_on_board]; omega)
  have huniq : ∀ sq : Sq, is_king_at b3 c sq = true → sq = ((2 : Int), pr) := by
    intro sq hk
    by_cases h2 : sq = ((2 : Int), pr)
    · exact h2
    exfalso
    by_cases h3 : sq = ((3 : Int), pr)
    · subst h3
      unfold is_king_at at hk
      rw [hb3, getSq_setSq_self _ _ _ (by simp [is_on_board]; omega)] at hk
      simp only [Bool.and_eq_true, decide_eq_true_eq] at hk
      rw [hrookty] at hk
      cases hk.2
    by_cases h0 : sq = ((0 : Int), pr)
    · subst h0
      unfold is_king_at at hk
      rw [hb3, getSq_setSq_ne _ _ _ _ hne03, getSq_setSq_none] at hk
      cases hk
    by_cases h4 : sq = ((4 : Int), pr)
    · subst h4
      unfold is_king_at at hk
      rw [hb3, getSq_setSq_ne _ _ _ _ hne43, getSq_setSq_ne _ _ _ _ hne40,
        getSq_setSq_ne _ _ _ _ hne42, getSq_setSq_none] at hk
      cases hk
    · unfold is_king_at at hk
      rw [hb3, getSq_setSq_ne _ _ _ _ h3, getSq_setSq_ne _ _ _ _ h0,
        getSq_setSq_ne _ _ _ _ h2, getSq_setSq_ne _ _ _ _ h4] at hk
      exact h4 (king_unique b c hkings hk hkpos)
  have hone : at_most_one_king b3 c := at_most_one_king_of_unique _ _ _ huniq
  have hk2 : is_king_at b3 c ((2 : Int), pr) = true := by
    unfold is_king_at
    rw [hget2]
    simp [hpcol, hpty]
  unfold is_in_check
  rw [find_king_eq_some b3 c ((2 : Int), pr) hone hk2]
  exact castled_queenside_attack b b3 c pr p rook hb3 hlo hhi hrookc hb1 hatt2

/-- A castle executed with a (non-king) promotion argument replaces the
mover's king outright, so the check scan finds no king of that color. -/
theorem castle_promo_no_king (b b3 : Board) (c : Color) (pr tf rf rt : Int)
    (q rook : Piece)
    (hb3 : b3 = (((b.setSq ((4 : Int), pr) none).setSq (tf, pr)
        (some q)).setSq (rf, pr) none).setSq (rt, pr) (some rook))
    (hkings : at_most_one_king b c)
    (hkpos : is_king_at b c ((4 : Int), pr) = true)
    (hqk : q.piece_type ≠ .KING) (hrk : rook.piece_type ≠ .KING)
    (hne1 : tf ≠ 4) (hne2 : rf ≠ 4) (hne3 : rt ≠ 4) (hne4 : rf ≠ rt)
    (hne5 : tf ≠ rf) (hne6 : tf ≠ rt) :
    is_in_check b3 c = false := by
  have pairne : ∀ a b' : Int, a ≠ b' → ((a, pr) : Sq) ≠ (b', pr) := by
    intro a b' hab he
    exact hab (congrArg Prod.fst he)
  apply is_in_check_king_gone b b3 c ((4 : Int), pr) hkings hkpos
  · intro sq hsq hk
    exfalso
    by_cases hT : sq = (rt, pr)
    · subst hT
      unfold is_king_at at hk
      cases hon : is_on_board rt pr with
      | true =>
        rw [hb3, getSq_setSq_self _ _ _ hon] at hk
        simp only [Bool.and_eq_true, decide_eq_true_eq] at hk
        exact hrk hk.2
      | false =>
        rw [hb3, getSq_off_board _ _ hon] at hk
        cases hk
    by_cases hF : sq = (rf, pr)
    · subst hF
      unfold is_king_at at hk
      rw [hb3, getSq_setSq_ne _ _ _ _ (pairne rf rt hne4), getSq_setSq_none] at hk
      cases hk
    by_cases hQ : sq = (tf, pr)
    · subst hQ
      unfold is_king_at at hk
      rw [hb3, getSq_setSq_ne _ _ _ _ (pairne tf rt hne6),
        getSq_setSq_ne _ _ _ _ (pairne tf rf hne5)] at hk
      cases hon : is_on_board tf pr with
      | true =>
        rw [getSq_setSq_self _ _ _ hon] at hk
        simp only [Bool.and_eq_true, decide_eq_true_eq] at hk
        exact hqk hk.2
      | false =>
        rw [getSq_off_board _ _ hon] at hk
        cases hk
    · unfold is_king_at at hk
      rw [hb3, getSq_setSq_ne _ _ _ _ hT, getSq_setSq_ne _ _ _ _ hF,
        getSq_setSq_ne _ _ _ _ hQ, getSq_setSq_ne _ _ _ _ hsq] at hk
      exact hsq (king_unique b c hkings hk hkpos)
  · unfold is_king_at
    rw [hb3, getSq_setSq_ne _ _ _ _ (pairne 4 rt (Ne.symm hne3)),
      getSq_setSq_ne _ _ _ _ (pairne 4 rf (Ne.symm hne2)),
      getSq_setSq_ne _ _ _ _ (pairne 4 tf (Ne.symm hne1)), getSq_setSq_none]

/-- C2.  The claim that every destination returned by the legal-move
generator leaves the mover's king out of check after execution fails as
stated when the moving side has several kings on the board (the
counterexample theorem exhibits a castle that leaves one of two white
kings attacked, because `_would_leave_king_in_check` and `is_in_check`
only ever test the first king found).  Amended with the (chess-universal)
premise that the moving side has at most one king, the property holds for
every destination the generator returns — pseudo-legal moves because the
executor's board mutation coincides with the generator's simulation (up
to the promoted piece, a same-color non-king swap the attack machinery
cannot distinguish, or the king's own disappearance under promotion), and
castling destinations because the rook shields the king's rank while
every other line was verified unattacked on the pre-move board. -/
theorem C2_legal_moves_king_safe (b : Board) (gs : GameState) (p : Piece)
    (pos to_square : Sq) (promo : Option PieceType) (ms : List Sq)
    (b' : Board)
    (hpiece : b.getSq pos = some p)
    (hkings : at_most_one_king b p.color)
    (hms : get_legal_moves b p pos gs = .ok ms)
    (hto : to_square ∈ ms)
    (hb' : (execute_move b gs pos to_square promo).boardAfter = some b') :
    is_in_check b' p.color = false := by
  rcases legal_moves_cases hms hto with ⟨hposs, hsafe⟩ | ⟨hking, cm, hcm, htocm⟩
  · -- filtered pseudo-legal move
    have hnc : is_castling_move p pos to_square = false :=
      pseudo_not_castling hposs
    have hob : is_on_board to_square.1 to_square.2 = true :=
      mem_possible_on_board hposs
    have hsafe' : is_in_check (sim_board b p pos to_square gs) p.color = false := by
      unfold would_leave_king_in_check at hsafe
      exact hsafe
    cases promo with
    | none =>
      rw [execute_move_none_eq b gs pos to_square p hpiece] at hb'
      simp only [ExecResult.boardAfter, Option.some.injEq] at hb'
      subst hb'
      rw [apply_eq_sim b gs p pos to_square hnc]
      exact hsafe'
    | some pt =>
      by_cases hpt : pt = .KING ∨ pt = .PAWN
      · rw [execute_move_promo_invalid b gs pos to_square p pt hpiece hpt] at hb'
        simp only [ExecResult.boardAfter] at hb'
        cases hb'
      · rw [execute_move_promo_eq b gs pos to_square p pt hpiece hpt] at hb'
        simp only [ExecResult.boardAfter, Option.some.injEq] at hb'
        subst hb'
        by_cases hpk : p.piece_type = .KING
        · -- the king itself "promotes": no king of the color remains
          rw [apply_promo_eq b gs p ⟨p.color, pt⟩ pos to_square hnc]
          have hcap : get_capture_square p to_square gs = to_square := by
            unfold get_capture_square
            rw [if_neg]
            intro hand
            rw [hpk] at hand
            cases hand.1
          dsimp only
          rw [hcap, if_neg (fun h => h rfl)]
          have hkpos : is_king_at b p.color pos = true := by
            unfold is_king_at
            rw [hpiece]
            simp [hpk]
          have hne : to_square ≠ pos :=
            pseudo_ne_pos (by rw [hpk]; simp) hposs
          apply is_in_check_king_gone b _ p.color pos hkings hkpos
          · intro sq hsq hk
            by_cases hst : sq = to_square
            · subst hst
              unfold is_king_at at hk
              rw [getSq_setSq_self _ _ _ hob] at hk
              simp only [Bool.and_eq_true, decide_eq_true_eq] at hk
              exact absurd (Or.inl hk.2) hpt
            · unfold is_king_at at hk ⊢
              rw [getSq_setSq_ne _ _ _ _ hst, getSq_setSq_ne _ _ _ _ hsq] at hk
              exact hk
          · unfold is_king_at
            rw [getSq_setSq_ne _ _ _ _ (Ne.symm hne), getSq_setSq_none]
        · -- ordinary promotion: swap invisible to the attack machinery
          have hkq : (⟨p.color, pt⟩ : Piece).piece_type ≠ .KING := by
            intro h
            exact hpt (Or.inl h)
          have hsw := swapat_promo b gs p ⟨p.color, pt⟩ pos to_square hnc hob
            rfl hkq hpk
          rw [is_in_check_swap _ _ _ _ hsw]
          exact hsafe'
  · -- castling destination
    obtain ⟨hchk, h4, hksr, hside⟩ := get_castling_moves_inv hcm htocm
    obtain ⟨pf, pr⟩ := pos
    have h4' : pf = 4 := h4
    subst h4'
    have hksr' : pr = if p.color = Color.WHITE then (0 : Int) else 7 := hksr
    have hlo : 0 ≤ pr := by rw [hksr']; split <;> norm_num
    have hhi : pr < 8 := by rw [hksr']; split <;> norm_num
    have hkpos : is_king_at b p.color ((4 : Int), pr) = true := by
      unfold is_king_at
      rw [hpiece]
      simp [hking]
    rcases hside with ⟨ks, hks, hkto⟩ | ⟨qs, hqs, hkto⟩
    · -- kingside: to = (6, pr)
      obtain ⟨hto6, h5none, h6none, ⟨rook, hrook7, hrookty, hrookc⟩,
        hatt5, hatt6⟩ := castling_kingside_inv hks hkto
      have hto6' : to_square = ((6 : Int), pr) := hto6
      subst hto6'
      have hrook7' : b.getSq ((7 : Int), pr) = some rook := hrook7
      have hatt6' :
          is_square_attacked b ((6 : Int), pr) p.color.opponent = false := hatt6
      have hcast : is_castling_move p ((4 : Int), pr) ((6 : Int), pr) = true := by
        unfold is_castling_move
        rw [hking]
        norm_num
      have hrookval : (((b.setSq ((4 : Int), pr) none).setSq ((6 : Int), pr)
          (some p)).getSq ((7 : Int), pr)) = some rook := by
        rw [getSq_setSq_ne _ _ _ _
            (by intro he; exact absurd (congrArg Prod.fst he) (by norm_num)),
          getSq_setSq_ne _ _ _ _
            (by intro he; exact absurd (congrArg Prod.fst he) (by norm_num))]
        exact hrook7'
      cases promo with
      | none =>
        rw [execute_move_none_eq b gs ((4 : Int), pr) ((6 : Int), pr) p
          hpiece] at hb'
        simp only [ExecResult.boardAfter, Option.some.injEq] at hb'
        subst hb'
        rw [apply_castle_eq b gs p ((4 : Int), pr) ((6 : Int), pr) none hcast]
        dsimp only
        rw [if_pos (show ((6 : Int) - 4 = 2) by norm_num),
          if_pos (show ((6 : Int) - 4 = 2) by norm_num)]
        simp only [Option.isSome_none, Bool.false_eq_true, if_false]
        rw [hrookval]
        exact castle_kingside_safe b _ p.color pr p rook rfl hlo hhi hkings
          rfl hking hkpos hrookc hrookty hatt6'
      | some pt =>
        by_cases hpt : pt = .KING ∨ pt = .PAWN
        · rw [execute_move_promo_invalid b gs ((4 : Int), pr) ((6 : Int), pr)
            p pt hpiece hpt] at hb'
          simp only [ExecResult.boardAfter] at hb'
          cases hb'
        · rw [execute_move_promo_eq b gs ((4 : Int), pr) ((6 : Int), pr) p pt
            hpiece hpt] at hb'
          simp only [ExecResult.boardAfter, Option.some.injEq] at hb'
          subst hb'
          rw [apply_castle_eq b gs p ((4 : Int), pr) ((6 : Int), pr)
            (some ⟨p.color, pt⟩) hcast]
          dsimp only
          rw [if_pos (show ((6 : Int) - 4 = 2) by norm_num),
            if_pos (show ((6 : Int) - 4 = 2) by norm_num)]
          simp only [Option.isSome_some, if_true]
          have hrookvalq : (((b.setSq ((4 : Int), pr) none).setSq ((6 : Int), pr)
              (some (⟨p.color, pt⟩ : Piece))).getSq ((7 : Int), pr)) = some rook := by
            rw [getSq_setSq_ne _ _ _ _
                (by intro he; exact absurd (congrArg Prod.fst he) (by norm_num)),
              getSq_setSq_ne _ _ _ _
                (by intro he; exact absurd (congrArg Prod.fst he) (by norm_num))]
            exact hrook7'
          rw [hrookvalq]
          exact castle_promo_no_king b _ p.color pr 6 7 5 ⟨p.color, pt⟩ rook
            rfl hkings hkpos (fun h => hpt (Or.inl h))
            (by rw [hrookty]; simp)
            (by norm_num) (by norm_num) (by norm_num) (by norm_num)
            (by norm_num) (by norm_num)
    · -- queenside: to = (2, pr)
      obtain ⟨hto2, h3none, h2none, h1none, ⟨rook, hrook0, hrookty, hrookc⟩,
        hatt3, hatt2⟩ := castling_queenside_inv hqs hkto
      have hto2' : to_square = ((2 : Int), pr) := hto2
      subst hto2'
      have hrook0' : b.getSq ((0 : Int), pr) = some rook := hrook0
      have h1none' : b.get (1 : Int) pr = none := h1none
      have hatt2' :
          is_square_attacked b ((2 : Int), pr) p.color.opponent = false := hatt2
      have hcast : is_castling_move p ((4 : Int), pr) ((2 : Int), pr) = true := by
        unfold is_castling_move
        rw [hking]
        norm_num
      have hrookval : (((b.setSq ((4 : Int), pr) none).setSq ((2 : Int), pr)
          (some p)).getSq ((0 : Int), pr)) = some rook := by
        rw [getSq_setSq_ne _ _ _ _
            (by intro he; exact absurd (congrArg Prod.fst he) (by norm_num)),
          getSq_setSq_ne _ _ _ _
            (by intro he; exact absurd (congrArg Prod.fst he) (by norm_num))]
        exact hrook0'
      cases promo with
      | none =>
        rw [execute_move_none_eq b gs ((4 : Int), pr) ((2 : Int), pr) p
          hpiece] at hb'
        simp only [ExecResult.boardAfter, Option.some.injEq] at hb'
        subst hb'
        rw [apply_castle_eq b gs p ((4 : Int), pr) ((2 : Int), pr) none hcast]
        dsimp only
        rw [if_neg (show ¬((2 : Int) - 4 = 2) by norm_num),
          if_neg (show ¬((2 : Int) - 4 = 2) by norm_num)]
        simp only [Option.isSome_none, Bool.false_eq_true, if_false]
        rw [hrookval]
        exact castle_queenside_safe b _ p.color pr p rook rfl hlo hhi hkings
          rfl hking hkpos hrookc hrookty h1none' hatt2'
      | some pt =>
        by_cases hpt : pt = .KING ∨ pt = .PAWN
        · rw [execute_move_promo_invalid b gs ((4 : Int), pr) ((2 : Int), pr)
            p pt hpiece hpt] at hb'
          simp only [ExecResult.boardAfter] at hb'
          cases hb'
        · rw [execute_move_promo_eq b gs ((4 : Int), pr) ((2 : Int), pr) p pt
            hpiece hpt] at hb'
          simp only [ExecResult.boardAfter, Option.some.injEq] at hb'
          subst hb'
          rw [apply_castle_eq b gs p ((4 : Int), pr) ((2 : Int), pr)
            (some ⟨p.color, pt⟩) hcast]
          dsimp only
          rw [if_neg (show ¬((2 : Int) - 4 = 2) by norm_num),
            if_neg (show ¬((2 : Int) - 4 = 2) by norm_num)]
          simp only [Option.isSome_some, if_true]
          have hrookvalq : (((b.setSq ((4 : Int), pr) none).setSq ((2 : Int), pr)
              (some (⟨p.color, pt⟩ : Piece))).getSq ((0 : Int), pr)) = some rook := by
            rw [getSq_setSq_ne _ _ _ _
                (by intro he; exact absurd (congrArg Prod.fst he) (by norm_num)),
              getSq_setSq_ne _ _ _ _
                (by intro he; exact absurd (congrArg Prod.fst he) (by norm_num))]
            exact hrook0'
          rw [hrookvalq]
          exact castle_promo_no_king b _ p.color pr 2 0 3 ⟨p.color, pt⟩ rook
            rfl hkings hkpos (fun h => hpt (Or.inl h))
            (by rw [hrookty]; simp)
            (by norm_num) (by norm_num) (by norm_num) (by norm_num)
            (by norm_num) (by norm_num)

/-- Closed instantiation of the C2 theorem: the knight move g1-f3 in the
kings-and-knight position is generated as legal, executes, and leaves
White's king out of check. -/
theorem C2_legal_moves_king_safe_witness :
    board_knight.getSq ((6 : Int), 0) = some ⟨Color.WHITE, PieceType.KNIGHT⟩ ∧
    at_most_one_king board_knight Color.WHITE ∧
    get_legal_moves board_knight ⟨Color.WHITE, PieceType.KNIGHT⟩ ((6 : Int), 0)
      gs_knight = .ok c2w_ms ∧
    ((5 : Int), (2 : Int)) ∈ c2w_ms ∧
    (execute_move board_knight gs_knight ((6 : Int), 0) ((5 : Int), 2)
      none).boardAfter = some c2w_board ∧
    is_in_check c2w_board Color.WHITE = false :=
  ⟨by decide, by unfold at_most_one_king; decide, by rfl, by decide, by rfl,
    C2_legal_moves_king_safe board_knight gs_knight
      ⟨Color.WHITE, PieceType.KNIGHT⟩ ((6 : Int), 0) ((5 : Int), 2) none
      c2w_ms c2w_board (by decide) (by unfold at_most_one_king; decide)
      (by rfl) (by decide) (by rfl)⟩

/-- The diagonal-capture fold accumulates only squares of its list. -/
theorem mem_pawn_diag_fold_mem (b : Board) (p : Piece) (gs : GameState) :
    ∀ (l : List Sq) (acc : List Sq) (m : Sq),
      m ∈ l.foldl (pawn_diag_step b p gs) acc → m ∈ acc ∨ m ∈ l := by
  intro l
  induction l with
  | nil => exact fun acc m h => Or.inl h
  | cons d rest ih =>
    intro acc m h
    rw [List.foldl_cons] at h
    rcases ih _ m h with hacc | hmem
    · rcases mem_pawn_diag_step hacc with h1 | ⟨rfl, -⟩
      · exact Or.inl h1
      · exact Or.inr (List.mem_cons_self _ _)
    · exact Or.inr (List.mem_cons_of_mem _ hmem)

/-- Every generated pawn move advances one forward rank, or two from the
home rank on the same file. -/
theorem pawn_move_shape {b : Board} {p : Piece} {pos : Sq} {gs : GameState}
    {m : Sq} (h : m ∈ get_pawn_moves b p pos gs) :
    m.2 = pos.2 + (if p.color = Color.WHITE then (1 : Int) else -1) ∨
    (m.2 = pos.2 + (if p.color = Color.WHITE then (1 : Int) else -1) * 2 ∧
      m.1 = pos.1 ∧
      ((p.color = Color.WHITE ∧ pos.2 = 1) ∨
        (p.color = Color.BLACK ∧ pos.2 = 6))) := by
  obtain ⟨file, rank⟩ := pos
  simp only [get_pawn_moves] at h
  rw [List.mem_append, List.mem_append] at h
  rcases h with (h | h) | h
  · obtain ⟨-, h⟩ := mem_ite_nil h
    obtain ⟨-, h⟩ := mem_ite_nil h
    rw [List.mem_singleton] at h
    subst h
    left
    rfl
  · obtain ⟨-, h⟩ := mem_ite_nil h
    obtain ⟨hcase, h⟩ := mem_ite_nil h
    obtain ⟨-, h⟩ := mem_ite_nil h
    rw [List.mem_singleton] at h
    subst h
    right
    exact ⟨rfl, rfl, hcase⟩
  · rcases mem_pawn_diag_fold_mem b p gs _ [] m h with hacc | hmem
    · cases hacc
    · left
      simp only [List.mem_cons, List.not_mem_nil, or_false] at hmem
      rcases hmem with rfl | rfl <;> rfl

/-- Pawn moves change rank, so they never stay in place. -/
theorem pawn_ne_pos {b : Board} {p : Piece} {pos : Sq} {gs : GameState}
    {m : Sq} (h : m ∈ get_pawn_moves b p pos gs) : m ≠ pos := by
  intro he
  subst he
  rcases pawn_move_shape h with h1 | ⟨h1, -, -⟩ <;> split at h1 <;> omega

/-- No pseudo-legal move of any piece stays on its own square. -/
theorem possible_ne_pos {b : Board} {p : Piece} {pos : Sq} {gs : GameState}
    {m : Sq} (h : m ∈ get_possible_moves b p pos gs) : m ≠ pos := by
  by_cases hp : p.piece_type = .PAWN
  · unfold get_possible_moves at h
    rw [if_pos hp] at h
    exact pawn_ne_pos h
  · exact pseudo_ne_pos hp h

/-- Executor classification: a plain move. -/
theorem classify_eq_normal {b : Board} {p : Piece} {f t : Sq} {gs : GameState}
    (hnc : is_castling_move p f t = false)
    (hep : is_en_passant_move p t gs = false) :
    classify_move b p f t gs = prepare_normal_move b p f t := by
  unfold classify_move
  rw [hnc]
  simp only [Bool.false_eq_true, if_false]
  rw [hep]
  simp only [Bool.false_eq_true, if_false]

/-- Executor classification: an en-passant move. -/
theorem classify_eq_ep {b : Board} {p : Piece} {f t : Sq} {gs : GameState}
    (hnc : is_castling_move p f t = false)
    (hep : is_en_passant_move p t gs = true) :
    classify_move b p f t gs = prepare_en_passant_move b p f t gs := by
  unfold classify_move
  rw [hnc]
  simp only [Bool.false_eq_true, if_false]
  rw [hep]
  simp only [if_true]

/-- Executor classification: a castling move. -/
theorem classify_eq_castle {b : Board} {p : Piece} {f t : Sq} {gs : GameState}
    (hc : is_castling_move p f t = true) :
    classify_move b p f t gs = prepare_castling_move p f t := by
  unfold classify_move
  rw [hc]
  rw [if_pos rfl]

/-- Undoing a plain move restores every square. -/
theorem roundtrip_normal (b : Board) (p : Piece) (pos to_square : Sq)
    (hobp : is_on_board pos.1 pos.2 = true)
    (hobt : is_on_board to_square.1 to_square.2 = true)
    (hpiece : b.getSq pos = some p) (hneto : to_square ≠ pos) (sq : Sq) :
    ((let bA := (b.setSq pos none).setSq to_square (some p)
      let b2 := (bA.setSq to_square none).setSq pos (some p)
      match b.getSq to_square with
      | none => b2
      | some cp => b2.setSq to_square (some cp)) : Board).getSq sq =
      b.getSq sq := by
  rcases hcap : b.getSq to_square with _ | cp
  · simp only [hcap]
    by_cases hsp : sq = pos
    · subst hsp
      rw [getSq_setSq_self _ _ _ hobp, hpiece]
    · by_cases hst : sq = to_square
      · subst hst
        rw [getSq_setSq_ne _ _ _ _ hneto, getSq_setSq_none, hcap]
      · rw [getSq_setSq_ne _ _ _ _ hsp, getSq_setSq_ne _ _ _ _ hst,
          getSq_setSq_ne _ _ _ _ hst, getSq_setSq_ne _ _ _ _ hsp]
  · simp only [hcap]
    by_cases hst : sq = to_square
    · subst hst
      rw [getSq_setSq_self _ _ _ hobt, hcap]
    · by_cases hsp : sq = pos
      · subst hsp
        rw [getSq_setSq_ne _ _ _ _ hst, getSq_setSq_self _ _ _ hobp, hpiece]
      · rw [getSq_setSq_ne _ _ _ _ hst, getSq_setSq_ne _ _ _ _ hsp,
          getSq_setSq_ne _ _ _ _ hst, getSq_setSq_ne _ _ _ _ hst,
          getSq_setSq_ne _ _ _ _ hsp]

/-- Undoing an en-passant-classified move restores every square, provided
the taking square was empty and the captured pawn sits on the mover's
rank (the geometry every reachable en-passant state satisfies). -/
theorem roundtrip_ep (b : Board) (p : Piece) (pos to_square t : Sq)
    (hobp : is_on_board pos.1 pos.2 = true)
    (hobt : is_on_board to_square.1 to_square.2 = true)
    (hobtt : is_on_board t.1 t.2 = true)
    (hpiece : b.getSq pos = some p) (hneto : to_square ≠ pos)
    (hnt : t ≠ to_square) (hbto : b.getSq to_square = none) (sq : Sq) :
    ((let bA := ((b.setSq pos none).setSq to_square (some p)).setSq t none
      let b2 := (bA.setSq to_square none).setSq pos (some p)
      match b.getSq t with
      | none => b2
      | some cp => b2.setSq t (some cp)) : Board).getSq sq = b.getSq sq := by
  rcases hcap : b.getSq t with _ | cp
  · simp only [hcap]
    by_cases hsp : sq = pos
    · subst hsp
      rw [getSq_setSq_self _ _ _ hobp, hpiece]
    · by_cases hst : sq = to_square
      · subst hst
        rw [getSq_setSq_ne _ _ _ _ hneto, getSq_setSq_none, hbto]
      · by_cases hstt : sq = t
        · subst hstt
          rw [getSq_setSq_ne _ _ _ _ hsp, getSq_setSq_ne _ _ _ _ hst,
            getSq_setSq_none, hcap]
        · rw [getSq_setSq_ne _ _ _ _ hsp, getSq_setSq_ne _ _ _ _ hst,
            getSq_setSq_ne _ _ _ _ hstt, getSq_setSq_ne _ _ _ _ hst,
            getSq_setSq_ne _ _ _ _ hsp]
  · simp only [hcap]
    by_cases hstt : sq = t
    · subst hstt
      rw [getSq_setSq_self _ _ _ hobtt, hcap]
    · by_cases hsp : sq = pos
      · subst hsp
        rw [getSq_setSq_ne _ _ _ _ hstt, getSq_setSq_self _ _ _ hobp, hpiece]
      · by_cases hst : sq = to_square
        · subst hst
          rw [getSq_setSq_ne _ _ _ _ hstt, getSq_setSq_ne _ _ _ _ hneto,
            getSq_setSq_none, hbto]
        · rw [getSq_setSq_ne _ _ _ _ hstt, getSq_setSq_ne _ _ _ _ hsp,
            getSq_setSq_ne _ _ _ _ hst, getSq_setSq_ne _ _ _ _ hstt,
            getSq_setSq_ne _ _ _ _ hst, getSq_setSq_ne _ _ _ _ hsp]

/-- Undoing a castling-classified move restores every square, provided the
involved squares were as castling requires them. -/
theorem roundtrip_castle (b : Board) (p rook : Piece) (pos to_square rf rt : Sq)
    (hobp : is_on_board pos.1 pos.2 = true)
    (hobt : is_on_board to_square.1 to_square.2 = true)
    (hobrf : is_on_board rf.1 rf.2 = true)
    (hobrt : is_on_board rt.1 rt.2 = true)
    (hpiece : b.getSq pos = some p) (hrook : b.getSq rf = some rook)
    (hbto : b.getSq to_square = none) (hbrt : b.getSq rt = none)
    (hd1 : to_square ≠ pos) (hd2 : rf ≠ pos) (hd3 : rf ≠ to_square)
    (hd4 : rt ≠ pos) (hd5 : rt ≠ to_square) (hd6 : rt ≠ rf) (sq : Sq) :
    ((let bA := (((b.setSq pos none).setSq to_square (some p)).setSq rf
        none).setSq rt (some rook)
      let b2 := (bA.setSq to_square none).setSq pos (some p)
      (b2.setSq rt none).setSq rf (b2.getSq rt)) : Board).getSq sq =
      b.getSq sq := by
  have hrt : (((((((b.setSq pos none).setSq to_square (some p)).setSq rf
      none).setSq rt (some rook)).setSq to_square none).setSq pos
      (some p)).getSq rt) = some rook := by
    rw [getSq_setSq_ne _ _ _ _ hd4, getSq_setSq_ne _ _ _ _ hd5]
    exact getSq_setSq_self _ _ _ hobrt
  simp only [hrt]
  by_cases hsrf : sq = rf
  · subst hsrf
    rw [getSq_setSq_self _ _ _ hobrf, hrook]
  · by_cases hsrt : sq = rt
    · subst hsrt
      rw [getSq_setSq_ne _ _ _ _ hd6, getSq_setSq_none, hbrt]
    · by_cases hsp : sq = pos
      · subst hsp
        rw [getSq_setSq_ne _ _ _ _ hsrf, getSq_setSq_ne _ _ _ _ hsrt,
          getSq_setSq_self _ _ _ hobp, hpiece]
      · by_cases hst : sq = to_square
        · subst hst
          rw [getSq_setSq_ne _ _ _ _ hsrf, getSq_setSq_ne _ _ _ _ hsrt,
            getSq_setSq_ne _ _ _ _ hd1, getSq_setSq_none, hbto]
        · rw [getSq_setSq_ne _ _ _ _ hsrf, getSq_setSq_ne _ _ _ _ hsrt,
            getSq_setSq_ne _ _ _ _ hsp, getSq_setSq_ne _ _ _ _ hst,
            getSq_setSq_ne _ _ _ _ hsrt, getSq_setSq_ne _ _ _ _ hsrf,
            getSq_setSq_ne _ _ _ _ hst, getSq_setSq_ne _ _ _ _ hsp]

/-- The recorded move is the last history entry. -/
theorem record_getLast (gs' : GameState) (m : Move) :
    (gs'.record_move m).move_history.getLast? = some m := by
  unfold GameState.record_move
  simp [List.getLast?_concat]

/-- The classified move always carries the moving piece. -/
theorem classify_piece (b : Board) (p : Piece) (f t : Sq) (gs : GameState) :
    (classify_move b p f t gs).piece = p := by
  unfold classify_move
  split
  · rfl
  · split <;> rfl

/-- The executed board of a plain move: mover lifted and dropped. -/
theorem apply_classify_normal {b : Board} {gs : GameState} {p : Piece}
    {f t0 : Sq} (hnc : is_castling_move p f t0 = false)
    (hepc : is_en_passant_move p t0 gs = false) :
    apply_move_to_board b ⟨classify_move b p f t0 gs, none⟩ gs =
      (b.setSq f none).setSq t0 (some p) := by
  rw [apply_eq_sim _ _ _ _ _ hnc]
  unfold sim_board get_capture_square
  have hepand := hepc
  simp only [is_en_passant_move, Bool.and_eq_true, decide_eq_true_eq,
    not_and] at hepand
  have hcond : ¬(p.piece_type = .PAWN ∧
      gs.current_en_passant_taking_square = some t0) := by
    intro hand
    rw [Bool.and_eq_false_iff] at hepand
    rcases hepand with h | h <;> simp [hand.1, hand.2] at h
  rw [if_neg hcond]
  simp

/-- The executed board of an en-passant-classified move: mover lifted and
dropped, the recorded target square emptied. -/
theorem apply_classify_ep {b : Board} {gs : GameState} {p : Piece}
    {f t0 t : Sq} (hnc : is_castling_move p f t0 = false)
    (hepc : is_en_passant_move p t0 gs = true)
    (htgt : gs.current_en_passant_target = some t) :
    apply_move_to_board b ⟨classify_move b p f t0 gs, none⟩ gs =
      ((b.setSq f none).setSq t0 (some p)).setSq t none := by
  rw [apply_eq_sim _ _ _ _ _ hnc]
  have hepand := hepc
  simp only [is_en_passant_move, Bool.and_eq_true, decide_eq_true_eq] at hepand
  obtain ⟨t', htgt', -, -, hne⟩ := taking_square_eq gs t0 hepand.2
  rw [htgt] at htgt'
  have ht' : t' = t := (Option.some.inj htgt').symm
  subst ht'
  unfold sim_board get_capture_square
  rw [if_pos hepand, htgt]
  simp only [Option.getD_some]
  rw [if_pos (Ne.symm hne)]

/-- C1.  The claim that undo-after-execute restores everything, castling
rights included, is false: `undo_move` (move_executor.py:310-333) restores
pieces and the turn but never touches `game_state.castling_rights` (the
counterexample theorem shows Ke1-e2 + undo leaving both White rights
cleared).  Amended to the fields undo really restores: for every completed
(non-promotion) execute of a generator-legal move from a state whose
en-passant data has the reachable geometry (target on the double-step
rank, taking square empty) and whose mover is the side to move, an
immediate undo restores the piece placement square-for-square, the active
color, the derived en-passant target, the halfmove clock, the fullmove
number, and the move history. -/
theorem C1_execute_undo_restores (b : Board) (gs : GameState) (p : Piece)
    (pos to_square : Sq) (ms : List Sq) (bA : Board) (gsA : GameState)
    (m : Move)
    (hpiece : b.getSq pos = some p)
    (hturn : p.color = gs.current_turn)
    (hep : ∀ t, gs.current_en_passant_target = some t →
      t.2 = (if gs.current_turn = Color.WHITE then (4 : Int) else 3))
    (hclean : ∀ t2, gs.current_en_passant_taking_square = some t2 →
      b.getSq t2 = none)
    (hms : get_legal_moves b p pos gs = .ok ms)
    (hto : to_square ∈ ms)
    (hexec : execute_move b gs pos to_square none = .ok bA gsA m) :
    ∃ bU gsU, undo_move bA gsA = some (bU, gsU, m) ∧
      (∀ sq : Sq, bU.getSq sq = b.getSq sq) ∧
      gsU.current_turn = gs.current_turn ∧
      gsU.current_en_passant_target = gs.current_en_passant_target ∧
      gsU.halfmove_clock = gs.halfmove_clock ∧
      gsU.fullmove_number = gs.fullmove_number ∧
      gsU.move_history = gs.move_history := by
  have hobp : is_on_board pos.1 pos.2 = true :=
    getSq_isSome_on_board b pos p hpiece
  rw [execute_move_none_eq b gs pos to_square p hpiece] at hexec
  simp only [ExecResult.ok.injEq] at hexec
  obtain ⟨hbA, hgsA, hm⟩ := hexec
  subst hbA
  subst hgsA
  subst hm
  rw [undo_move_eq _ _ _ (record_getLast _ _)]
  refine ⟨_, _, rfl, ?_, ?_, ?_, ?_, ?_, ?_⟩
  · -- the board is restored square for square
    intro sq
    rcases legal_moves_cases hms hto with ⟨hposs, -⟩ | ⟨hking, cm, hcm, htocm⟩
    · -- pseudo-legal move
      have hnc : is_castling_move p pos to_square = false :=
        pseudo_not_castling hposs
      have hobt : is_on_board to_square.1 to_square.2 = true :=
        mem_possible_on_board hposs
      have hneto : to_square ≠ pos := possible_ne_pos hposs
      cases hepc : is_en_passant_move p to_square gs with
      | false =>
        rw [apply_classify_normal hnc hepc, classify_eq_normal hnc hepc]
        exact roundtrip_normal b p pos to_square hobp hobt hpiece hneto sq
      | true =>
        have hepand := hepc
        simp only [is_en_passant_move, Bool.and_eq_true,
          decide_eq_true_eq] at hepand
        obtain ⟨t, htgt, ht1, ht2, hnet⟩ := taking_square_eq gs to_square
          hepand.2
        have htr : t.2 = (if gs.current_turn = Color.WHITE then (4 : Int)
          else 3) := hep t htgt
        have hpm : to_square ∈ get_pawn_moves b p pos gs := by
          unfold get_possible_moves at hposs
          rw [if_pos hepand.1] at hposs
          exact hposs
        have hpos2 : pos.2 = t.2 := by
          rcases pawn_move_shape hpm with hsh | ⟨hsh, -, hcase⟩
          · rw [hturn] at hsh
            rcases hc : gs.current_turn <;>
              rw [hc] at hsh ht2 htr <;> simp only [if_true] at * <;> omega
          · exfalso
            rw [hturn] at hsh hcase
            rcases hc : gs.current_turn <;>
              rw [hc] at hsh ht2 htr hcase <;> simp at hsh ht2 htr hcase <;>
              omega
        have hteq : ((to_square.1, pos.2) : Sq) = t := by
          rcases t with ⟨t1, t2⟩
          simp only [Prod.mk.injEq]
          exact ⟨ht1.symm, hpos2⟩
        have hobtt : is_on_board t.1 t.2 = true := by
          rw [← hteq]
          simp only [is_on_board] at hobt hobp ⊢
          simp only [Bool.and_eq_true, decide_eq_true_eq] at hobt hobp ⊢
          omega
        have hbto : b.getSq to_square = none := hclean to_square hepand.2
        rw [apply_classify_ep hnc hepc htgt, classify_eq_ep hnc hepc]
        simp only [prepare_en_passant_move, htgt, Option.getD_some]
        rw [hteq]
        exact roundtrip_ep b p pos to_square t hobp hobt hobtt hpiece hneto
          (Ne.symm hnet) hbto sq
    · -- castling destination
      obtain ⟨hchk, h4, hksr, hside⟩ := get_castling_moves_inv hcm htocm
      obtain ⟨pf, pr⟩ := pos
      have h4' : pf = 4 := h4
      subst h4'
      have hksr' : pr = if p.color = Color.WHITE then (0 : Int) else 7 := hksr
      have hlo : 0 ≤ pr := by rw [hksr']; split <;> norm_num
      have hhi : pr < 8 := by rw [hksr']; split <;> norm_num
      rcases hside with ⟨ks, hks, hkto⟩ | ⟨qs, hqs, hkto⟩
      · -- kingside
        obtain ⟨hto6, h5none, h6none, ⟨rook, hrook7, hrookty, hrookc⟩,
          hatt5, hatt6⟩ := castling_kingside_inv hks hkto
        have hto6' : to_square = ((6 : Int), pr) := hto6
        subst hto6'
        have hrook7' : b.getSq ((7 : Int), pr) = some rook := hrook7
        have h5none' : b.getSq ((5 : Int), pr) = none := h5none
        have h6none' : b.getSq ((6 : Int), pr) = none := h6none
        have hcast : is_castling_move p ((4 : Int), pr) ((6 : Int), pr) =
            true := by
          unfold is_castling_move
          rw [hking]
          norm_num
        have hrookval : (((b.setSq ((4 : Int), pr) none).setSq ((6 : Int), pr)
            (some p)).getSq ((7 : Int), pr)) = some rook := by
          rw [getSq_setSq_ne _ _ _ _
              (by intro he; exact absurd (congrArg Prod.fst he) (by norm_num)),
            getSq_setSq_ne _ _ _ _
              (by intro he; exact absurd (congrArg Prod.fst he) (by norm_num))]
          exact hrook7'
        rw [apply_castle_eq b gs p ((4 : Int), pr) ((6 : Int), pr) none hcast]
        dsimp only
        rw [if_pos (show ((6 : Int) - 4 = 2) by norm_num),
          if_pos (show ((6 : Int) - 4 = 2) by norm_num)]
        simp only [Option.isSome_none, Bool.false_eq_true, if_false]
        rw [hrookval, classify_eq_castle hcast]
        exact roundtrip_castle b p rook ((4 : Int), pr) ((6 : Int), pr)
          ((7 : Int), pr) ((5 : Int), pr)
          hobp (by simp [is_on_board]; omega) (by simp [is_on_board]; omega)
          (by simp [is_on_board]; omega)
          hpiece hrook7' h6none' h5none'
          (by intro he; exact absurd (congrArg Prod.fst he) (by norm_num))
          (by intro he; exact absurd (congrArg Prod.fst he) (by norm_num))
          (by intro he; exact absurd (congrArg Prod.fst he) (by norm_num))
          (by intro he; exact absurd (congrArg Prod.fst he) (by norm_num))
          (by intro he; exact absurd (congrArg Prod.fst he) (by norm_num))
          (by intro he; exact absurd (congrArg Prod.fst he) (by norm_num)) sq
      · -- queenside
        obtain ⟨hto2, h3none, h2none, h1none, ⟨rook, hrook0, hrookty, hrookc⟩,
          hatt3, hatt2⟩ := castling_queenside_inv hqs hkto
        have hto2' : to_square = ((2 : Int), pr) := hto2
        subst hto2'
        have hrook0' : b.getSq ((0 : Int), pr) = some rook := hrook0
        have h3none' : b.getSq ((3 : Int), pr) = none := h3none
        have h2none' : b.getSq ((2 : Int), pr) = none := h2none
        have hcast : is_castling_move p ((4 : Int), pr) ((2 : Int), pr) =
            true := by
          unfold is_castling_move
          rw [hking]
          norm_num
        have hrookval : (((b.setSq ((4 : Int), pr) none).setSq ((2 : Int), pr)
            (some p)).getSq ((0 : Int), pr)) = some rook := by
          rw [getSq_setSq_ne _ _ _ _
              (by intro he; exact absurd (congrArg Prod.fst he) (by norm_num)),
            getSq_setSq_ne _ _ _ _
              (by intro he; exact absurd (congrArg Prod.fst he) (by norm_num))]
          exact hrook0'
        rw [apply_castle_eq b gs p ((4 : Int), pr) ((2 : Int), pr) none hcast]
        dsimp only
        rw [if_neg (show ¬((2 : Int) - 4 = 2) by norm_num),
          if_neg (show ¬((2 : Int) - 4 = 2) by norm_num)]
        simp only [Option.isSome_none, Bool.false_eq_true, if_false]
        rw [hrookval, classify_eq_castle hcast]
        exact roundtrip_castle b p rook ((4 : Int), pr) ((2 : Int), pr)
          ((0 : Int), pr) ((3 : Int), pr)
          hobp (by simp [is_on_board]; omega) (by simp [is_on_board]; omega)
          (by simp [is_on_board]; omega)
          hpiece hrook0' h2none' h3none'
          (by intro he; exact absurd (congrArg Prod.fst he) (by norm_num))
          (by intro he; exact absurd (congrArg Prod.fst he) (by norm_num))
          (by intro he; exact absurd (congrArg Prod.fst he) (by norm_num))
          (by intro he; exact absurd (congrArg Prod.fst he) (by norm_num))
          (by intro he; exact absurd (congrArg Prod.fst he) (by norm_num))
          (by intro he; exact absurd (congrArg Prod.fst he) (by norm_num)) sq
  · -- active color restored
    show (classify_move b p pos to_square gs).piece.color = gs.current_turn
    rw [classify_piece, hturn]
  · -- derived en-passant target restored
    unfold GameState.current_en_passant_target
    dsimp only [GameState.record_move]
    rw [List.dropLast_concat]
  · -- halfmove clock untouched
    rfl
  · -- fullmove number untouched
    rfl
  · -- move history restored
    dsimp only [GameState.record_move]
    rw [List.dropLast_concat]

/-- C1 counterexample.  From the untouched castling position, executing
the legal king move e1-e2 clears both White castling rights (as any king
move must), and the immediate undo brings back neither: undo_move
restores pieces and the turn only, so the "bit-identical state" part of
the claim is false for castling rights. -/
theorem C1_castling_rights_not_restored :
    gs_castle.castling_rights.white_kingside = true ∧
    gs_castle.castling_rights.white_queenside = true ∧
    c1x_exec.moveOf.isSome = true ∧
    c1x_undo.isSome = true ∧
    c1x_gsU.castling_rights.white_kingside = false ∧
    c1x_gsU.castling_rights.white_queenside = false := by
  decide

/-- Closed instantiation of the C1 theorem at the knight move Ng1-f3. -/
theorem C1_execute_undo_restores_witness :
    board_knight.getSq ((6 : Int), 0) = some ⟨Color.WHITE, PieceType.KNIGHT⟩ ∧
    (⟨Color.WHITE, PieceType.KNIGHT⟩ : Piece).color = gs_knight.current_turn ∧
    (∀ t, gs_knight.current_en_passant_target = some t →
      t.2 = (if gs_knight.current_turn = Color.WHITE then (4 : Int) else 3)) ∧
    (∀ t2, gs_knight.current_en_passant_taking_square = some t2 →
      board_knight.getSq t2 = none) ∧
    get_legal_moves board_knight ⟨Color.WHITE, PieceType.KNIGHT⟩ ((6 : Int), 0)
      gs_knight = .ok c2w_ms ∧
    ((5 : Int), (2 : Int)) ∈ c2w_ms ∧
    execute_move board_knight gs_knight ((6 : Int), 0) ((5 : Int), 2) none =
      .ok c1w_bA c1w_gsA c1w_m ∧
    (∃ bU gsU, undo_move c1w_bA c1w_gsA = some (bU, gsU, c1w_m) ∧
      (∀ sq : Sq, bU.getSq sq = board_knight.getSq sq) ∧
      gsU.current_turn = gs_knight.current_turn ∧
      gsU.current_en_passant_target = gs_knight.current_en_passant_target ∧
      gsU.halfmove_clock = gs_knight.halfmove_clock ∧
      gsU.fullmove_number = gs_knight.fullmove_number ∧
      gsU.move_history = gs_knight.move_history) :=
  ⟨by decide, by decide,
    by
      intro t ht
      rw [show gs_knight.current_en_passant_target = none from rfl] at ht
      exact Option.noConfusion ht,
    by
      intro t2 ht2
      rw [show gs_knight.current_en_passant_taking_square = none from rfl] at ht2
      exact Option.noConfusion ht2,
    by rfl, by decide, by rfl,
    C1_execute_undo_restores board_knight gs_knight
      ⟨Color.WHITE, PieceType.KNIGHT⟩ ((6 : Int), 0) ((5 : Int), 2) c2w_ms
      c1w_bA c1w_gsA c1w_m (by decide) (by decide)
      (by
        intro t ht
        rw [show gs_knight.current_en_passant_target = none from rfl] at ht
        exact Option.noConfusion ht)
      (by
        intro t2 ht2
        rw [show gs_knight.current_en_passant_taking_square = none from rfl] at ht2
        exact Option.noConfusion ht2)
      (by rfl) (by decide) (by rfl)⟩

/-! ## FEN codec round-trip lemmas -/

/-- Splitting a separator-free token gives the token back. -/
theorem splitOnChar_token (sep : Char) :
    ∀ l : List Char, (∀ c ∈ l, ¬(c = sep)) → splitOnChar sep l = [l] := by
  intro l
  induction l with
  | nil => intro _; rfl
  | cons c rest ih =>
    intro h
    unfold splitOnChar
    rw [if_neg (h c (List.mem_cons_self _ _))]
    rw [ih fun x hx => h x (List.mem_cons_of_mem _ hx)]

/-- Splitting past one separator-free token and a separator. -/
theorem splitOnChar_append (sep : Char) :
    ∀ (l rest : List Char), (∀ c ∈ l, ¬(c = sep)) →
      splitOnChar sep (l ++ sep :: rest) = l :: splitOnChar sep rest := by
  intro l
  induction l with
  | nil =>
    intro rest _
    show splitOnChar sep (sep :: rest) = [] :: splitOnChar sep rest
    simp only [splitOnChar]
    simp
  | cons c l' ih =>
    intro rest h
    show splitOnChar sep (c :: (l' ++ sep :: rest)) = _
    simp only [splitOnChar]
    rw [if_neg (h c (List.mem_cons_self _ _))]
    rw [ih rest fun x hx => h x (List.mem_cons_of_mem _ hx)]

/-- `str.split(sep)` inverts `sep.join` on separator-free pieces. -/
theorem splitOnChar_joinChar (sep : Char) :
    ∀ ls : List (List Char), ls ≠ [] →
      (∀ l ∈ ls, ∀ c ∈ l, ¬(c = sep)) →
      splitOnChar sep (joinChar sep ls) = ls := by
  intro ls
  induction ls with
  | nil => intro h _; cases h rfl
  | cons l rest ih =>
    intro _ h
    cases rest with
    | nil => exact splitOnChar_token sep l (h l (List.mem_cons_self _ _))
    | cons l2 rest2 =>
      show splitOnChar sep (l ++ sep :: joinChar sep (l2 :: rest2)) = _
      rw [splitOnChar_append sep l _ (h l (List.mem_cons_self _ _))]
      rw [ih (by simp) fun x hx c hc => h x (List.mem_cons_of_mem _ hx) c hc]

/-- `takeWhile` runs through an all-true prefix and stops at a failure. -/
theorem takeWhile_all_append (p : Char → Bool) :
    ∀ (xs : List Char) (y : Char) (ys : List Char),
      (∀ x ∈ xs, p x = true) → p y = false →
      (xs ++ y :: ys).takeWhile p = xs := by
  intro xs
  induction xs with
  | nil =>
    intro y ys _ hy
    simp [List.takeWhile_cons, hy]
  | cons x xs' ih =>
    intro y ys h hy
    simp only [List.cons_append, List.takeWhile_cons,
      h x (List.mem_cons_self _ _)]
    rw [ih y ys (fun z hz => h z (List.mem_cons_of_mem _ hz)) hy]
    simp

/-- `dropWhile` analogue of `takeWhile_all_append`. -/
theorem dropWhile_all_append (p : Char → Bool) :
    ∀ (xs : List Char) (y : Char) (ys : List Char),
      (∀ x ∈ xs, p x = true) → p y = false →
      (xs ++ y :: ys).dropWhile p = y :: ys := by
  intro xs
  induction xs with
  | nil =>
    intro y ys _ hy
    simp [List.dropWhile_cons, hy]
  | cons x xs' ih =>
    intro y ys h hy
    simp only [List.cons_append, List.dropWhile_cons,
      h x (List.mem_cons_self _ _)]
    rw [ih y ys (fun z hz => h z (List.mem_cons_of_mem _ hz)) hy]
    simp

/-- `dropWhile` never lengthens a list. -/
theorem dropWhile_length_le (p : Char → Bool) :
    ∀ l : List Char, (l.dropWhile p).length ≤ l.length := by
  intro l
  induction l with
  | nil => simp [List.dropWhile]
  | cons a l ih =>
    rw [List.dropWhile_cons]
    split
    · simp only [List.length_cons]
      omega
    · simp

/-- The split loop ignores the exact fuel once it exceeds the length. -/
theorem splitWsAux_congr :
    ∀ (f1 f2 : Nat) (cs : List Char), cs.length < f1 → cs.length < f2 →
      splitWsAux f1 cs = splitWsAux f2 cs := by
  intro f1
  induction f1 with
  | zero => intro f2 cs h1 _; exact absurd h1 (by omega)
  | succ f ih =>
    intro f2 cs h1 h2
    cases f2 with
    | zero => exact absurd h2 (by omega)
    | succ g =>
      cases cs with
      | nil => rfl
      | cons c rest =>
        simp only [List.length_cons] at h1 h2
        simp only [splitWsAux]
        by_cases hws : c.isWhitespace = true
        · rw [if_pos hws, if_pos hws, ih g rest (by omega) (by omega)]
        · rw [if_neg hws, if_neg hws]
          have hlen := dropWhile_length_le (fun x => ¬x.isWhitespace) rest
          rw [ih g _ (by omega) (by omega)]

/-- One unfolding step of `splitWs` on a cons cell. -/
theorem splitWs_cons (c : Char) (rest : List Char) :
    splitWs (c :: rest) =
      if c.isWhitespace then splitWs rest
      else (c :: rest.takeWhile (fun x => ¬x.isWhitespace)) ::
        splitWs (rest.dropWhile (fun x => ¬x.isWhitespace)) := by
  show splitWsAux ((c :: rest).length + 1) (c :: rest) = _
  simp only [List.length_cons]
  have hstep : splitWsAux (rest.length + 1 + 1) (c :: rest) =
      if c.isWhitespace then splitWsAux (rest.length + 1) rest
      else (c :: rest.takeWhile (fun x => ¬x.isWhitespace)) ::
        splitWsAux (rest.length + 1)
          (rest.dropWhile (fun x => ¬x.isWhitespace)) := rfl
  rw [hstep]
  by_cases hws : c.isWhitespace = true
  · rw [if_pos hws, if_pos hws]
    rfl
  · rw [if_neg hws, if_neg hws]
    congr 1
    have hlen := dropWhile_length_le (fun x => ¬x.isWhitespace) rest
    exact splitWsAux_congr _ _ _ (by omega) (by omega)

/-- A nonempty whitespace-free token splits to itself. -/
theorem splitWs_token (l : List Char) (hne : l ≠ [])
    (h : ∀ c ∈ l, c.isWhitespace = false) : splitWs l = [l] := by
  cases l with
  | nil => cases hne rfl
  | cons c rest =>
    rw [splitWs_cons]
    rw [h c (List.mem_cons_self _ _)]
    simp only [Bool.false_eq_true, if_false]
    have htk : rest.takeWhile (fun x => ¬x.isWhitespace) = rest := by
      rw [List.takeWhile_eq_self_iff]
      intro x hx
      simp [h x (List.mem_cons_of_mem _ hx)]
    have hdr : rest.dropWhile (fun x => ¬x.isWhitespace) = [] := by
      rw [List.dropWhile_eq_nil_iff]
      intro x hx
      simp [h x (List.mem_cons_of_mem _ hx)]
    rw [htk, hdr]
    rfl

/-- `str.split()` inverts `" ".join` on nonempty whitespace-free
fields. -/
theorem splitWs_joinChar :
    ∀ ls : List (List Char),
      (∀ l ∈ ls, l ≠ [] ∧ ∀ c ∈ l, c.isWhitespace = false) →
      splitWs (joinChar ' ' ls) = ls := by
  intro ls
  induction ls with
  | nil => intro _; rfl
  | cons l rest ih =>
    intro h
    obtain ⟨hne, hws⟩ := h l (List.mem_cons_self _ _)
    cases rest with
    | nil => exact splitWs_token l hne hws
    | cons l2 rest2 =>
      show splitWs (l ++ ' ' :: joinChar ' ' (l2 :: rest2)) = _
      cases l with
      | nil => cases hne rfl
      | cons c cl =>
        show splitWs (c :: (cl ++ ' ' :: joinChar ' ' (l2 :: rest2))) = _
        rw [splitWs_cons]
        rw [hws c (List.mem_cons_self _ _)]
        simp only [Bool.false_eq_true, if_false]
        rw [takeWhile_all_append _ cl ' ' _
          (fun x hx => by simp [hws x (List.mem_cons_of_mem _ hx)])
          (by decide)]
        rw [dropWhile_all_append _ cl ' ' _
          (fun x hx => by simp [hws x (List.mem_cons_of_mem _ hx)])
          (by decide)]
        have : splitWs (' ' :: joinChar ' ' (l2 :: rest2)) =
            splitWs (joinChar ' ' (l2 :: rest2)) := by
          rw [splitWs_cons]
          rw [show (' ').isWhitespace = true by decide]
          simp
        rw [this, ih fun x hx => h x (List.mem_cons_of_mem _ hx)]

/-- The decimal digit emitter hits ASCII digits with the right value. -/
theorem digitOfNat_spec (m : Nat) (h : m < 10) :
    (digitOfNat m).isDigit = true ∧ (digitOfNat m).toNat - 48 = m ∧
    (digitOfNat m).isWhitespace = false ∧ ¬(digitOfNat m = '/') := by
  interval_cases m <;> exact ⟨by decide, by decide, by decide, by decide⟩

/-- The digit loop ignores the exact fuel once it exceeds the number. -/
theorem natToCharsAux_congr :
    ∀ (f1 f2 n : Nat), n < f1 → n < f2 →
      natToCharsAux f1 n = natToCharsAux f2 n := by
  intro f1
  induction f1 with
  | zero => intro f2 n h1 _; exact absurd h1 (by omega)
  | succ f ih =>
    intro f2 n h1 h2
    cases f2 with
    | zero => exact absurd h2 (by omega)
    | succ g =>
      simp only [natToCharsAux]
      by_cases hn : n < 10
      · rw [if_pos hn, if_pos hn]
      · rw [if_neg hn, if_neg hn]
        have hdiv : n / 10 < n := Nat.div_lt_self (by omega) (by omega)
        rw [ih g (n / 10) (by omega) (by omega)]

/-- One unfolding step of `natToChars`. -/
theorem natToChars_step (n : Nat) :
    natToChars n = if n < 10 then [digitOfNat n]
      else natToChars (n / 10) ++ [digitOfNat (n % 10)] := by
  show natToCharsAux (n + 1) n = _
  have hstep : natToCharsAux (n + 1) n =
      if n < 10 then [digitOfNat n]
      else natToCharsAux n (n / 10) ++ [digitOfNat (n % 10)] := rfl
  rw [hstep]
  by_cases hn : n < 10
  · rw [if_pos hn, if_pos hn]
  · rw [if_neg hn, if_neg hn]
    have hdiv : n / 10 < n := Nat.div_lt_self (by omega) (by omega)
    congr 1
    exact natToCharsAux_congr _ _ _ (by omega) (by omega)

/-- Decimal printing is nonempty and digits-only. -/
theorem natToChars_spec (n : Nat) :
    natToChars n ≠ [] ∧ ∀ c ∈ natToChars n, c.isDigit = true ∧
      c.isWhitespace = false ∧ ¬(c = '/') := by
  induction n using Nat.strong_induction_on with
  | _ n ih =>
    rw [natToChars_step]
    split
    · next h =>
      obtain ⟨h1, -, h3, h4⟩ := digitOfNat_spec n h
      refine ⟨by simp, ?_⟩
      intro c hc
      rw [List.mem_singleton] at hc
      subst hc
      exact ⟨h1, h3, h4⟩
    · next h =>
      have hlt : n / 10 < n := Nat.div_lt_self (by omega) (by omega)
      obtain ⟨ih1, ih2⟩ := ih (n / 10) hlt
      obtain ⟨g1, -, g3, g4⟩ := digitOfNat_spec (n % 10) (Nat.mod_lt _ (by omega))
      refine ⟨by simp, ?_⟩
      intro c hc
      rcases List.mem_append.mp hc with hc | hc
      · exact ih2 c hc
      · rw [List.mem_singleton] at hc
        subst hc
        exact ⟨g1, g3, g4⟩

/-- Reading back the printed decimal. -/
theorem parse_nat_natToChars (n : Nat) :
    parse_nat_chars (natToChars n) = some n := by
  induction n using Nat.strong_induction_on with
  | _ n ih =>
    rw [natToChars_step]
    split
    · next h =>
      obtain ⟨h1, h2, -, -⟩ := digitOfNat_spec n h
      unfold parse_nat_chars
      simp only [List.isEmpty_cons, List.foldl_cons, List.foldl_nil]
      rw [if_neg (by simp)]
      simp only [List.foldl_cons, List.foldl_nil, h1, if_true, h2]
      simp
    · next h =>
      have hlt : n / 10 < n := Nat.div_lt_self (by omega) (by omega)
      have ihv := ih (n / 10) hlt
      obtain ⟨hne, -⟩ := natToChars_spec (n / 10)
      obtain ⟨g1, g2, -, -⟩ := digitOfNat_spec (n % 10) (Nat.mod_lt _ (by omega))
      unfold parse_nat_chars at ihv ⊢
      rw [if_neg (by simp [hne])] at ihv
      rw [if_neg (by simp)]
      rw [List.foldl_append]
      rw [ihv]
      simp only [List.foldl_cons, List.foldl_nil, g1, if_true, g2]
      congr 1
      omega

/-- Reading back a printed nonnegative integer. -/
theorem parse_int_intToChars (n : Int) (h : 0 ≤ n) :
    parse_int_chars (intToChars n) = some n := by
  unfold intToChars
  rw [if_neg (by omega)]
  obtain ⟨hne, hall⟩ := natToChars_spec n.toNat
  rcases hc : natToChars n.toNat with _ | ⟨c, rest⟩
  · cases hne hc
  · have hcd : c.isDigit = true := (hall c (hc ▸ List.mem_cons_self _ _)).1
    simp only [parse_int_chars]
    rw [if_neg (by intro he; rw [he] at hcd; exact absurd hcd (by decide)),
      if_neg (by intro he; rw [he] at hcd; exact absurd hcd (by decide))]
    rw [← hc, parse_nat_natToChars]
    simp [Int.toNat_of_nonneg h]

/-- The halfmove field round-trips. -/
theorem parse_halfmove_intToChars (n : Int) (h : 0 ≤ n) :
    parse_halfmove (intToChars n) = .ok n := by
  unfold parse_halfmove
  rw [parse_int_intToChars n h]
  dsimp only
  rw [if_neg (by omega)]

/-- The fullmove field round-trips. -/
theorem parse_fullmove_intToChars (n : Int) (h : 1 ≤ n) :
    parse_fullmove (intToChars n) = .ok n := by
  unfold parse_fullmove
  rw [parse_int_intToChars n (by omega)]
  dsimp only
  rw [if_neg (by omega)]

/-- Printed nonnegative integers are nonempty whitespace-free tokens. -/
theorem intToChars_field (n : Int) (h : 0 ≤ n) :
    intToChars n ≠ [] ∧ ∀ c ∈ intToChars n, c.isWhitespace = false := by
  unfold intToChars
  rw [if_neg (by omega)]
  obtain ⟨hne, hall⟩ := natToChars_spec n.toNat
  exact ⟨hne, fun c hc => (hall c hc).2.1⟩

/-- The castling field round-trips through generate/parse. -/
theorem parse_gen_castling_of (r : CastlingRights) :
    parse_castling (gen_castling_of r) = .ok r := by
  obtain ⟨wk, wq, bk, bq⟩ := r
  cases wk <;> cases wq <;> cases bk <;> cases bq <;> rfl

/-- The castling field is a nonempty whitespace-free token. -/
theorem gen_castling_of_field (r : CastlingRights) :
    gen_castling_of r ≠ [] ∧
    ∀ c ∈ gen_castling_of r, c.isWhitespace = false := by
  obtain ⟨wk, wq, bk, bq⟩ := r
  cases wk <;> cases wq <;> cases bk <;> cases bq <;> exact ⟨by decide, by decide⟩

/-- Inversion of the en-passant field parser: the stored square is the
pawn square, file 0-7, rank 3 or 4. -/
theorem parse_en_passant_inv (cs : List Char) (t : Option Sq)
    (h : parse_en_passant cs = .ok t) :
    t = none ∨ ∃ f r : Int, t = some (f, r) ∧ 0 ≤ f ∧ f < 8 ∧
      (r = 3 ∨ r = 4) := by
  unfold parse_en_passant at h
  split at h
  · simp only [Except.ok.injEq] at h
    exact Or.inl h.symm
  · rcases cs with _ | ⟨c1, _ | ⟨c2, _ | ⟨c3, cs3⟩⟩⟩
    · simp at h
    · simp at h
    · dsimp only at h
      split at h
      · cases h
      · split at h
        · cases h
        · next hfc hrc =>
          push_neg at hfc hrc
          simp only [Except.ok.injEq] at h
          right
          refine ⟨_, _, h.symm, ?_, ?_, ?_⟩
          · simp only [not_not, List.mem_cons, List.not_mem_nil,
              or_false] at hfc
            rcases hfc with rfl | rfl | rfl | rfl | rfl | rfl | rfl | rfl <;>
              decide
          · simp only [not_not, List.mem_cons, List.not_mem_nil,
              or_false] at hfc
            rcases hfc with rfl | rfl | rfl | rfl | rfl | rfl | rfl | rfl <;>
              decide
          · by_cases h3 : c2 = '3'
            · rw [if_pos h3]
              exact Or.inl rfl
            · rw [if_neg h3]
              exact Or.inr rfl
    · simp at h

/-- The en-passant field round-trips through generate/parse. -/
theorem parse_gen_ep (t : Option Sq)
    (hshape : t = none ∨ ∃ f r : Int, t = some (f, r) ∧ 0 ≤ f ∧ f < 8 ∧
      (r = 3 ∨ r = 4)) :
    parse_en_passant (gen_en_passant_of t) = .ok t := by
  rcases hshape with rfl | ⟨f, r, rfl, hf0, hf8, hr⟩
  · rfl
  · interval_cases f <;> rcases hr with rfl | rfl <;> rfl

/-- The en-passant field is a nonempty whitespace-free token. -/
theorem gen_en_passant_of_field (t : Option Sq)
    (hshape : t = none ∨ ∃ f r : Int, t = some (f, r) ∧ 0 ≤ f ∧ f < 8 ∧
      (r = 3 ∨ r = 4)) :
    gen_en_passant_of t ≠ [] ∧
    ∀ c ∈ gen_en_passant_of t, c.isWhitespace = false := by
  rcases hshape with rfl | ⟨f, r, rfl, hf0, hf8, hr⟩
  · exact ⟨by decide, by decide⟩
  · interval_cases f <;> rcases hr with rfl | rfl <;>
      exact ⟨by decide, by decide⟩

/-- The active-color field round-trips through generate/parse. -/
theorem parse_gen_color (c : Color) :
    parse_active_color (gen_active_color_of c) = .ok c := by
  cases c <;> rfl

/-- The active-color field is a nonempty whitespace-free token. -/
theorem gen_active_color_of_field (c : Color) :
    gen_active_color_of c ≠ [] ∧
    ∀ x ∈ gen_active_color_of c, x.isWhitespace = false := by
  cases c <;> exact ⟨by decide, by decide⟩

/-- A segment bound can be weakened. -/
theorem OrderedSeg_mono {rank f0 f0' : Int} {L : List (Sq × Piece)}
    (hle : f0' ≤ f0) (h : OrderedSeg rank f0 L) : OrderedSeg rank f0' L := by
  cases L with
  | nil => trivial
  | cons e rest =>
    obtain ⟨h1, h2, h3⟩ := h
    exact ⟨h1, by omega, h3⟩

/-- Segment files respect the lower bound. -/
theorem OrderedSeg_lb {rank f0 : Int} :
    ∀ {L : List (Sq × Piece)}, OrderedSeg rank f0 L →
      ∀ e ∈ L, f0 ≤ e.1.1 := by
  intro L
  induction L generalizing f0 with
  | nil => intro _ e he; cases he
  | cons a rest ih =>
    intro h e he
    obtain ⟨h1, h2, h3⟩ := h
    rcases List.mem_cons.mp he with rfl | he2
    · exact h2
    · have := ih h3 e he2
      omega

/-- Segment entries all carry the segment's rank. -/
theorem OrderedSeg_rank {rank f0 : Int} :
    ∀ {L : List (Sq × Piece)}, OrderedSeg rank f0 L →
      ∀ e ∈ L, e.1.2 = rank := by
  intro L
  induction L generalizing f0 with
  | nil => intro _ e he; cases he
  | cons a rest ih =>
    intro h e he
    obtain ⟨h1, h2, h3⟩ := h
    rcases List.mem_cons.mp he with rfl | he2
    · exact h1
    · exact ih h3 e he2

/-- Below the bound the segment has nothing. -/
theorem segLookup_none_lt {rank : Int} :
    ∀ {L : List (Sq × Piece)} {f0 f : Int},
      OrderedSeg rank f0 L → f < f0 → segLookup L f = none := by
  intro L
  induction L with
  | nil => intro f0 f _ _; rfl
  | cons e rest ih =>
    intro f0 f h hf
    obtain ⟨h1, h2, h3⟩ := h
    unfold segLookup
    rw [if_neg (show ¬(e.1.1 = f) by omega)]
    exact ih h3 (by omega)

/-- An empty slot at the bound advances the bound. -/
theorem OrderedSeg_step {rank f0 : Int} {L : List (Sq × Piece)}
    (h : OrderedSeg rank f0 L) (hn : segLookup L f0 = none) :
    OrderedSeg rank (f0 + 1) L := by
  cases L with
  | nil => trivial
  | cons e rest =>
    obtain ⟨h1, h2, h3⟩ := h
    unfold segLookup at hn
    by_cases he : e.1.1 = f0
    · rw [if_pos he] at hn
      cases hn
    · exact ⟨h1, by omega, h3⟩

/-- A filled slot at the bound is the segment's head. -/
theorem seg_head_of_lookup_some {rank f0 : Int} {L : List (Sq × Piece)}
    {pc : Piece} (h : OrderedSeg rank f0 L)
    (hs : segLookup L f0 = some pc) :
    ∃ L', L = ((f0, rank), pc) :: L' ∧ OrderedSeg rank (f0 + 1) L' := by
  cases L with
  | nil => cases hs
  | cons e rest =>
    obtain ⟨h1, h2, h3⟩ := h
    unfold segLookup at hs
    by_cases he : e.1.1 = f0
    · rw [if_pos he] at hs
      simp only [Option.some.injEq] at hs
      refine ⟨rest, ?_, ?_⟩
      · obtain ⟨⟨f1, r1⟩, pc1⟩ := e
        simp only at he h1 hs
        rw [he, h1, hs]
      · rw [← he]
        exact h3
    · rw [if_neg he] at hs
      rw [segLookup_none_lt h3 (show f0 < e.1.1 + 1 by omega)] at hs
      cases hs

/-- Inside one segment, square lookup by the segment's rank is file
lookup. -/
theorem sqLookup_of_seg {rank f0 : Int} :
    ∀ {L : List (Sq × Piece)}, OrderedSeg rank f0 L →
      ∀ f : Int, sqLookup L (f, rank) = segLookup L f := by
  intro L
  induction L generalizing f0 with
  | nil => intro _ f; rfl
  | cons e rest ih =>
    intro h f
    obtain ⟨h1, h2, h3⟩ := h
    unfold sqLookup segLookup
    rw [ih h3 f]
    by_cases he : e.1.1 = f
    · rw [if_pos he]
      rw [segLookup_none_lt h3 (show f < e.1.1 + 1 by omega)]
      rw [if_pos (by
        obtain ⟨⟨f1, r1⟩, pc1⟩ := e
        simp only at he h1 ⊢
        rw [he, h1])]
    · rw [if_neg he]
      cases hsl : segLookup rest f with
      | some pc => rfl
      | none =>
        rw [if_neg (by
          intro hee
          apply he
          rw [hee])]

/-- Lookup misses lists whose entries all differ from the key. -/
theorem sqLookup_none_of_ne {sq : Sq} :
    ∀ {L : List (Sq × Piece)}, (∀ e ∈ L, ¬(e.1 = sq)) →
      sqLookup L sq = none := by
  intro L
  induction L with
  | nil => intro _; rfl
  | cons e rest ih =>
    intro h
    unfold sqLookup
    rw [ih fun x hx => h x (List.mem_cons_of_mem _ hx)]
    rw [if_neg (h e (List.mem_cons_self _ _))]

/-- Later bindings shadow earlier ones across an append. -/
theorem sqLookup_append (sq : Sq) :
    ∀ (L M : List (Sq × Piece)),
      sqLookup (L ++ M) sq =
        match sqLookup M sq with
        | some pc => some pc
        | none => sqLookup L sq := by
  intro L
  induction L with
  | nil =>
    intro M
    show sqLookup M sq = _
    cases hm : sqLookup M sq with
    | some pc => rfl
    | none => rfl
  | cons e rest ih =>
    intro M
    show sqLookup (e :: (rest ++ M)) sq = _
    have hstep : ∀ (l : List (Sq × Piece)), sqLookup (e :: l) sq =
        (match sqLookup l sq with
         | some pc => some pc
         | none => if e.1 = sq then some e.2 else none) := fun l => rfl
    rw [hstep, ih M, hstep]
    cases hm : sqLookup M sq with
    | some pc => rfl
    | none =>
      cases hr : sqLookup rest sq with
      | some pc => rfl
      | none => rfl

/-- The loaded board reads back the association list (last binding wins,
like the Python dict). -/
theorem load_get :
    ∀ (l : List (Sq × Piece)) (b0 : Board) (f r : Int),
      (∀ e ∈ l, is_on_board e.1.1 e.1.2 = true) →
      (l.foldl (fun bb e => bb.setSq e.1 (some e.2)) b0).get f r =
        (match sqLookup l (f, r) with
         | some pc => some pc
         | none => b0.get f r) := by
  intro l
  induction l with
  | nil => intro b0 f r _; rfl
  | cons e rest ih =>
    intro b0 f r h
    rw [List.foldl_cons]
    rw [ih _ f r fun x hx => h x (List.mem_cons_of_mem _ hx)]
    have hstep : sqLookup (e :: rest) (f, r) =
        (match sqLookup rest (f, r) with
         | some pc => some pc
         | none => if e.1 = (f, r) then some e.2 else none) := rfl
    rw [hstep]
    cases hr : sqLookup rest (f, r) with
    | some pc => rfl
    | none =>
      by_cases he : e.1 = (f, r)
      · rw [if_pos he]
        show (b0.setSq e.1 (some e.2)).getSq (f, r) = some e.2
        rw [he]
        exact getSq_setSq_self _ _ _ (he ▸ h e (List.mem_cons_self _ _))
      · rw [if_neg he]
        show (b0.setSq e.1 (some e.2)).getSq (f, r) = b0.getSq (f, r)
        exact getSq_setSq_ne _ _ _ _ (fun h2 => he h2.symm)

/-- Inversion of the per-rank placement loop: it appends an ordered
segment and only advances the file. -/
theorem parse_rank_aux_seg (rank : Int) :
    ∀ (cs : List Char) (file : Int) (acc ps : List (Sq × Piece)) (fin : Int),
      parse_rank_aux rank cs file acc = .ok (ps, fin) →
      ∃ L, ps = acc ++ L ∧ OrderedSeg rank file L ∧ file ≤ fin ∧
        ∀ e ∈ L, e.1.1 < fin := by
  intro cs
  induction cs with
  | nil =>
    intro file acc ps fin h
    simp only [parse_rank_aux, Except.ok.injEq, Prod.mk.injEq] at h
    obtain ⟨rfl, rfl⟩ := h
    exact ⟨[], by simp, trivial, le_refl _, by simp⟩
  | cons c rest ih =>
    intro file acc ps fin h
    simp only [parse_rank_aux] at h
    split at h
    · split at h
      · cases h
      · next hbad =>
        push_neg at hbad
        obtain ⟨L, hps, hseg, hle, hbd⟩ := ih _ _ _ _ h
        exact ⟨L, hps, OrderedSeg_mono (by omega) hseg, by omega, hbd⟩
    · split at h
      next pc hpc =>
        obtain ⟨L', hps, hseg, hle, hbd⟩ := ih _ _ _ _ h
        refine ⟨((file, rank), pc) :: L', ?_, ⟨rfl, le_refl _, hseg⟩, by omega, ?_⟩
        · rw [hps, List.append_assoc]
          rfl
        · intro e he
          rcases List.mem_cons.mp he with rfl | he2
          · simp only
            omega
          · exact hbd e he2
      next hpc => cases h

/-- Inversion of one accepted placement rank. -/
theorem parse_rank_inv (rank : Int) (cs : List Char)
    (ps : List (Sq × Piece)) (h : parse_rank rank cs = .ok ps) :
    OrderedSeg rank 0 ps ∧
    ∀ e ∈ ps, 0 ≤ e.1.1 ∧ e.1.1 < 8 ∧ e.1.2 = rank := by
  unfold parse_rank at h
  split at h
  · cases h
  · next ps0 file haux =>
    split at h
    · next hfile =>
      simp only [Except.ok.injEq] at h
      subst h
      obtain ⟨L, hps, hseg, -, hbd⟩ := parse_rank_aux_seg rank cs 0 [] ps0
        file haux
      rw [List.nil_append] at hps
      subst hps
      subst hfile
      exact ⟨hseg, fun e he => ⟨OrderedSeg_lb hseg e he, hbd e he,
        OrderedSeg_rank hseg e he⟩⟩
    · cases h

/-- Bounds for the whole accepted placement. -/
theorem parse_ranks_inv :
    ∀ (rss : List (List Char)) (rank : Int) (ps : List (Sq × Piece)),
      parse_ranks rss rank = .ok ps →
      ∀ e ∈ ps, 0 ≤ e.1.1 ∧ e.1.1 < 8 ∧
        rank - rss.length < e.1.2 ∧ e.1.2 ≤ rank := by
  intro rss
  induction rss with
  | nil =>
    intro rank ps h e he
    simp only [parse_ranks, Except.ok.injEq] at h
    subst h
    cases he
  | cons rs rest ih =>
    intro rank ps h e he
    simp only [parse_ranks] at h
    split at h
    · cases h
    · next ps1 h1 =>
      split at h
      · cases h
      · next ps2 h2 =>
        simp only [Except.ok.injEq] at h
        subst h
        rcases List.mem_append.mp he with he1 | he2
        · obtain ⟨hb0, hb8, hbr⟩ := (parse_rank_inv rank rs ps1 h1).2 e he1
          refine ⟨hb0, hb8, ?_, by omega⟩
          simp only [List.length_cons]
          omega
        · obtain ⟨hb0, hb8, hlo, hhi⟩ := ih (rank - 1) ps2 h2 e he2
          refine ⟨hb0, hb8, ?_, by omega⟩
          simp only [List.length_cons]
          omega

/-- Piece letters survive the generate/parse map round trip. -/
theorem char_piece_roundtrip (pc : Piece) :
    piece_of_char (char_of_piece pc) = some pc := by
  obtain ⟨c, t⟩ := pc
  cases c <;> cases t <;> rfl

/-- Piece letters are not digits. -/
theorem char_of_piece_not_digit (pc : Piece) :
    (char_of_piece pc).isDigit = false := by
  obtain ⟨c, t⟩ := pc
  cases c <;> cases t <;> decide

/-- Piece letters are neither whitespace nor slashes. -/
theorem char_of_piece_class (pc : Piece) :
    (char_of_piece pc).isWhitespace = false ∧ ¬(char_of_piece pc = '/') := by
  obtain ⟨c, t⟩ := pc
  cases c <;> cases t <;> exact ⟨by decide, by decide⟩

/-- Digit characters classify as digits and nothing else relevant. -/
theorem digitOfNat_class (m : Nat) :
    (digitOfNat m).isDigit = true ∧ (digitOfNat m).isWhitespace = false ∧
    ¬(digitOfNat m = '/') := by
  unfold digitOfNat
  split <;> exact ⟨by decide, by decide, by decide⟩

/-- Parsing the generated rank recovers exactly the rank's segment. -/
theorem parse_gen_rank_seg (b : Board) (rank : Int) :
    ∀ (n : Nat), ∀ (k cnt : Nat) (acc L : List (Sq × Piece)),
      k + n = 8 → cnt ≤ k →
      OrderedSeg rank (Int.ofNat k) L →
      (∀ e ∈ L, e.1.1 < 8) →
      (∀ f : Nat, k ≤ f → f < 8 → b.get (Int.ofNat f) rank =
        segLookup L (Int.ofNat f)) →
      parse_rank_aux rank (gen_rank_aux b rank (List.range' k n) cnt)
        (Int.ofNat (k - cnt)) acc = .ok (acc ++ L, 8) := by
  intro n
  induction n with
  | zero =>
    intro k cnt acc L hk8 hcnt hseg hbd hrow
    have hk : k = 8 := by omega
    subst hk
    have hL : L = [] := by
      cases L with
      | nil => rfl
      | cons e rest =>
        obtain ⟨h1, h2, h3⟩ := hseg
        have := hbd e (List.mem_cons_self _ _)
        simp only [Int.ofNat_eq_coe] at h2
        omega
    subst hL
    rcases Nat.eq_zero_or_pos cnt with hc0 | hcpos
    · subst hc0
      show parse_rank_aux rank (gen_rank_aux b rank [] 0) (Int.ofNat 8) acc =
        .ok (acc ++ [], 8)
      rw [List.append_nil]
      rfl
    · show parse_rank_aux rank (gen_rank_aux b rank [] cnt)
        (Int.ofNat (8 - cnt)) acc = .ok (acc ++ [], 8)
      rw [List.append_nil]
      have hgen : gen_rank_aux b rank [] cnt = [digitOfNat cnt] := by
        unfold gen_rank_aux
        rw [if_pos hcpos]
      rw [hgen]
      obtain ⟨hdig, hval, -, -⟩ := digitOfNat_spec cnt (by omega)
      simp only [parse_rank_aux, hdig, if_true, hval]
      rw [if_neg (by omega)]
      have harith : Int.ofNat (8 - cnt) + ((cnt : Nat) : Int) = (8 : Int) := by
        simp only [Int.ofNat_eq_coe]
        omega
      rw [harith]
  | succ m ih =>
    intro k cnt acc L hk8 hcnt hseg hbd hrow
    rw [List.range'_succ]
    have hbk := hrow k (le_refl _) (by omega)
    cases hget : b.get (Int.ofNat k) rank with
    | none =>
      have hsl : segLookup L (Int.ofNat k) = none := by
        rw [← hbk, hget]
      simp only [gen_rank_aux, hget]
      have hseg' : OrderedSeg rank (Int.ofNat (k + 1)) L := by
        have := OrderedSeg_step hseg hsl
        exact OrderedSeg_mono (by simp only [Int.ofNat_eq_coe]; omega) this
      have := ih (k + 1) (cnt + 1) acc L (by omega) (by omega) hseg' hbd
        (fun f hf hf8 => hrow f (by omega) hf8)
      have harg : (k + 1) - (cnt + 1) = k - cnt := by omega
      rw [harg] at this
      exact this
    | some pc =>
      have hsl : segLookup L (Int.ofNat k) = some pc := by
        rw [← hbk, hget]
      obtain ⟨L', hLeq, hseg'⟩ := seg_head_of_lookup_some hseg hsl
      subst hLeq
      simp only [gen_rank_aux, hget]
      have hseg'' : OrderedSeg rank (Int.ofNat (k + 1)) L' :=
        OrderedSeg_mono (by simp only [Int.ofNat_eq_coe]; omega) hseg'
      have hrow' : ∀ f : Nat, k + 1 ≤ f → f < 8 →
          b.get (Int.ofNat f) rank = segLookup L' (Int.ofNat f) := by
        intro f hf hf8
        have := hrow f (by omega) hf8
        unfold segLookup at this
        rw [if_neg (by
          show ¬(((Int.ofNat k, rank) : Sq).1 = Int.ofNat f)
          simp only [Int.ofNat_eq_coe]
          omega)] at this
        exact this
      have hbd' : ∀ e ∈ L', e.1.1 < 8 :=
        fun e he => hbd e (List.mem_cons_of_mem _ he)
      have hih := ih (k + 1) 0 (acc ++ [((Int.ofNat k, rank), pc)]) L'
        (by omega) (by omega) hseg'' hbd' hrow'
      rw [List.append_assoc] at hih
      have hstep : parse_rank_aux rank
          (char_of_piece pc :: gen_rank_aux b rank (List.range' (k + 1) m) 0)
          (Int.ofNat k) acc = .ok (acc ++ ((Int.ofNat k, rank), pc) :: L', 8) := by
        simp only [parse_rank_aux, char_of_piece_not_digit,
          Bool.false_eq_true, if_false, char_piece_roundtrip]
        exact hih
      rcases Nat.eq_zero_or_pos cnt with hc0 | hcpos
      · subst hc0
        rw [if_neg (by omega)]
        show parse_rank_aux rank
          (char_of_piece pc :: gen_rank_aux b rank (List.range' (k + 1) m) 0)
          (Int.ofNat (k - 0)) acc = _
        exact hstep
      · rw [if_pos hcpos]
        obtain ⟨hdig, hval, -, -⟩ := digitOfNat_spec cnt (by omega)
        show parse_rank_aux rank (digitOfNat cnt :: char_of_piece pc ::
          gen_rank_aux b rank (List.range' (k + 1) m) 0)
          (Int.ofNat (k - cnt)) acc = _
        simp only [parse_rank_aux, hdig, if_true]
        have hcast : (((digitOfNat cnt).toNat - 48 : Nat) : Int) =
            ((cnt : Nat) : Int) := by
          rw [hval]
        rw [hcast]
        rw [if_neg (by omega)]
        have harith : Int.ofNat (k - cnt) + ((cnt : Nat) : Int) =
            Int.ofNat k := by
          simp only [Int.ofNat_eq_coe]
          omega
        rw [harith]
        exact hstep

/-- Characters of a join are the separator or characters of a token. -/
theorem joinChar_mem (sep : Char) :
    ∀ (ls : List (List Char)), ∀ c ∈ joinChar sep ls,
      c = sep ∨ ∃ l ∈ ls, c ∈ l := by
  intro ls
  induction ls with
  | nil => intro c hc; cases hc
  | cons l rest ih =>
    intro c hc
    cases rest with
    | nil => exact Or.inr ⟨l, List.mem_cons_self _ _, hc⟩
    | cons l2 rest2 =>
      have hc' : c ∈ l ++ sep :: joinChar sep (l2 :: rest2) := hc
      rcases List.mem_append.mp hc' with h1 | h2
      · exact Or.inr ⟨l, List.mem_cons_self _ _, h1⟩
      · rcases List.mem_cons.mp h2 with rfl | h3
        · exact Or.inl rfl
        · rcases ih c h3 with h4 | ⟨l', hl', hcl'⟩
          · exact Or.inl h4
          · exact Or.inr ⟨l', List.mem_cons_of_mem _ hl', hcl'⟩

/-- Generated rank characters are piece letters or digits: never
whitespace, never a slash. -/
theorem gen_rank_aux_chars (b : Board) (rank : Int) :
    ∀ (fs : List Nat) (cnt : Nat), ∀ c ∈ gen_rank_aux b rank fs cnt,
      c.isWhitespace = false ∧ ¬(c = '/') := by
  intro fs
  induction fs with
  | nil =>
    intro cnt c hc
    unfold gen_rank_aux at hc
    split at hc
    · have := List.mem_singleton.mp hc
      subst this
      exact ⟨(digitOfNat_class cnt).2.1, (digitOfNat_class cnt).2.2⟩
    · cases hc
  | cons f rest ih =>
    intro cnt c hc
    cases hget : b.get (Int.ofNat f) rank with
    | none =>
      simp only [gen_rank_aux, hget] at hc
      exact ih (cnt + 1) c hc
    | some pc =>
      simp only [gen_rank_aux, hget] at hc
      rcases List.mem_append.mp hc with h1 | h2
      · split at h1
        · have := List.mem_singleton.mp h1
          subst this
          exact ⟨(digitOfNat_class cnt).2.1, (digitOfNat_class cnt).2.2⟩
        · cases h1
      · rcases List.mem_cons.mp h2 with rfl | h3
        · exact ⟨(char_of_piece_class pc).1, (char_of_piece_class pc).2⟩
        · exact ih 0 c h3

/-- Parsing a rank generated from a board that agrees with the parsed
segment recovers the segment. -/
theorem parse_gen_rank (b : Board) (rank : Int) (cs : List Char)
    (ps : List (Sq × Piece)) (h : parse_rank rank cs = .ok ps)
    (hrow : ∀ f : Nat, f < 8 →
      b.get (Int.ofNat f) rank = segLookup ps (Int.ofNat f)) :
    parse_rank rank (gen_rank b rank) = .ok ps := by
  obtain ⟨hseg, hbnd⟩ := parse_rank_inv rank cs ps h
  have hcore := parse_gen_rank_seg b rank 8 0 0 [] ps rfl (le_refl 0) hseg
    (fun e he => (hbnd e he).2.1) (fun f _ hf8 => hrow f hf8)
  have hcore' : parse_rank_aux rank
      (gen_rank_aux b rank (List.range' 0 8) 0) 0 [] = .ok (ps, 8) := by
    rw [List.nil_append] at hcore
    exact hcore
  unfold parse_rank gen_rank
  rw [List.range_eq_range', hcore']
  rfl

/-- The generated placement field has no whitespace. -/
theorem gen_placement_ws (b : Board) :
    ∀ c ∈ gen_piece_placement b, c.isWhitespace = false := by
  intro c hc
  unfold gen_piece_placement at hc
  rcases joinChar_mem '/' _ c hc with rfl | ⟨l', hl', hcl'⟩
  · decide
  · rcases List.mem_map.mp hl' with ⟨i, -, rfl⟩
    exact (gen_rank_aux_chars b _ _ _ c hcl').1

/-- Joining two or more tokens is never empty. -/
theorem joinChar_two_ne_nil (sep : Char) (l1 l2 : List Char)
    (rest : List (List Char)) : joinChar sep (l1 :: l2 :: rest) ≠ [] := by
  show l1 ++ sep :: joinChar sep (l2 :: rest) ≠ []
  simp

/-- The generated placement field is nonempty. -/
theorem gen_placement_ne_nil (b : Board) : gen_piece_placement b ≠ [] := by
  unfold gen_piece_placement
  rw [show List.range 8 = [0, 1, 2, 3, 4, 5, 6, 7] from rfl]
  simp only [List.map_cons]
  exact joinChar_two_ne_nil _ _ _ _

/-- An accepted halfmove clock is nonnegative. -/
theorem parse_halfmove_nonneg (cs : List Char) (v : Int)
    (h : parse_halfmove cs = .ok v) : 0 ≤ v := by
  unfold parse_halfmove at h
  split at h
  · cases h
  · split at h
    · cases h
    · next hneg =>
      simp only [Except.ok.injEq] at h
      omega

/-- An accepted fullmove number is at least one. -/
theorem parse_fullmove_pos (cs : List Char) (v : Int)
    (h : parse_fullmove cs = .ok v) : 1 ≤ v := by
  unfold parse_fullmove at h
  split at h
  · cases h
  · split at h
    · cases h
    · next hneg =>
      simp only [Except.ok.injEq] at h
      omega

/-- Parsing the ranks regenerated from a board that agrees with the
parsed placement recovers the placement. -/
theorem parse_gen_ranks (b : Board) :
    ∀ (rss : List (List Char)) (rank : Int) (ps : List (Sq × Piece)),
      parse_ranks rss rank = .ok ps →
      (∀ (f : Nat) (r : Int), f < 8 → rank - rss.length < r → r ≤ rank →
        b.get (Int.ofNat f) r = sqLookup ps (Int.ofNat f, r)) →
      parse_ranks ((List.range rss.length).map
        (fun i => gen_rank b (rank - Int.ofNat i))) rank = .ok ps := by
  intro rss
  induction rss with
  | nil =>
    intro rank ps h _
    simp only [parse_ranks, Except.ok.injEq] at h
    subst h
    rfl
  | cons rs rest ih =>
    intro rank ps h hrow
    simp only [parse_ranks] at h
    split at h
    · cases h
    · next ps1 h1 =>
      split at h
      · cases h
      · next ps2 h2 =>
        simp only [Except.ok.injEq] at h
        subst h
        obtain ⟨hseg1, hbnd1⟩ := parse_rank_inv rank rs ps1 h1
        have hbnd2 := parse_ranks_inv rest (rank - 1) ps2 h2
        have hps2none : ∀ f : Int, sqLookup ps2 (f, rank) = none := by
          intro f
          apply sqLookup_none_of_ne
          intro e he heq
          have hr := (hbnd2 e he).2.2.2
          rw [heq] at hr
          simp only at hr
          omega
        have hps1none : ∀ (f r : Int), ¬(r = rank) →
            sqLookup ps1 (f, r) = none := by
          intro f r hr
          apply sqLookup_none_of_ne
          intro e he heq
          have hrk := (hbnd1 e he).2.2
          rw [heq] at hrk
          simp only at hrk
          exact hr hrk
        have hrow1 : ∀ f : Nat, f < 8 →
            b.get (Int.ofNat f) rank = segLookup ps1 (Int.ofNat f) := by
          intro f hf
          have hg := hrow f rank hf
            (by simp only [List.length_cons]; omega) (le_refl _)
          have hsplit := sqLookup_append (Int.ofNat f, rank) ps1 ps2
          rw [hps2none (Int.ofNat f)] at hsplit
          have hsplit' : sqLookup (ps1 ++ ps2) (Int.ofNat f, rank) =
              sqLookup ps1 (Int.ofNat f, rank) := hsplit
          rw [hsplit', sqLookup_of_seg hseg1] at hg
          exact hg
        have hrow2 : ∀ (f : Nat) (r : Int), f < 8 →
            (rank - 1) - rest.length < r → r ≤ rank - 1 →
            b.get (Int.ofNat f) r = sqLookup ps2 (Int.ofNat f, r) := by
          intro f r hf hlo hhi
          have hg := hrow f r hf
            (by simp only [List.length_cons]; omega) (by omega)
          have hsplit := sqLookup_append (Int.ofNat f, r) ps1 ps2
          cases hm : sqLookup ps2 (Int.ofNat f, r) with
          | some pc =>
            rw [hm] at hsplit
            have hsplit' : sqLookup (ps1 ++ ps2) (Int.ofNat f, r) =
                some pc := hsplit
            rw [hsplit'] at hg
            rw [hg]
          | none =>
            rw [hm] at hsplit
            have hsplit' : sqLookup (ps1 ++ ps2) (Int.ofNat f, r) =
                sqLookup ps1 (Int.ofNat f, r) := hsplit
            rw [hsplit', hps1none _ _ (by omega)] at hg
            rw [hg]
        have hg1 : parse_rank rank (gen_rank b rank) = .ok ps1 :=
          parse_gen_rank b rank rs ps1 h1 hrow1
        have hg2 := ih (rank - 1) ps2 h2 hrow2
        simp only [List.length_cons, List.range_succ_eq_map, List.map_cons,
          List.map_map]
        have hhead : rank - Int.ofNat 0 = rank := by
          simp only [Int.ofNat_eq_coe]
          omega
        rw [hhead]
        have htail : ∀ i ∈ List.range rest.length,
            ((fun i => gen_rank b (rank - Int.ofNat i)) ∘ Nat.succ) i =
              gen_rank b (rank - 1 - Int.ofNat i) := by
          intro i _
          show gen_rank b (rank - Int.ofNat (Nat.succ i)) = _
          have harr : rank - Int.ofNat (Nat.succ i) =
              rank - 1 - Int.ofNat i := by
            simp only [Int.ofNat_eq_coe]
            push_cast
            ring
          rw [harr]
        rw [List.map_congr_left htail]
        simp only [parse_ranks]
        rw [hg1, hg2]

/-- Parsing the placement generated from the loaded board recovers the
parsed piece list. -/
theorem parse_gen_placement (cs : List Char) (ps : List (Sq × Piece))
    (b : Board)
    (hb : b = ps.foldl (fun bb e => Board.setSq bb e.1 (some e.2))
      (fun _ => none))
    (h : parse_piece_placement cs = .ok ps) :
    parse_piece_placement (gen_piece_placement b) = .ok ps := by
  simp only [parse_piece_placement] at h
  split at h
  · cases h
  · next hlen =>
    have hlen8 : (splitOnChar '/' cs).length = 8 := by omega
    have hbnd := parse_ranks_inv (splitOnChar '/' cs) 7 ps h
    rw [hlen8] at hbnd
    have hon : ∀ e ∈ ps, is_on_board e.1.1 e.1.2 = true := by
      intro e he
      obtain ⟨h0, h8, hlo, hhi⟩ := hbnd e he
      simp only [is_on_board, Bool.and_eq_true, decide_eq_true_eq]
      omega
    have hrow : ∀ (f : Nat) (r : Int), f < 8 →
        (7 : Int) - (splitOnChar '/' cs).length < r → r ≤ 7 →
        b.get (Int.ofNat f) r = sqLookup ps (Int.ofNat f, r) := by
      intro f r _ _ _
      rw [hb, load_get ps _ _ _ hon]
      cases hm : sqLookup ps (Int.ofNat f, r) with
      | some pc => rfl
      | none =>
        show Board.get (fun _ => none) (Int.ofNat f) r = none
        unfold Board.get
        split <;> rfl
    have hmain := parse_gen_ranks b (splitOnChar '/' cs) 7 ps h hrow
    rw [hlen8] at hmain
    have hsep : ∀ l ∈ (List.range 8).map
        (fun i => gen_rank b (7 - Int.ofNat i)), ∀ c ∈ l, ¬(c = '/') := by
      intro l hl c hc
      rcases List.mem_map.mp hl with ⟨i, -, rfl⟩
      exact (gen_rank_aux_chars _ _ _ _ c hc).2
    have hnil : (List.range 8).map
        (fun i => gen_rank b (7 - Int.ofNat i)) ≠ [] := by
      intro hx
      have h8 := congrArg List.length hx
      simp at h8
    simp only [parse_piece_placement, gen_piece_placement]
    rw [splitOnChar_joinChar '/' _ hnil hsep]
    rw [if_neg (show ¬(((List.range 8).map
      (fun i => gen_rank b (7 - Int.ofNat i))).length ≠ 8) by simp)]
    exact hmain

/-- C4: the reparse half of the round-trip law. For every FEN string the
parser accepts, loading the parsed data onto a board and game state and
regenerating a FEN yields a string that parses back to exactly the same
data (pieces in the same rank-by-rank order, and all five other fields
equal). The other half of the spec's claim — that the generated string is
the canonical form of the input — is refuted separately. -/
theorem C4_reparse_roundtrip (s : String) (fd : FENData) (b0 : Board)
    (gs0 : GameState) (h : FENParser.parse s = .ok fd) :
    FENParser.parse (FENGenerator.generate (Board.load_from_fen_data b0 fd)
      (GameState.load_from_fen_data gs0 fd)) = .ok fd := by
  unfold FENParser.parse at h
  split at h
  · next p0 p1 p2 p3 p4 p5 hsplit =>
    split at h
    · cases h
    · next pieces hpp =>
      split at h
      · cases h
      · next ac hac =>
        split at h
        · cases h
        · next cr hcr =>
          split at h
          · cases h
          · next ep hep =>
            split at h
            · cases h
            · next hm hhm =>
              split at h
              · cases h
              · next fm hfm =>
                simp only [Except.ok.injEq] at h
                subst h
                have hgen : FENGenerator.generate
                    (Board.load_from_fen_data b0 ⟨pieces, ac, cr, ep, hm, fm⟩)
                    (GameState.load_from_fen_data gs0
                      ⟨pieces, ac, cr, ep, hm, fm⟩) =
                    String.mk (joinChar ' '
                      [gen_piece_placement (Board.load_from_fen_data b0
                          ⟨pieces, ac, cr, ep, hm, fm⟩),
                        gen_active_color_of ac, gen_castling_of cr,
                        gen_en_passant_of ep, intToChars hm,
                        intToChars fm]) := rfl
                rw [hgen]
                have hepshape := parse_en_passant_inv p3 ep hep
                have hhm0 := parse_halfmove_nonneg p4 hm hhm
                have hfm1 := parse_fullmove_pos p5 fm hfm
                have hfields : ∀ l ∈ [gen_piece_placement
                      (Board.load_from_fen_data b0
                        ⟨pieces, ac, cr, ep, hm, fm⟩),
                    gen_active_color_of ac, gen_castling_of cr,
                    gen_en_passant_of ep, intToChars hm, intToChars fm],
                    l ≠ [] ∧ ∀ c ∈ l, c.isWhitespace = false := by
                  intro l hl
                  simp only [List.mem_cons, List.not_mem_nil, or_false] at hl
                  rcases hl with rfl | rfl | rfl | rfl | rfl | rfl
                  · exact ⟨gen_placement_ne_nil _, gen_placement_ws _⟩
                  · exact gen_active_color_of_field ac
                  · exact gen_castling_of_field cr
                  · exact gen_en_passant_of_field ep hepshape
                  · exact intToChars_field hm hhm0
                  · exact intToChars_field fm (by omega)
                have htl : ∀ l : List Char, (String.mk l).toList = l :=
                  fun l => rfl
                unfold FENParser.parse
                rw [htl, splitWs_joinChar _ hfields]
                have hg0 := parse_gen_placement p0 pieces
                  (Board.load_from_fen_data b0 ⟨pieces, ac, cr, ep, hm, fm⟩)
                  rfl hpp
                dsimp only
                rw [hg0, parse_gen_color ac, parse_gen_castling_of cr,
                  parse_gen_ep ep hepshape,
                  parse_halfmove_intToChars hm hhm0,
                  parse_fullmove_intToChars fm hfm1]
  · cases h

/-- C4 counterexample to the canonical-form half of the claim:
"8/8/8/8/8/8/8/44 w - - 0 1" is accepted by the parser (the per-rank loop
never checks that consecutive digits are absent), and it is already in the
claim's canonical form (castling "-", en-passant "-", single spaces), yet
generating from the parsed position yields the different string
"8/8/8/8/8/8/8/8 w - - 0 1". -/
theorem C4_generate_not_canonical :
    FENParser.parse "8/8/8/8/8/8/8/44 w - - 0 1" =
      .ok ⟨[], Color.WHITE, ⟨false, false, false, false⟩, none, 0, 1⟩ ∧
    FENGenerator.generate
      (Board.load_from_fen_data (fun _ => none)
        ⟨[], Color.WHITE, ⟨false, false, false, false⟩, none, 0, 1⟩)
      (GameState.load_from_fen_data {}
        ⟨[], Color.WHITE, ⟨false, false, false, false⟩, none, 0, 1⟩) =
      "8/8/8/8/8/8/8/8 w - - 0 1" ∧
    ¬("8/8/8/8/8/8/8/8 w - - 0 1" = "8/8/8/8/8/8/8/44 w - - 0 1") := by
  refine ⟨?_, ?_, by decide⟩
  · rfl
  · rfl

/-- C4 witness: the starting position FEN parses, and the regenerated FEN
reparses to the same data. -/
theorem C4_reparse_roundtrip_witness :
    FENParser.parse STARTING_FEN = .ok fd_start ∧
    FENParser.parse (FENGenerator.generate
      (Board.load_from_fen_data (fun _ => none) fd_start)
      (GameState.load_from_fen_data {} fd_start)) = .ok fd_start :=
  ⟨by rfl, C4_reparse_roundtrip STARTING_FEN fd_start (fun _ => none) {}
    (by rfl)⟩

/-- C8: pgn_loader.py `load_from_data` never reaches the SAN loop. After
the starting position loads (the FEN tag parses when present and
nonempty; the standard start otherwise), the read of
`pgn_data.san_moves` — an attribute `PGNData` does not declare (the field
is `moves`) — raises AttributeError, so no move is ever applied and the
SAN list is never returned. -/
theorem C8_loader_attribute_error (b : Board) (gs : GameState)
    (pd : PGNData)
    (hfen : ∀ f, pd.fen = some f → ¬(f = "") →
      ∃ fd, FENParser.parse f = .ok fd) :
    PGNLoader.load_from_data b gs pd =
      .error .attribute_error_san_moves := by
  have hstart : FENLoader.load b gs STARTING_FEN =
      .ok (Board.load_from_fen_data b fd_start,
        GameState.load_from_fen_data gs fd_start) := by
    unfold FENLoader.load
    rw [show FENParser.parse STARTING_FEN = .ok fd_start from rfl]
  unfold PGNLoader.load_from_data
  cases hpd : pd.fen with
  | none =>
    simp only [hpd]
    rw [hstart]
  | some f =>
    simp only [hpd]
    by_cases hf : f = ""
    · rw [if_pos hf, hstart]
    · rw [if_neg hf]
      obtain ⟨fd, hfd⟩ := hfen f hpd hf
      have hload : FENLoader.load b gs f =
          .ok (Board.load_from_fen_data b fd,
            GameState.load_from_fen_data gs fd) := by
        unfold FENLoader.load
        rw [hfd]
      rw [hload]

/-- C8 witness: a tagless two-move game fails with the `san_moves`
AttributeError. -/
theorem C8_loader_attribute_error_witness :
    PGNLoader.load_from_data (fun _ => none) {} ⟨["e4", "e5"], none⟩ =
      .error .attribute_error_san_moves :=
  C8_loader_attribute_error (fun _ => none) {} ⟨["e4", "e5"], none⟩
    (fun _ hf => nomatch hf)

end ChessSpec
